import Mathlib

/-!
# Tracking core of `VideoProcessor` (VideoProcessor.h / VideoProcessor.cpp)

A shallow embedding of the multi-object tracking engine: the rectangle
arithmetic behind `calculateIoU`, the per-frame tracker-update phase, the
lost-track lifecycle pass and the three-pass `associateAndTrack`.

Conventions of the embedding
* C++ `int` / `long long` values are mathematical integers (`Int`).  Overflow
  is modelled where a property depends on it: `calculateIoU` multiplies and
  adds `int` areas, and is modelled both in exact integer arithmetic
  (`calculateIoU`, the function the association passes call) and with 32-bit
  two's-complement wrap-around (`calculateIoU32`); the two agree whenever the
  areas and their sum are representable.
* C++ `double` values are exact rationals (`ℚ`).  An IoU is the quotient of two
  `int` areas, which convert to `double` exactly; the program rounds the
  quotient to the nearest `double`, which keeps the values 0 and 1 and, for
  `int`-sized areas, the outcome of the comparisons with the cutoffs `0.1` and
  `0.2` (modelled as `1/10` and `1/5`).  The tick frequency and the Euclidean
  norm `cv::norm` used by the velocity are parameters (`Env`).
* `std::map<int, TrackedObject>` is an association list kept in ascending
  key order, iterated front to back.
* What the program obtains from OpenCV or the clock at run time (tracker
  update results, tracker creation results, tick counts, detector output) is
  an explicit input of the step functions.
-/

namespace VideoProcessor

/-! ## Geometry (`cv::Point`, `cv::Rect`) -/

/-- Integer pixel position, `cv::Point`. -/
structure Point where
  x : Int
  y : Int
  deriving DecidableEq, Repr

/-- Integer axis-aligned rectangle, `cv::Rect` (top-left corner, width, height). -/
structure Rect where
  x : Int
  y : Int
  width : Int
  height : Int
  deriving DecidableEq, Repr

/-- Default-constructed rectangle `cv::Rect()`: all four fields are zero. -/
def Rect.zero : Rect := ⟨0, 0, 0, 0⟩

/-- Library model of `cv::Rect::empty()`: `width <= 0 || height <= 0`. -/
def Rect.empty (r : Rect) : Bool := decide (r.width ≤ 0) || decide (r.height ≤ 0)

/-- Library model of `cv::Rect::area()`: `width * height`. -/
def Rect.area (r : Rect) : Int := r.width * r.height

/-- Library model of `cv::Rect operator&` (OpenCV `core/types.hpp`, `operator&=`):
an empty operand gives `Rect()`; otherwise the operand with the smaller `x`
(resp. `y`) is picked as `Rx_min` (resp. `Ry_min`), the overlap extent is
`min(Rx_min.width - (Rx_max.x - Rx_min.x), Rx_max.width)` and likewise for the
height, and an empty result is replaced by `Rect()`. -/
def Rect.inter (a b : Rect) : Rect :=
  if a.empty || b.empty then Rect.zero
  else
    let Rx_min := if a.x < b.x then a else b
    let Rx_max := if a.x < b.x then b else a
    let Ry_min := if a.y < b.y then a else b
    let Ry_max := if a.y < b.y then b else a
    if (decide (Rx_min.x < 0) && decide (Rx_min.x + Rx_min.width < Rx_max.x)) ||
        (decide (Ry_min.y < 0) && decide (Ry_min.y + Ry_min.height < Ry_max.y)) then Rect.zero
    else
      let r : Rect :=
        { x := Rx_max.x
          y := Ry_max.y
          width := min (Rx_min.width - (Rx_max.x - Rx_min.x)) Rx_max.width
          height := min (Ry_min.height - (Ry_max.y - Ry_min.y)) Ry_max.height }
      if r.empty then Rect.zero else r

/-- Model of `VideoProcessor::getCenter`: `Point(x + width / 2, y + height / 2)` with C++
integer division (truncation toward zero, `Int.tdiv`). -/
def getCenter (rect : Rect) : Point :=
  ⟨rect.x + Int.tdiv rect.width 2, rect.y + Int.tdiv rect.height 2⟩

/-- Model of `VideoProcessor::calculateIoU` in exact integer arithmetic: intersection
area over union area, with the two early `return 0.0` guards of the source.  It is
the value the program computes whenever the `int` areas and the `int` sum
`box1.area() + box2.area()` are representable; `calculateIoU32` below models the
32-bit evaluation for all inputs. -/
def calculateIoU (box1 box2 : Rect) : ℚ :=
  let intersection := box1.inter box2
  let intersectionArea : ℚ := (intersection.area : ℚ)
  if intersectionArea ≤ 0 then 0
  else
    let unionArea : ℚ := ((box1.area + box2.area : Int) : ℚ) - intersectionArea
    if unionArea ≤ 0 then 0 else intersectionArea / unionArea

/-! ## 32-bit `int` arithmetic in `calculateIoU` -/

/-- Largest value of a 32-bit C++ `int`, `INT_MAX`. -/
def INT_MAX : Int := 2147483647

/-- Smallest value of a 32-bit C++ `int`, `INT_MIN`. -/
def INT_MIN : Int := -2147483648

/-- The value `n` is representable in a 32-bit C++ `int`. -/
abbrev fitsInt32 (n : Int) : Prop := INT_MIN ≤ n ∧ n ≤ INT_MAX

/-- Value held by a 32-bit C++ `int` when the mathematical result of an `int`
operation is `n`: two's-complement wrap-around into `[-2^31, 2^31)`. -/
def wrapInt32 (n : Int) : Int := (n + 2147483648) % 4294967296 - 2147483648

/-- Library model of `cv::Rect::area()` with its 32-bit `int` result: the product
`width * height`, wrapped. -/
def Rect.area32 (r : Rect) : Int := wrapInt32 (r.width * r.height)

/-- Model of `VideoProcessor::calculateIoU` with 32-bit `int` arithmetic.  The three
calls of `area()` return an `int`; `box1.area() + box2.area()` is an `int` sum and is
converted to `double` only afterwards; the subtraction of `intersectionArea`, the two
guards and the division are carried out on `double` values.  `operator&` itself
is the function `Rect.inter`. -/
def calculateIoU32 (box1 box2 : Rect) : ℚ :=
  let intersection := box1.inter box2
  let intersectionArea : ℚ := (intersection.area32 : ℚ)
  if intersectionArea ≤ 0 then 0
  else
    let unionArea : ℚ := ((wrapInt32 (box1.area32 + box2.area32) : Int) : ℚ) - intersectionArea
    if unionArea ≤ 0 then 0 else intersectionArea / unionArea

/-! ## Configuration constants (VideoProcessor.h, lines 68-75) -/

/-- Detection cadence, `const int DETECT_INTERVAL = 30`. -/
def DETECT_INTERVAL : Int := 30

/-- Acceptance cutoff of the active-track pass, `const double MIN_IOU_THRESHOLD = 0.1`. -/
def MIN_IOU_THRESHOLD : ℚ := 1 / 10

/-- Acceptance cutoff of the re-identification pass, `const double REID_IOU_THRESHOLD = 0.2`. -/
def REID_IOU_THRESHOLD : ℚ := 1 / 5

/-- Expiry bound of lost tracks, `const int MAX_LOST_FRAMES = 60`. -/
def MAX_LOST_FRAMES : Int := 60

/-- Trajectory capacity, `const int TRAJECTORY_LENGTH = 20`. -/
def TRAJECTORY_LENGTH : Nat := 20

/-- Overspeed cutoff, `const double SPEED_THRESHOLD_PIXELS_PER_SEC = 150.0`. -/
def SPEED_THRESHOLD_PIXELS_PER_SEC : ℚ := 150

/-! ## Tracks and the track maps -/

/-- The `struct TrackedObject`.  The field `tracker` records whether the
`cv::Ptr<cv::Tracker>` handle is non-null; the tracker's internal state is
opaque and its answers are inputs of the frame step.  `trajectory` is the
`std::deque<cv::Point>`, oldest point first. -/
structure TrackedObject where
  tracker : Bool
  boundingBox : Rect
  id : Int
  className : String
  updated_this_frame : Bool
  trajectory : List Point
  velocity : ℚ
  last_update_tick : Int
  frames_since_seen : Int
  deriving DecidableEq

/-- Default-constructed `TrackedObject`: null tracker, `Rect()`, empty name and
trajectory, and the in-class initialisers `false`, `0.0`, `0`, `0`.  (`id` has no
initialiser in the source; every use assigns it before reading.) -/
def TrackedObject.fresh : TrackedObject :=
  { tracker := false, boundingBox := Rect.zero, id := 0, className := "",
    updated_this_frame := false, trajectory := [], velocity := 0,
    last_update_tick := 0, frames_since_seen := 0 }

/-- The `std::map<int, TrackedObject>` as a list of key/value pairs in ascending key order. -/
abbrev TrackMap := List (Int × TrackedObject)

/-- Keys of a track map, in iteration order. -/
def mapKeys (m : TrackMap) : List Int := m.map Prod.fst

/-- Model of `m.count(k)`: 1 when the key is present, else 0. -/
def mapCount (m : TrackMap) (k : Int) : Nat :=
  if m.any (fun p => decide (p.1 = k)) then 1 else 0

/-- Model of `m[k]` used as a read: the value stored under `k` (a default-constructed
object when the key is absent; both reads in the source happen under a key
known to be present). -/
def mapAt (m : TrackMap) (k : Int) : TrackedObject :=
  match m.find? (fun p => decide (p.1 = k)) with
  | some p => p.2
  | none => TrackedObject.fresh

/-- Model of `m[k] = v`: overwrite the value of an existing key, or insert the new key
at its place in the key order. -/
def mapAssign : TrackMap → Int → TrackedObject → TrackMap
  | [], k, v => [(k, v)]
  | (k', v') :: rest, k, v =>
    if k < k' then (k, v) :: (k', v') :: rest
    else if k = k' then (k, v) :: rest
    else (k', v') :: mapAssign rest k v

/-- Model of `m.erase(k)`: drop the entry stored under `k`, if any. -/
def mapErase (m : TrackMap) (k : Int) : TrackMap :=
  m.filter (fun p => decide (p.1 ≠ k))

/-! ## Run-time inputs -/

/-- Per-run collaborators that never change during a run. -/
structure Env where
  /-- Contents of `coco.names`, the `class_names` vector. -/
  class_names : List String
  /-- Value of `cv::getTickFrequency()` (ticks per second). -/
  tickFrequency : ℚ
  /-- Value of `cv::norm` on a point difference. -/
  norm : Point → ℚ

/-- Outcome of creating and initialising a fresh MOSSE tracker
(`TrackerMOSSE::create()` followed by `init`). -/
inductive TrackerInit where
  /-- A non-null tracker was created and `init` returned normally. -/
  | ok
  /-- `create()` returned a null pointer. -/
  | createFailed
  /-- `init` threw a `cv::Exception`. -/
  | initThrew
  deriving DecidableEq, Repr

/-- Everything one call of `processFrame` reads from outside the engine. -/
structure FrameInput where
  /-- Value of `cap.isOpened()`. -/
  capOpened : Bool
  /-- True when `cap.read(frame)` returned true without throwing and the frame is non-empty. -/
  readOk : Bool
  /-- Value of `cv::getTickCount()` taken before the tracker-update loop. -/
  current_tick : Int
  /-- Result of `tracker->update(frame, box)` for the track stored under an id:
  `some r` when it returns true with refined box `r` (already rounded by
  `LegacyTrackerWrapper::update`), `none` when it returns false or throws
  (the box is then left untouched). -/
  trackerUpdate : Int → Option Rect
  /-- Output `boxes` of `processYoloOutput` (empty after a detector exception). -/
  detected_boxes : List Rect
  /-- Output `classIds` of `processYoloOutput`, parallel to `detected_boxes`. -/
  detected_classIds : List Nat
  /-- Tracker creation outcome in the re-identification pass, by detection index. -/
  reidInit : Nat → TrackerInit
  /-- Tracker creation outcome in the new-track pass, by detection index. -/
  newInit : Nat → TrackerInit
  /-- Value of `cv::getTickCount()` read when the tracker for a detection index is initialised. -/
  initTick : Nat → Int

/-- Tracking state and state flags of `VideoProcessor`.  `new_id_log` is the
trace of the debug line "Initialized new Track ID": the ids of the tracks
created so far in this run, oldest first. -/
structure State where
  active_tracks : TrackMap
  lost_tracks : TrackMap
  next_track_id : Int
  frame_count : Int
  _isRunning : Bool
  _modelLoaded : Bool
  _drawRestrictedZone : Bool
  _drawTrajectory : Bool
  _checkSpeedAlert : Bool
  new_id_log : List Int

/-! ## Tracker-update phase (processFrame, lines 192-210) -/

/-- Trajectory update of a successful tracker update: `push_back` of the new
centre, then one `pop_front` when the size exceeds `TRAJECTORY_LENGTH`. -/
def pushTrajectory (trajectory : List Point) (current_center : Point) : List Point :=
  let t := trajectory ++ [current_center]
  if t.length > TRAJECTORY_LENGTH then t.tail else t

/-- Velocity assigned by a successful tracker update, given the trajectory
after the push and the track's previous `last_update_tick`. -/
def newVelocity (env : Env) (current_tick : Int) (prev_bbox : Rect) (current_center : Point)
    (trajectory : List Point) (last_update_tick : Int) : ℚ :=
  if trajectory.length ≥ 2 ∧ last_update_tick > 0 then
    let time_diff_sec : ℚ := ((current_tick - last_update_tick : Int) : ℚ) / env.tickFrequency
    if time_diff_sec > 1 / 1000 then
      let prev_center := getCenter prev_bbox
      env.norm ⟨current_center.x - prev_center.x, current_center.y - prev_center.y⟩ / time_diff_sec
    else 0
  else 0

/-- Body of the tracker-update loop for one active track stored under `id`,
after line 192 has cleared `updated_this_frame`.  Returns the updated track
and `track_success`. -/
def updateTrack (env : Env) (inp : FrameInput) (id : Int) (tobj : TrackedObject) :
    TrackedObject × Bool :=
  let tobj := { tobj with updated_this_frame := false }
  let prev_bbox := tobj.boundingBox
  match (if tobj.tracker then inp.trackerUpdate id else none) with
  | some refined =>
    let current_center := getCenter refined
    let trajectory := pushTrajectory tobj.trajectory current_center
    ({ tobj with
        boundingBox := refined
        updated_this_frame := true
        frames_since_seen := 0
        trajectory := trajectory
        velocity := newVelocity env inp.current_tick prev_bbox current_center trajectory
          tobj.last_update_tick
        last_update_tick := inp.current_tick }, true)
  | none => (tobj, false)

/-- The tracker-update loop over `active_tracks`: the updated map and the
vector `tracks_to_move_to_lost` (ids whose update failed, in iteration order). -/
def updateTrackers (env : Env) (inp : FrameInput) : TrackMap → TrackMap × List Int
  | [] => ([], [])
  | (id, tobj) :: rest =>
    let r := updateTrack env inp id tobj
    let rs := updateTrackers env inp rest
    ((id, r.1) :: rs.1, if r.2 then rs.2 else id :: rs.2)

/-! ## Lifecycle pass (processFrame, line 213) -/

/-- One iteration of the demotion loop: when `id` is still active, copy the
track to `lost_tracks` with `frames_since_seen = 1` and erase it from
`active_tracks`.  The pair is (active, lost). -/
def moveToLost (maps : TrackMap × TrackMap) (id : Int) : TrackMap × TrackMap :=
  if mapCount maps.1 id ≠ 0 then
    let lost_obj := { mapAt maps.1 id with frames_since_seen := 1 }
    (mapErase maps.1 id, mapAssign maps.2 id lost_obj)
  else maps

/-- The ageing loop over `lost_tracks`: every counter is incremented, and the
ids whose incremented counter exceeds `MAX_LOST_FRAMES` are collected in
`tracks_to_permanently_delete`. -/
def ageLost : TrackMap → TrackMap × List Int
  | [] => ([], [])
  | (id, tobj) :: rest =>
    let tobj' := { tobj with frames_since_seen := tobj.frames_since_seen + 1 }
    let rs := ageLost rest
    ((id, tobj') :: rs.1, if tobj'.frames_since_seen > MAX_LOST_FRAMES then id :: rs.2 else rs.2)

/-- The whole lifecycle pass: demote, age, then erase the expired ids. -/
def lifecyclePass (active lost : TrackMap) (tracks_to_move_to_lost : List Int) :
    TrackMap × TrackMap :=
  let moved := tracks_to_move_to_lost.foldl moveToLost (active, lost)
  let aged := ageLost moved.2
  (moved.1, aged.2.foldl mapErase aged.1)

/-! ## Detection association (associateAndTrack, lines 372-400) -/

/-- Inner loop of pass 1: scan the detections from index `i` on, skipping the
matched ones, and keep the first detection with the strictly largest IoU seen
so far (`best_iou`, `best_match_idx`; `none` stands for the index `-1`). -/
def bestDetection (tbox : Rect) (detection_matched : List Bool) :
    List Rect → Nat → ℚ × Option Nat → ℚ × Option Nat
  | [], _, best => best
  | box :: rest, i, best =>
    if detection_matched.getD i false then bestDetection tbox detection_matched rest (i + 1) best
    else
      let iou := calculateIoU tbox box
      if iou > best.1 then bestDetection tbox detection_matched rest (i + 1) (iou, some i)
      else bestDetection tbox detection_matched rest (i + 1) best

/-- Pass 1 (line 381): every active track updated this frame claims its best
unmatched detection when the IoU exceeds `MIN_IOU_THRESHOLD`.  Only
`detection_matched` changes. -/
def matchActive (detected_boxes : List Rect) : TrackMap → List Bool → List Bool
  | [], detection_matched => detection_matched
  | (_, tobj) :: rest, detection_matched =>
    if !tobj.updated_this_frame then matchActive detected_boxes rest detection_matched
    else
      match (bestDetection tobj.boundingBox detection_matched detected_boxes 0
          (MIN_IOU_THRESHOLD, none)).2 with
      | some best_match_idx =>
        matchActive detected_boxes rest (detection_matched.set best_match_idx true)
      | none => matchActive detected_boxes rest detection_matched

/-- Inner loop of pass 2: scan `lost_tracks` in key order and keep the first
lost track with the strictly largest IoU above the running best
(`best_lost_iou`, `best_lost_match_id`, the latter starting at `-1`). -/
def bestLost (dbox : Rect) : TrackMap → ℚ × Int → ℚ × Int
  | [], best => best
  | (lost_id, lost_tobj) :: rest, best =>
    let iou := calculateIoU lost_tobj.boundingBox dbox
    if iou > best.1 then bestLost dbox rest (iou, lost_id) else bestLost dbox rest best

/-- Loop state of pass 2: `active_tracks`, `detection_matched` and
`reactivated_lost_track_ids`. -/
structure ReidState where
  active_tracks : TrackMap
  detection_matched : List Bool
  reactivated_lost_track_ids : List Int

/-- The track written to `active_tracks` by a successful re-identification of
the lost track `lost_obj` with the detection box `dbox`. -/
def reactivate (lost_obj : TrackedObject) (dbox : Rect) (tick : Int) : TrackedObject :=
  { lost_obj with
    boundingBox := dbox
    tracker := true
    updated_this_frame := true
    frames_since_seen := 0
    trajectory := [getCenter dbox]
    last_update_tick := tick
    velocity := 0 }

/-- Body of the pass-2 loop for detection `i` with box `dbox` (lines 384-390).
`lost_tracks` is only read here. -/
def reidStep (inp : FrameInput) (lost_tracks : TrackMap) (i : Nat) (dbox : Rect)
    (st : ReidState) : ReidState :=
  if st.detection_matched.getD i false then st
  else
    let best_lost_match_id := (bestLost dbox lost_tracks (REID_IOU_THRESHOLD, -1)).2
    if best_lost_match_id ≠ -1 then
      match inp.reidInit i with
      | TrackerInit.ok =>
        { active_tracks := mapAssign st.active_tracks best_lost_match_id
            (reactivate (mapAt lost_tracks best_lost_match_id) dbox (inp.initTick i))
          detection_matched := st.detection_matched.set i true
          reactivated_lost_track_ids := st.reactivated_lost_track_ids ++ [best_lost_match_id] }
      | TrackerInit.createFailed => st
      | TrackerInit.initThrew => st
    else st

/-- Pass 2 loop over the detections from index `i` on. -/
def reidLoop (inp : FrameInput) (lost_tracks : TrackMap) :
    List Rect → Nat → ReidState → ReidState
  | [], _, st => st
  | dbox :: rest, i, st => reidLoop inp lost_tracks rest (i + 1) (reidStep inp lost_tracks i dbox st)

/-- Loop state of pass 3: `active_tracks`, `next_track_id` and the trace of
created ids. -/
structure NewState where
  active_tracks : TrackMap
  next_track_id : Int
  new_id_log : List Int

/-- The track written to `active_tracks` for a brand-new detection. -/
def newTrack (env : Env) (id : Int) (dbox : Rect) (classId : Nat) (tick : Int) : TrackedObject :=
  { TrackedObject.fresh with
    id := id
    boundingBox := dbox
    className := env.class_names.getD classId ""
    tracker := true
    updated_this_frame := true
    trajectory := [getCenter dbox]
    last_update_tick := tick }

/-- Body of the pass-3 loop for detection `i` (lines 394-399): the id is taken
with `next_track_id++`; a failed tracker creation undoes it with
`next_track_id--` and inserts nothing. -/
def newStep (env : Env) (inp : FrameInput) (detection_matched : List Bool)
    (detected_classIds : List Nat) (i : Nat) (dbox : Rect) (st : NewState) : NewState :=
  if detection_matched.getD i false then st
  else
    let id := st.next_track_id
    let next := st.next_track_id + 1
    match inp.newInit i with
    | TrackerInit.ok =>
      { active_tracks := mapAssign st.active_tracks id
          (newTrack env id dbox (detected_classIds.getD i 0) (inp.initTick i))
        next_track_id := next
        new_id_log := st.new_id_log ++ [id] }
    | TrackerInit.createFailed => { st with next_track_id := next - 1 }
    | TrackerInit.initThrew => { st with next_track_id := next - 1 }

/-- Pass 3 loop over the detections from index `i` on. -/
def newLoop (env : Env) (inp : FrameInput) (detection_matched : List Bool)
    (detected_classIds : List Nat) : List Rect → Nat → NewState → NewState
  | [], _, st => st
  | dbox :: rest, i, st =>
    newLoop env inp detection_matched detected_classIds rest (i + 1)
      (newStep env inp detection_matched detected_classIds i dbox st)

/-- Model of `VideoProcessor::associateAndTrack` on the detections carried by `inp`. -/
def associateAndTrack (env : Env) (inp : FrameInput) (s : State) : State :=
  let detection_matched := List.replicate inp.detected_boxes.length false
  let matched1 := matchActive inp.detected_boxes s.active_tracks detection_matched
  let r := reidLoop inp s.lost_tracks inp.detected_boxes 0
    { active_tracks := s.active_tracks, detection_matched := matched1,
      reactivated_lost_track_ids := [] }
  let lost := r.reactivated_lost_track_ids.foldl mapErase s.lost_tracks
  let n := newLoop env inp r.detection_matched inp.detected_classIds inp.detected_boxes 0
    { active_tracks := r.active_tracks, next_track_id := s.next_track_id,
      new_id_log := s.new_id_log }
  { s with
    active_tracks := n.active_tracks
    lost_tracks := lost
    next_track_id := n.next_track_id
    new_id_log := n.new_id_log }

/-! ## Frame step, commands and runs -/

/-- Track-state effect of `VideoProcessor::stopProcessing`. -/
def stopProcessing (s : State) : State :=
  { s with _isRunning := false, active_tracks := [], lost_tracks := [] }

/-- State after the tracker-update phase and the lifecycle pass (lines 192-213). -/
def updateAndLifecycle (env : Env) (inp : FrameInput) (s : State) : State :=
  let u := updateTrackers env inp s.active_tracks
  let l := lifecyclePass u.1 s.lost_tracks u.2
  { s with active_tracks := l.1, lost_tracks := l.2 }

/-- Model of `VideoProcessor::processFrame` restricted to the tracking state:
the guards of lines 165-189, the tracker-update phase, the lifecycle pass, the
conditional detection/association and `frame_count++`. -/
def processFrame (env : Env) (inp : FrameInput) (s : State) : State :=
  if !s._isRunning || !inp.capOpened then
    if s._isRunning then stopProcessing s else s
  else if !inp.readOk then stopProcessing s
  else
    let s2 := updateAndLifecycle env inp s
    let s3 :=
      if Int.tmod s2.frame_count DETECT_INTERVAL = 0 ∨ s2.active_tracks.isEmpty then
        associateAndTrack env inp s2
      else s2
    { s3 with frame_count := s3.frame_count + 1 }

/-- Track-state effect of a successful `VideoProcessor::startProcessing`
(lines 107 and 132). -/
def startProcessing (s : State) : State :=
  { s with active_tracks := [], lost_tracks := [], next_track_id := 0, frame_count := 0,
           _isRunning := true, new_id_log := [] }

/-- What can happen to the engine between `startProcessing` and the next start. -/
inductive Command where
  /-- The timer fires `processFrame`. -/
  | frame (inp : FrameInput)
  /-- The slot `stopProcessing`. -/
  | stop
  /-- The slot `setDrawRestrictedZone`. -/
  | setDrawRestrictedZone (enabled : Bool)
  /-- The slot `setDrawTrajectory`. -/
  | setDrawTrajectory (enabled : Bool)
  /-- The slot `setCheckSpeedAlert`. -/
  | setCheckSpeedAlert (enabled : Bool)

/-- Effect of one command. -/
def step (env : Env) (s : State) : Command → State
  | Command.frame inp => processFrame env inp s
  | Command.stop => stopProcessing s
  | Command.setDrawRestrictedZone enabled => { s with _drawRestrictedZone := enabled }
  | Command.setDrawTrajectory enabled => { s with _drawTrajectory := enabled }
  | Command.setCheckSpeedAlert enabled => { s with _checkSpeedAlert := enabled }

/-- State reached from a freshly started engine after a sequence of commands. -/
def run (env : Env) (s0 : State) (cmds : List Command) : State :=
  cmds.foldl (step env) (startProcessing s0)

/-! ## Auxiliary notions used in the statements -/

/-- Overlap extent of two rectangles along x: `min` of the right edges minus `max` of the left edges. -/
def overlapWidth (a b : Rect) : Int := min (a.x + a.width) (b.x + b.width) - max a.x b.x

/-- Overlap extent of two rectangles along y. -/
def overlapHeight (a b : Rect) : Int := min (a.y + a.height) (b.y + b.height) - max a.y b.y

/-- Every id stored in `active_tracks` or `lost_tracks` lies in `[0, next_track_id)`. -/
def IdsBelow (s : State) : Prop :=
  ∀ k ∈ mapKeys s.active_tracks ++ mapKeys s.lost_tracks, 0 ≤ k ∧ k < s.next_track_id

/-- No id is stored in both `active_tracks` and `lost_tracks`. -/
def ActiveLostDisjoint (s : State) : Prop :=
  ∀ k ∈ mapKeys s.active_tracks, k ∉ mapKeys s.lost_tracks

/-- The ids `0, 1, ..., n - 1` in ascending order. -/
def idsUpTo (n : Int) : List Int := (List.range n.toNat).map Int.ofNat

/-- The ids created so far in the run are exactly `0, ..., next_track_id - 1`, in that order. -/
def LogExact (s : State) : Prop :=
  0 ≤ s.next_track_id ∧ s.new_id_log = idsUpTo s.next_track_id

/-- Every stored trajectory holds at most `TRAJECTORY_LENGTH` points. -/
def TrajBounded (m : TrackMap) : Prop :=
  ∀ p ∈ m, p.2.trajectory.length ≤ TRAJECTORY_LENGTH

/-- The identity invariant carried along a run. -/
def IdInv (s : State) : Prop := IdsBelow s ∧ ActiveLostDisjoint s ∧ LogExact s

/-- What the re-identification loop maintains, relative to the active map it
started from and the lost map it reads. -/
def ReidInv (active0 lost : TrackMap) (st : ReidState) : Prop :=
  (∀ p ∈ st.active_tracks,
      p ∈ active0 ∨ (p.1 ∈ st.reactivated_lost_track_ids ∧ p.2.trajectory.length = 1)) ∧
    ∀ k ∈ st.reactivated_lost_track_ids, k ∈ mapKeys lost

/-- What the new-track loop maintains, relative to the state it started from. -/
def NewInv (st0 st : NewState) : Prop :=
  st0.next_track_id ≤ st.next_track_id ∧
    (∀ p ∈ st.active_tracks,
      p ∈ st0.active_tracks ∨
        (st0.next_track_id ≤ p.1 ∧ p.1 < st.next_track_id ∧ p.2.trajectory.length = 1)) ∧
    (∃ created, st.new_id_log = st0.new_id_log ++ created ∧
      ∀ k ∈ created, st0.next_track_id ≤ k ∧ k < st.next_track_id ∧
        k ∈ mapKeys st.active_tracks) ∧
    (∀ k ∈ mapKeys st0.active_tracks, k ∈ mapKeys st.active_tracks) ∧
    (0 ≤ st0.next_track_id → st0.new_id_log = idsUpTo st0.next_track_id →
      st.new_id_log = idsUpTo st.next_track_id)

/-- Both track maps respect the trajectory bound. -/
def TrajInv (s : State) : Prop := TrajBounded s.active_tracks ∧ TrajBounded s.lost_tracks

/-- A state predicate is stable when every building block of a command
preserves it: stopping, the tracker-update phase with the lifecycle pass, the
association, the frame counter update and the three toggle slots. -/
def Stable (env : Env) (P : State → Prop) : Prop :=
  (∀ s, P s → P (stopProcessing s)) ∧
  (∀ inp s, P s → P (updateAndLifecycle env inp s)) ∧
  (∀ inp s, P s → P (associateAndTrack env inp s)) ∧
  (∀ s n, P s → P { s with frame_count := n }) ∧
  (∀ s b, P s → P { s with _drawRestrictedZone := b }) ∧
  (∀ s b, P s → P { s with _drawTrajectory := b }) ∧
  (∀ s b, P s → P { s with _checkSpeedAlert := b })

/-- Representation invariant of a `std::map`: keys strictly ascending. -/
def MapSorted (m : TrackMap) : Prop := (mapKeys m).Pairwise (· < ·)

/-- Both track maps are well-formed maps. -/
def SortedInv (s : State) : Prop := MapSorted s.active_tracks ∧ MapSorted s.lost_tracks

/-- State in which `associateAndTrack` is entered during the frame that
follows a run: the run's final state after the tracker-update phase and the
lifecycle pass of that frame. -/
def preAssociation (env : Env) (s0 : State) (cmds : List Command) (inp : FrameInput) : State :=
  updateAndLifecycle env inp (run env s0 cmds)

/-! ## Concrete inputs used to exercise the statements -/

/-- A frame input on which nothing happens: the capture is open, the frame is
read, every tracker update fails, the detector reports nothing and every
tracker creation succeeds. -/
def quietInput : FrameInput :=
  { capOpened := true, readOk := true, current_tick := 0, trackerUpdate := fun _ => none,
    detected_boxes := [], detected_classIds := [], reidInit := fun _ => TrackerInit.ok,
    newInit := fun _ => TrackerInit.ok, initTick := fun _ => 0 }

/-- An engine that has loaded its model and is not running, all toggles at
their initial values. -/
def idleState : State :=
  { active_tracks := [], lost_tracks := [], next_track_id := 0, frame_count := 0,
    _isRunning := false, _modelLoaded := true, _drawRestrictedZone := true,
    _drawTrajectory := false, _checkSpeedAlert := true, new_id_log := [] }

/-- An environment with three class names, a 1000 Hz tick clock and the
1-norm standing in for `cv::norm` (the two agree on axis-parallel moves). -/
def sampleEnv : Env :=
  { class_names := ["person", "bicycle", "car"], tickFrequency := 1000,
    norm := fun p => ((p.x.natAbs + p.y.natAbs : Nat) : ℚ) }

/-- A lost track stored under id 7 whose counter `frames_since_seen` is `n`. -/
def lostAged (n : Int) : TrackedObject :=
  { TrackedObject.fresh with
    tracker := true, id := 7, boundingBox := ⟨0, 0, 50, 50⟩, className := "car",
    trajectory := [⟨25, 25⟩], frames_since_seen := n }

/-- An active track stored under id 0 whose trajectory is the `n` points
`(0,0), (1,0), ..., (n-1,0)`. -/
def trackWithHistory (n : Nat) : TrackedObject :=
  { TrackedObject.fresh with
    tracker := true, id := 0, boundingBox := ⟨0, 0, 50, 50⟩, className := "car",
    updated_this_frame := true,
    trajectory := (List.range n).map (fun i => (⟨(i : Int), 0⟩ : Point)) }

/-- A frame input whose tracker update succeeds for every track with the
refined box `(100, 100, 50, 50)`. -/
def movingInput : FrameInput :=
  { quietInput with trackerUpdate := fun _ => some ⟨100, 100, 50, 50⟩ }

/-- A frame input whose detector reports one box `(0, 0, 50, 50)` of class
index 2 ("car" in `sampleEnv`), read at tick 5. -/
def carInput : FrameInput :=
  { quietInput with
    detected_boxes := [⟨0, 0, 50, 50⟩], detected_classIds := [2], initTick := fun _ => 5 }

/-- Frame 0 of the re-identification scenario: the detector reports the box
`(0, 0, 100, 100)` of class index 2. -/
def firstSighting : FrameInput :=
  { quietInput with detected_boxes := [⟨0, 0, 100, 100⟩], detected_classIds := [2] }

/-- A later frame of the scenario: the detector reports the box
`(0, 0, 100, 50)`, whose IoU with `(0, 0, 100, 100)` is 1/2. -/
def halfOverlap : FrameInput :=
  { quietInput with detected_boxes := [⟨0, 0, 100, 50⟩], detected_classIds := [2] }

/-- A later frame of the scenario: the detector reports the box
`(500, 500, 10, 10)`, far away from `(0, 0, 100, 100)`. -/
def farAway : FrameInput :=
  { quietInput with detected_boxes := [⟨500, 500, 10, 10⟩], detected_classIds := [2] }

/-- The scenario run: track 0 is created in frame 0 and its tracker fails in
frame 1, so that it is demoted to `lost_tracks`. -/
def demotedRun : List Command := [Command.frame firstSighting, Command.frame quietInput]

/-! ## Alert pass (processFrame, lines 239-283) -/

/-- Box colours of the drawing pass: `Scalar(0,255,0)`, `Scalar(0,0,255)` and
`Scalar(0,165,255)`. -/
inductive BoxColor where
  /-- Default colour, no alert. -/
  | green
  /-- Zone alert. -/
  | red
  /-- Speed alert without zone alert. -/
  | orange
  deriving DecidableEq, Repr

/-- The rectangle `restricted_zone(0, 0, frame.cols / 2, frame.rows / 2)` of line 242. -/
def restrictedZone (cols rows : Int) : Rect := ⟨0, 0, Int.tdiv cols 2, Int.tdiv rows 2⟩

/-- What the alert pass derives for one drawn track: whether the zone branch
and the speed branch ran, the box colour and the text appended to the label. -/
structure AlertFlags where
  zone : Bool
  speed : Bool
  box_color : BoxColor
  alert_text : String
  deriving DecidableEq

/-- Body of the alert loop for one entry of `active_tracks` (lines 245-265):
`none` when the track is skipped because `updated_this_frame` is false. -/
def trackAlerts (s : State) (restricted_zone : Rect) (tobj : TrackedObject) :
    Option AlertFlags :=
  if tobj.updated_this_frame then
    let zone := s._drawRestrictedZone &&
      decide ((tobj.boundingBox.inter restricted_zone).area > 0)
    let box_color1 := if zone then BoxColor.red else BoxColor.green
    let alert_text1 := if zone then "" ++ "[ZONE]" else ""
    let speed := s._checkSpeedAlert &&
      decide (tobj.velocity > SPEED_THRESHOLD_PIXELS_PER_SEC)
    let box_color2 :=
      if speed then (if box_color1 = BoxColor.green then BoxColor.orange else box_color1)
      else box_color1
    let alert_text2 := if speed then alert_text1 ++ "[SPEED]" else alert_text1
    some { zone := zone, speed := speed, box_color := box_color2, alert_text := alert_text2 }
  else none

/-- The track raises the zone alert in the alert pass. -/
def raisesZoneAlert (s : State) (restricted_zone : Rect) (tobj : TrackedObject) : Bool :=
  match trackAlerts s restricted_zone tobj with
  | some f => f.zone
  | none => false

/-- The track raises the speed alert in the alert pass. -/
def raisesSpeedAlert (s : State) (restricted_zone : Rect) (tobj : TrackedObject) : Bool :=
  match trackAlerts s restricted_zone tobj with
  | some f => f.speed
  | none => false

/-- The alert loop over `active_tracks` on a frame of the given size: the final
value of `alert_active_this_frame` and the flags of every drawn track. -/
def alertPass (cols rows : Int) (s : State) : Bool × List (Int × AlertFlags) :=
  let reports := s.active_tracks.filterMap (fun p =>
    (trackAlerts s (restrictedZone cols rows) p.2).map (fun f => (p.1, f)))
  (reports.any (fun r => r.2.zone || r.2.speed), reports)

/-- Activity invariant: every active track has `frames_since_seen = 0` and
`updated_this_frame = true`, every lost track has `frames_since_seen >= 1`. -/
def ActivityInv (s : State) : Prop :=
  (∀ p ∈ s.active_tracks, p.2.frames_since_seen = 0 ∧ p.2.updated_this_frame = true) ∧
  (∀ p ∈ s.lost_tracks, 1 ≤ p.2.frames_since_seen)

/-- A frame input whose detector reports the boxes `(50, 50, 60, 60)` and
`(200, 200, 10, 10)`, both of class index 2. -/
def twoSightings : FrameInput :=
  { quietInput with
    detected_boxes := [⟨50, 50, 60, 60⟩, ⟨200, 200, 10, 10⟩], detected_classIds := [2, 2] }


/-- Frame 0 of the speeding scenario: the detector reports the box
`(-25, -25, 50, 50)`, whose centre is `(0, 0)`, and the tracker is initialised
at tick 1000. -/
def timedSighting : FrameInput :=
  { quietInput with
    detected_boxes := [⟨-25, -25, 50, 50⟩], detected_classIds := [2], initTick := fun _ => 1000 }

/-- Frame 1 of the speeding scenario: at tick 2000 (one second later at
1000 Hz) every tracker reports the box `(175, -25, 50, 50)`, whose centre is
`(200, 0)`. -/
def fastMove : FrameInput :=
  { quietInput with current_tick := 2000, trackerUpdate := fun _ => some ⟨175, -25, 50, 50⟩ }

/-- The speeding scenario: a track is created at centre `(0, 0)` and moves to
centre `(200, 0)` within one second. -/
def speedingRun : List Command := [Command.frame timedSighting, Command.frame fastMove]

/-- An active track whose box `(-25, -25, 50, 50)` has centre `(0, 0)`, last
updated at tick 1000. -/
def trackAtOrigin : TrackedObject :=
  { TrackedObject.fresh with
    tracker := true, id := 0, boundingBox := ⟨-25, -25, 50, 50⟩, className := "car",
    updated_this_frame := true, trajectory := [⟨0, 0⟩], last_update_tick := 1000 }


/-- Seconds elapsed between a track's `last_update_tick` and the frame's
`current_tick`: the tick difference divided by the tick frequency
(`time_diff_sec` of line 209). -/
def elapsedSeconds (env : Env) (inp : FrameInput) (tobj : TrackedObject) : ℚ :=
  ((inp.current_tick - tobj.last_update_tick : Int) : ℚ) / env.tickFrequency

/-- Difference between the centre of a new box and the centre of the
previous box (`current_center - prev_center`). -/
def centreShift (new_box prev_bbox : Rect) : Point :=
  ⟨(getCenter new_box).x - (getCenter prev_bbox).x, (getCenter new_box).y - (getCenter prev_bbox).y⟩


/-- The two detections of `twoSightings` on a frame where no tracker can be
created: `create()` returns null in the re-identification pass and `init`
throws in the new-track pass. -/
def noTrackerInput : FrameInput :=
  { twoSightings with
    reidInit := fun _ => TrackerInit.createFailed, newInit := fun _ => TrackerInit.initThrew }

/-- The two detections of `twoSightings` on a frame where tracker creation
fails for detection 0 only. -/
def firstFailsInput : FrameInput :=
  { twoSightings with
    newInit := fun i => if i = 0 then TrackerInit.createFailed else TrackerInit.ok }


/-- The vector `detection_matched` when pass 1 of `associateAndTrack` has finished. -/
def consumedAfterPass1 (inp : FrameInput) (s : State) : List Bool :=
  matchActive inp.detected_boxes s.active_tracks
    (List.replicate inp.detected_boxes.length false)

/-- Loop state of pass 2 of `associateAndTrack` when the pass has finished. -/
def reidResult (inp : FrameInput) (s : State) : ReidState :=
  reidLoop inp s.lost_tracks inp.detected_boxes 0
    { active_tracks := s.active_tracks, detection_matched := consumedAfterPass1 inp s,
      reactivated_lost_track_ids := [] }


/-- A frame of the re-identification scenario on which the detector reports two
disjoint boxes, `(0, 0, 100, 40)` and `(0, 60, 100, 40)`; each has IoU 2/5 with
`(0, 0, 100, 100)` and the two do not overlap each other. -/
def splitInput : FrameInput :=
  { quietInput with
    detected_boxes := [⟨0, 0, 100, 40⟩, ⟨0, 60, 100, 40⟩], detected_classIds := [2, 2] }


/-- A frame on which every tracker reports the box `(0, 0, 100, 100)` and the
detector reports the box `(0, 0, 100, 50)`. -/
def trackedAndDetected : FrameInput :=
  { halfOverlap with trackerUpdate := fun _ => some ⟨0, 0, 100, 100⟩ }


/-- Every active track holds a tracker handle and a non-empty trajectory whose
most recent point is the centre of its bounding box. -/
def RecentInv (s : State) : Prop :=
  ∀ p ∈ s.active_tracks,
    p.2.tracker = true ∧ p.2.trajectory.getLast? = some (getCenter p.2.boundingBox)


/-! # Properties -/

/-! ## Rectangle intersection and `calculateIoU` -/

/-- The library intersection agrees with the classic formulation of
`operator&=`: the rectangle spanned by the larger corner and the overlap
extents, replaced by `Rect()` when an extent is not positive. -/
theorem inter_eq_overlap (a b : Rect) :
    a.inter b =
      if overlapWidth a b ≤ 0 ∨ overlapHeight a b ≤ 0 then Rect.zero
      else ⟨max a.x b.x, max a.y b.y, overlapWidth a b, overlapHeight a b⟩ := by
  obtain ⟨ax, ay, aw, ah⟩ := a
  obtain ⟨bx, b_y, bw, bh⟩ := b
  simp only [Rect.inter, Rect.empty, overlapWidth, overlapHeight, Rect.zero, Bool.or_eq_true,
    Bool.and_eq_true, decide_eq_true_eq]
  by_cases hx : ax < bx <;> by_cases hy : ay < b_y <;>
    simp only [hx, hy, if_true, if_false] <;>
    split_ifs <;>
    first
      | rfl
      | (exfalso; omega)
      | (simp only [Rect.mk.injEq]; omega)

theorem inter_comm (a b : Rect) : a.inter b = b.inter a := by
  rw [inter_eq_overlap, inter_eq_overlap]
  simp only [overlapWidth, overlapHeight, min_comm (a.x + a.width), min_comm (a.y + a.height),
    max_comm a.x, max_comm a.y]

theorem inter_zero_of_no_overlap (a b : Rect)
    (h : overlapWidth a b ≤ 0 ∨ overlapHeight a b ≤ 0) : a.inter b = Rect.zero := by
  rw [inter_eq_overlap, if_pos h]

theorem inter_self (a : Rect) (hw : 0 < a.width) (hh : 0 < a.height) : a.inter a = a := by
  rw [inter_eq_overlap]
  have h1 : overlapWidth a a = a.width := by simp [overlapWidth]
  have h2 : overlapHeight a a = a.height := by simp [overlapHeight]
  rw [h1, h2, if_neg (by omega)]
  simp

/-- C1: `calculateIoU` is symmetric in its two rectangles, for all integer
rectangles (any x, y, width, height, including non-positive sizes). -/
theorem calculateIoU_symmetric (A B : Rect) : calculateIoU A B = calculateIoU B A := by
  simp only [calculateIoU, inter_comm A B, Int.add_comm A.area B.area]

/-- C2: `calculateIoU A B` is exactly 0 when either rectangle has a
non-positive width or height (also when both are negative, so that
`width * height` is positive), and when the rectangles do not overlap, i.e. the
overlap `min(right edges) - max(left edges)` is not positive along x or along y. -/
theorem calculateIoU_zero_of_no_overlap (A B : Rect)
    (h : A.width ≤ 0 ∨ A.height ≤ 0 ∨ B.width ≤ 0 ∨ B.height ≤ 0 ∨
      min (A.x + A.width) (B.x + B.width) ≤ max A.x B.x ∨
      min (A.y + A.height) (B.y + B.height) ≤ max A.y B.y) :
    calculateIoU A B = 0 := by
  have hz : A.inter B = Rect.zero := by
    apply inter_zero_of_no_overlap
    simp only [overlapWidth, overlapHeight]
    omega
  simp [calculateIoU, hz, Rect.zero, Rect.area]

/-- Witness of C2: a rectangle with width and height both negative (area +25)
lying inside a proper rectangle. -/
theorem calculateIoU_zero_of_no_overlap_witness :
    ((⟨0, 0, -5, -5⟩ : Rect).width ≤ 0 ∧ (⟨0, 0, -5, -5⟩ : Rect).area = 25) ∧
      calculateIoU ⟨0, 0, -5, -5⟩ ⟨-10, -10, 20, 20⟩ = 0 :=
  ⟨by decide, calculateIoU_zero_of_no_overlap ⟨0, 0, -5, -5⟩ ⟨-10, -10, 20, 20⟩
    (Or.inl (by decide))⟩

/-- In exact integer arithmetic, `calculateIoU A A = 1` for every rectangle with
positive width and positive height. -/
theorem calculateIoU_self (A : Rect) (hw : 0 < A.width) (hh : 0 < A.height) :
    calculateIoU A A = 1 := by
  have hpos : (0 : ℚ) < ((A.area : Int) : ℚ) := by
    have : 0 < A.area := Int.mul_pos hw hh
    exact_mod_cast this
  simp only [calculateIoU, inter_self A hw hh]
  rw [if_neg (not_le.mpr hpos)]
  have hu : ((A.area + A.area : Int) : ℚ) - (A.area : ℚ) = (A.area : ℚ) := by
    push_cast; ring
  rw [hu, if_neg (not_le.mpr hpos)]
  exact div_self (ne_of_gt hpos)

/-- The exact evaluation on the box (0, 0, 50, 50). -/
theorem calculateIoU_self_witness :
    (0 < (⟨0, 0, 50, 50⟩ : Rect).width ∧ 0 < (⟨0, 0, 50, 50⟩ : Rect).height) ∧
      calculateIoU ⟨0, 0, 50, 50⟩ ⟨0, 0, 50, 50⟩ = 1 :=
  ⟨by decide, calculateIoU_self ⟨0, 0, 50, 50⟩ (by decide) (by decide)⟩

/-! ## Track-map operations -/

theorem mem_mapAssign_self (m : TrackMap) (k : Int) (v : TrackedObject) :
    (k, v) ∈ mapAssign m k v := by
  induction m with
  | nil => simp [mapAssign]
  | cons p rest ih =>
    obtain ⟨k', v'⟩ := p
    simp only [mapAssign]
    split_ifs <;> simp [ih]

theorem mem_of_mem_mapAssign (m : TrackMap) (k : Int) (v : TrackedObject)
    (p : Int × TrackedObject) (h : p ∈ mapAssign m k v) : p = (k, v) ∨ p ∈ m := by
  induction m with
  | nil => simpa [mapAssign] using h
  | cons q rest ih =>
    obtain ⟨k', v'⟩ := q
    simp only [mapAssign] at h
    split_ifs at h with h1 h2
    · rcases List.mem_cons.mp h with h | h
      · exact Or.inl h
      · exact Or.inr h
    · rcases List.mem_cons.mp h with h | h
      · exact Or.inl h
      · exact Or.inr (List.mem_cons_of_mem _ h)
    · rcases List.mem_cons.mp h with h | h
      · exact Or.inr (h ▸ List.mem_cons_self _ _)
      · rcases ih h with h | h
        · exact Or.inl h
        · exact Or.inr (List.mem_cons_of_mem _ h)

theorem mem_mapAssign_of_ne (m : TrackMap) (k : Int) (v : TrackedObject)
    (p : Int × TrackedObject) (h : p ∈ m) (hne : p.1 ≠ k) : p ∈ mapAssign m k v := by
  induction m with
  | nil => cases h
  | cons q rest ih =>
    obtain ⟨k', v'⟩ := q
    simp only [mapAssign]
    split_ifs with h1 h2
    · exact List.mem_cons_of_mem _ h
    · rcases List.mem_cons.mp h with h | h
      · subst h; exact absurd h2.symm hne
      · exact List.mem_cons_of_mem _ h
    · rcases List.mem_cons.mp h with h | h
      · exact h ▸ List.mem_cons_self _ _
      · exact List.mem_cons_of_mem _ (ih h)

theorem mem_mapKeys {m : TrackMap} {k : Int} : k ∈ mapKeys m ↔ ∃ v, (k, v) ∈ m := by
  simp [mapKeys]

theorem mem_mapKeys_of_mem {m : TrackMap} {p : Int × TrackedObject} (h : p ∈ m) :
    p.1 ∈ mapKeys m :=
  mem_mapKeys.mpr ⟨p.2, h⟩

theorem mem_mapKeys_mapAssign (m : TrackMap) (k : Int) (v : TrackedObject) (j : Int) :
    j ∈ mapKeys (mapAssign m k v) ↔ j = k ∨ j ∈ mapKeys m := by
  constructor
  · intro h
    obtain ⟨w, hw⟩ := mem_mapKeys.mp h
    rcases mem_of_mem_mapAssign m k v _ hw with h | h
    · exact Or.inl (congrArg Prod.fst h)
    · exact Or.inr (mem_mapKeys.mpr ⟨w, h⟩)
  · rintro (h | h)
    · subst h; exact mem_mapKeys.mpr ⟨v, mem_mapAssign_self m j v⟩
    · by_cases hjk : j = k
      · subst hjk; exact mem_mapKeys.mpr ⟨v, mem_mapAssign_self m j v⟩
      · obtain ⟨w, hw⟩ := mem_mapKeys.mp h
        exact mem_mapKeys.mpr ⟨w, mem_mapAssign_of_ne m k v _ hw hjk⟩

theorem mem_mapErase {m : TrackMap} {k : Int} {p : Int × TrackedObject} :
    p ∈ mapErase m k ↔ p ∈ m ∧ p.1 ≠ k := by
  simp [mapErase, List.mem_filter]

theorem mem_foldl_mapErase (ks : List Int) (m : TrackMap) (p : Int × TrackedObject) :
    p ∈ ks.foldl mapErase m ↔ p ∈ m ∧ p.1 ∉ ks := by
  induction ks generalizing m with
  | nil => simp
  | cons k rest ih =>
    simp only [List.foldl_cons, ih, mem_mapErase, List.mem_cons, not_or]
    tauto

theorem mapCount_ne_zero {m : TrackMap} {k : Int} : mapCount m k ≠ 0 ↔ k ∈ mapKeys m := by
  simp only [mapCount, mapKeys]
  split_ifs with h
  · simp only [List.any_eq_true, decide_eq_true_eq] at h
    obtain ⟨p, hp, hk⟩ := h
    simp only [ne_eq, one_ne_zero, not_false_eq_true, List.mem_map, true_iff]
    exact ⟨p, hp, hk⟩
  · simp only [List.any_eq_true, decide_eq_true_eq, not_exists, not_and] at h
    simp only [ne_eq, not_true_eq_false, List.mem_map, false_iff, not_exists, not_and]
    exact fun p hp => h p hp

theorem mapAt_mem {m : TrackMap} {k : Int} (h : k ∈ mapKeys m) : (k, mapAt m k) ∈ m := by
  induction m with
  | nil => simp [mapKeys] at h
  | cons q rest ih =>
    obtain ⟨k', v'⟩ := q
    by_cases hk : k' = k
    · subst hk
      simp [mapAt, List.find?]
    · have hrest : k ∈ mapKeys rest := by
        simp only [mapKeys, List.map_cons, List.mem_cons] at h
        rcases h with h | h
        · exact absurd h.symm hk
        · exact h
      have := ih hrest
      have hm : mapAt ((k', v') :: rest) k = mapAt rest k := by
        simp [mapAt, List.find?, hk]
      rw [hm]
      exact List.mem_cons_of_mem _ this

/-! ## Tracker-update phase -/

theorem pushTrajectory_length_le (t : List Point) (c : Point)
    (h : t.length ≤ TRAJECTORY_LENGTH) : (pushTrajectory t c).length ≤ TRAJECTORY_LENGTH := by
  simp only [pushTrajectory]
  split_ifs with h1
  · simp only [List.length_tail, List.length_append, List.length_singleton]
    omega
  · omega

theorem updateTrack_trajectory_le (env : Env) (inp : FrameInput) (id : Int) (tobj : TrackedObject)
    (h : tobj.trajectory.length ≤ TRAJECTORY_LENGTH) :
    (updateTrack env inp id tobj).1.trajectory.length ≤ TRAJECTORY_LENGTH := by
  simp only [updateTrack]
  split
  · exact pushTrajectory_length_le _ _ h
  · exact h

theorem updateTrackers_keys (env : Env) (inp : FrameInput) (m : TrackMap) :
    mapKeys (updateTrackers env inp m).1 = mapKeys m := by
  induction m with
  | nil => rfl
  | cons q rest ih =>
    obtain ⟨k, v⟩ := q
    simp only [updateTrackers, mapKeys, List.map_cons] at ih ⊢
    rw [ih]

theorem updateTrackers_mem (env : Env) (inp : FrameInput) (m : TrackMap)
    (p : Int × TrackedObject) (h : p ∈ (updateTrackers env inp m).1) :
    ∃ t, (p.1, t) ∈ m ∧ p.2 = (updateTrack env inp p.1 t).1 := by
  induction m with
  | nil => simp [updateTrackers] at h
  | cons q rest ih =>
    obtain ⟨k, v⟩ := q
    simp only [updateTrackers, List.mem_cons] at h
    rcases h with h | h
    · subst h
      exact ⟨v, List.mem_cons_self _ _, rfl⟩
    · obtain ⟨t, ht, hp⟩ := ih h
      exact ⟨t, List.mem_cons_of_mem _ ht, hp⟩

theorem updateTrackers_failed_keys (env : Env) (inp : FrameInput) (m : TrackMap) (k : Int)
    (h : k ∈ (updateTrackers env inp m).2) : k ∈ mapKeys m := by
  induction m with
  | nil => simp [updateTrackers] at h
  | cons q rest ih =>
    obtain ⟨k', v⟩ := q
    simp only [updateTrackers] at h
    simp only [mapKeys, List.map_cons, List.mem_cons]
    split_ifs at h with hs
    · exact Or.inr (ih h)
    · rcases List.mem_cons.mp h with h | h
      · exact Or.inl h
      · exact Or.inr (ih h)

/-! ## Lifecycle pass -/

theorem mapErase_of_not_mem {m : TrackMap} {k : Int} (h : k ∉ mapKeys m) : mapErase m k = m := by
  simp only [mapErase]
  apply List.filter_eq_self.mpr
  intro p hp
  simp only [ne_eq, decide_not, Bool.not_eq_eq_eq_not, Bool.not_true, decide_eq_false_iff_not]
  intro hk
  exact h (hk ▸ mem_mapKeys_of_mem hp)

theorem moveToLost_fst (maps : TrackMap × TrackMap) (id : Int) :
    (moveToLost maps id).1 = mapErase maps.1 id := by
  simp only [moveToLost]
  split_ifs with h
  · rfl
  · have : id ∉ mapKeys maps.1 := fun hk => h (mapCount_ne_zero.mpr hk)
    exact (mapErase_of_not_mem this).symm

theorem foldl_moveToLost_fst (fs : List Int) (maps : TrackMap × TrackMap) :
    (fs.foldl moveToLost maps).1 = fs.foldl mapErase maps.1 := by
  induction fs generalizing maps with
  | nil => rfl
  | cons k rest ih => simp only [List.foldl_cons, ih, moveToLost_fst]

theorem foldl_moveToLost_snd (fs : List Int) (maps : TrackMap × TrackMap)
    (p : Int × TrackedObject) (h : p ∈ (fs.foldl moveToLost maps).2) :
    p ∈ maps.2 ∨
      (p.1 ∈ fs ∧ ∃ t, (p.1, t) ∈ maps.1 ∧ p.2 = { t with frames_since_seen := 1 }) := by
  induction fs generalizing maps with
  | nil => exact Or.inl h
  | cons k rest ih =>
    simp only [List.foldl_cons] at h
    rcases ih _ h with h1 | ⟨h1, t, ht, hp⟩
    · simp only [moveToLost] at h1
      split_ifs at h1 with hc
      · rcases mem_of_mem_mapAssign _ _ _ _ h1 with h2 | h2
        · right
          refine ⟨by rw [h2]; exact List.mem_cons_self _ _, mapAt maps.1 k, ?_, by rw [h2]⟩
          rw [h2]
          exact mapAt_mem (mapCount_ne_zero.mp hc)
        · exact Or.inl h2
      · exact Or.inl h1
    · right
      refine ⟨List.mem_cons_of_mem _ h1, t, ?_, hp⟩
      rw [moveToLost_fst] at ht
      exact (mem_mapErase.mp ht).1

theorem foldl_moveToLost_snd_keep (fs : List Int) (maps : TrackMap × TrackMap)
    (p : Int × TrackedObject) (h : p ∈ maps.2) (hk : p.1 ∉ mapKeys maps.1) :
    p ∈ (fs.foldl moveToLost maps).2 := by
  induction fs generalizing maps with
  | nil => exact h
  | cons k rest ih =>
    simp only [List.foldl_cons]
    apply ih
    · simp only [moveToLost]
      split_ifs with hc
      · apply mem_mapAssign_of_ne _ _ _ _ h
        intro hpk
        exact hk (hpk ▸ mapCount_ne_zero.mp hc)
      · exact h
    · rw [moveToLost_fst]
      intro hm
      obtain ⟨v, hv⟩ := mem_mapKeys.mp hm
      exact hk (mem_mapKeys.mpr ⟨v, (mem_mapErase.mp hv).1⟩)

theorem ageLost_fst (m : TrackMap) :
    (ageLost m).1 =
      m.map (fun p => (p.1, { p.2 with frames_since_seen := p.2.frames_since_seen + 1 })) := by
  induction m with
  | nil => rfl
  | cons q rest ih =>
    obtain ⟨k, v⟩ := q
    simp only [ageLost, List.map_cons, ih]

theorem mem_ageLost_snd (m : TrackMap) (k : Int) :
    k ∈ (ageLost m).2 ↔ ∃ t, (k, t) ∈ m ∧ t.frames_since_seen + 1 > MAX_LOST_FRAMES := by
  induction m with
  | nil => simp [ageLost]
  | cons q rest ih =>
    obtain ⟨k', v⟩ := q
    simp only [ageLost, List.mem_cons]
    split_ifs with hc
    · simp only [List.mem_cons, ih]
      constructor
      · rintro (h | ⟨t, ht, hgt⟩)
        · exact ⟨v, Or.inl (by rw [h]), hc⟩
        · exact ⟨t, Or.inr ht, hgt⟩
      · rintro ⟨t, ht | ht, hgt⟩
        · exact Or.inl (congrArg Prod.fst ht)
        · exact Or.inr ⟨t, ht, hgt⟩
    · rw [ih]
      constructor
      · rintro ⟨t, ht, hgt⟩
        exact ⟨t, Or.inr ht, hgt⟩
      · rintro ⟨t, ht | ht, hgt⟩
        · have : t = v := congrArg Prod.snd ht
          subst this
          exact absurd hgt hc
        · exact ⟨t, ht, hgt⟩

/-! ## Detection association -/

theorem bestLost_id (dbox : Rect) (m : TrackMap) (best : ℚ × Int) :
    (bestLost dbox m best).2 = best.2 ∨ (bestLost dbox m best).2 ∈ mapKeys m := by
  induction m generalizing best with
  | nil => exact Or.inl rfl
  | cons q rest ih =>
    obtain ⟨k, v⟩ := q
    simp only [bestLost, mapKeys, List.map_cons, List.mem_cons]
    split_ifs with h
    · rcases ih (calculateIoU v.boundingBox dbox, k) with h1 | h1
      · exact Or.inr (Or.inl h1)
      · exact Or.inr (Or.inr h1)
    · rcases ih best with h1 | h1
      · exact Or.inl h1
      · exact Or.inr (Or.inr h1)

theorem reidLoop_induct (inp : FrameInput) (lost : TrackMap) (P : ReidState → Prop)
    (hstep : ∀ i dbox st, P st → P (reidStep inp lost i dbox st))
    (boxes : List Rect) (i : Nat) (st : ReidState) (h : P st) :
    P (reidLoop inp lost boxes i st) := by
  induction boxes generalizing i st with
  | nil => exact h
  | cons b rest ih => exact ih (i + 1) _ (hstep i b st h)

theorem newLoop_induct (env : Env) (inp : FrameInput) (matched : List Bool) (cids : List Nat)
    (P : NewState → Prop)
    (hstep : ∀ i dbox st, P st → P (newStep env inp matched cids i dbox st))
    (boxes : List Rect) (i : Nat) (st : NewState) (h : P st) :
    P (newLoop env inp matched cids boxes i st) := by
  induction boxes generalizing i st with
  | nil => exact h
  | cons b rest ih => exact ih (i + 1) _ (hstep i b st h)

theorem reidStep_inv (inp : FrameInput) (active0 lost : TrackMap) (i : Nat) (dbox : Rect)
    (st : ReidState) (h : ReidInv active0 lost st) :
    ReidInv active0 lost (reidStep inp lost i dbox st) := by
  obtain ⟨h1, h2⟩ := h
  simp only [reidStep]
  split_ifs with hm hb
  · exact ⟨h1, h2⟩
  · have hkey : (bestLost dbox lost (REID_IOU_THRESHOLD, -1)).2 ∈ mapKeys lost := by
      rcases bestLost_id dbox lost (REID_IOU_THRESHOLD, -1) with h | h
      · exact absurd h hb
      · exact h
    split
    · refine ⟨?_, ?_⟩
      · intro p hp
        rcases mem_of_mem_mapAssign _ _ _ _ hp with hp | hp
        · right
          rw [hp]
          exact ⟨List.mem_append_right _ (List.mem_singleton_self _), rfl⟩
        · rcases h1 p hp with h | ⟨h, hl⟩
          · exact Or.inl h
          · exact Or.inr ⟨List.mem_append_left _ h, hl⟩
      · intro k hk
        rcases List.mem_append.mp hk with hk | hk
        · exact h2 k hk
        · rw [List.mem_singleton.mp hk]
          exact hkey
    · exact ⟨h1, h2⟩
    · exact ⟨h1, h2⟩
  · exact ⟨h1, h2⟩

theorem reidLoop_inv (inp : FrameInput) (active0 lost : TrackMap) (boxes : List Rect)
    (matched : List Bool) :
    ReidInv active0 lost (reidLoop inp lost boxes 0
      { active_tracks := active0, detection_matched := matched,
        reactivated_lost_track_ids := [] }) := by
  apply reidLoop_induct inp lost (ReidInv active0 lost) (reidStep_inv inp active0 lost)
  exact ⟨fun p hp => Or.inl hp, fun k hk => by cases hk⟩

theorem idsUpTo_succ (n : Int) (h : 0 ≤ n) : idsUpTo (n + 1) = idsUpTo n ++ [n] := by
  have h1 : (n + 1).toNat = n.toNat + 1 := by omega
  simp only [idsUpTo, h1, List.range_succ, List.map_append, List.map_cons, List.map_nil]
  congr 2
  exact Int.toNat_of_nonneg h

theorem mem_idsUpTo (n k : Int) : k ∈ idsUpTo n ↔ 0 ≤ k ∧ k < n := by
  simp only [idsUpTo, List.mem_map, List.mem_range]
  constructor
  · rintro ⟨j, hj, rfl⟩
    constructor
    · exact Int.ofNat_nonneg j
    · have : (j : Int) < (n.toNat : Int) := by exact_mod_cast hj
      have h2 : ((n.toNat : Nat) : Int) = max n 0 := Int.toNat_eq_max n
      change (j : Int) < n
      omega
  · rintro ⟨h0, hn⟩
    refine ⟨k.toNat, ?_, ?_⟩
    · omega
    · exact Int.toNat_of_nonneg h0

theorem idsUpTo_pairwise (n : Int) : (idsUpTo n).Pairwise (· < ·) := by
  simp only [idsUpTo]
  rw [List.pairwise_map]
  have := List.pairwise_lt_range n.toNat
  exact this.imp (fun h => Int.ofNat_lt.mpr h)

theorem newInv_refl (st0 : NewState) : NewInv st0 st0 :=
  ⟨le_refl _, fun _ hp => Or.inl hp, ⟨[], by simp, fun k hk => by cases hk⟩,
    fun _ hk => hk, fun _ h => h⟩

theorem newStep_inv (env : Env) (inp : FrameInput) (matched : List Bool) (cids : List Nat)
    (st0 : NewState) (i : Nat) (dbox : Rect) (st : NewState) (h : NewInv st0 st) :
    NewInv st0 (newStep env inp matched cids i dbox st) := by
  obtain ⟨h1, h2, ⟨created, h3, h3'⟩, h4, h5⟩ := h
  have hundo : st.next_track_id + 1 - 1 = st.next_track_id := by omega
  simp only [newStep]
  split_ifs with hm
  · exact ⟨h1, h2, ⟨created, h3, h3'⟩, h4, h5⟩
  · split
    · refine ⟨by simp only; omega, ?_, ⟨created ++ [st.next_track_id], ?_, ?_⟩, ?_, ?_⟩
      · intro p hp
        rcases mem_of_mem_mapAssign _ _ _ _ hp with hp | hp
        · right
          rw [hp]
          exact ⟨h1, by simp only; omega, rfl⟩
        · rcases h2 p hp with h | ⟨ha, hb, hc⟩
          · exact Or.inl h
          · exact Or.inr ⟨ha, by simp only; omega, hc⟩
      · simp only [h3, List.append_assoc]
      · intro k hk
        rcases List.mem_append.mp hk with hk | hk
        · obtain ⟨ha, hb, hc⟩ := h3' k hk
          exact ⟨ha, by simp only; omega,
            (mem_mapKeys_mapAssign _ _ _ _).mpr (Or.inr hc)⟩
        · rw [List.mem_singleton.mp hk]
          exact ⟨h1, by simp only; omega, (mem_mapKeys_mapAssign _ _ _ _).mpr (Or.inl rfl)⟩
      · intro k hk
        exact (mem_mapKeys_mapAssign _ _ _ _).mpr (Or.inr (h4 k hk))
      · intro h0 hlog
        simp only [h5 h0 hlog]
        exact (idsUpTo_succ _ (by omega)).symm
    · simp only [hundo]
      exact ⟨h1, h2, ⟨created, h3, h3'⟩, h4, h5⟩
    · simp only [hundo]
      exact ⟨h1, h2, ⟨created, h3, h3'⟩, h4, h5⟩

theorem newLoop_inv (env : Env) (inp : FrameInput) (matched : List Bool) (cids : List Nat)
    (boxes : List Rect) (st0 : NewState) :
    NewInv st0 (newLoop env inp matched cids boxes 0 st0) :=
  newLoop_induct env inp matched cids (NewInv st0) (newStep_inv env inp matched cids st0)
    boxes 0 st0 (newInv_refl st0)

/-! ## Effect of the phases on the state -/

theorem updateAndLifecycle_active_mem (env : Env) (inp : FrameInput) (s : State)
    (p : Int × TrackedObject) (h : p ∈ (updateAndLifecycle env inp s).active_tracks) :
    p ∈ (updateTrackers env inp s.active_tracks).1 ∧
      p.1 ∉ (updateTrackers env inp s.active_tracks).2 := by
  simp only [updateAndLifecycle, lifecyclePass, foldl_moveToLost_fst] at h
  exact (mem_foldl_mapErase _ _ _).mp h

theorem updateAndLifecycle_lost_mem (env : Env) (inp : FrameInput) (s : State)
    (p : Int × TrackedObject) (h : p ∈ (updateAndLifecycle env inp s).lost_tracks) :
    ∃ q : Int × TrackedObject,
      p = (q.1, { q.2 with frames_since_seen := q.2.frames_since_seen + 1 }) ∧
      (q ∈ s.lost_tracks ∨
        (q.1 ∈ (updateTrackers env inp s.active_tracks).2 ∧
          ∃ t, (q.1, t) ∈ (updateTrackers env inp s.active_tracks).1 ∧
            q.2 = { t with frames_since_seen := 1 })) := by
  simp only [updateAndLifecycle, lifecyclePass] at h
  have h1 := ((mem_foldl_mapErase _ _ _).mp h).1
  rw [ageLost_fst] at h1
  obtain ⟨q, hq, hpq⟩ := List.mem_map.mp h1
  exact ⟨q, hpq.symm, foldl_moveToLost_snd _ _ q hq⟩

theorem updateAndLifecycle_active_key (env : Env) (inp : FrameInput) (s : State) (k : Int)
    (h : k ∈ mapKeys (updateAndLifecycle env inp s).active_tracks) :
    k ∈ mapKeys s.active_tracks ∧ k ∉ (updateTrackers env inp s.active_tracks).2 := by
  obtain ⟨v, hv⟩ := mem_mapKeys.mp h
  obtain ⟨h1, h2⟩ := updateAndLifecycle_active_mem env inp s _ hv
  refine ⟨?_, h2⟩
  rw [← updateTrackers_keys env inp]
  exact mem_mapKeys_of_mem h1

theorem updateAndLifecycle_lost_key (env : Env) (inp : FrameInput) (s : State) (k : Int)
    (h : k ∈ mapKeys (updateAndLifecycle env inp s).lost_tracks) :
    k ∈ mapKeys s.lost_tracks ∨
      (k ∈ (updateTrackers env inp s.active_tracks).2 ∧ k ∈ mapKeys s.active_tracks) := by
  obtain ⟨v, hv⟩ := mem_mapKeys.mp h
  obtain ⟨q, hq, hcase⟩ := updateAndLifecycle_lost_mem env inp s _ hv
  have hk : k = q.1 := congrArg Prod.fst hq
  rcases hcase with h1 | ⟨h1, _⟩
  · exact Or.inl (hk ▸ mem_mapKeys_of_mem h1)
  · exact Or.inr ⟨hk ▸ h1, updateTrackers_failed_keys env inp _ _ (hk ▸ h1)⟩

/-- Summary of one call of `associateAndTrack`: where the entries of the two
maps come from and how the id counter and the creation trace move. -/
theorem associateAndTrack_spec (env : Env) (inp : FrameInput) (s : State) :
    s.next_track_id ≤ (associateAndTrack env inp s).next_track_id ∧
    (∀ p ∈ (associateAndTrack env inp s).active_tracks,
      p ∈ s.active_tracks ∨
      (p.1 ∈ mapKeys s.lost_tracks ∧
        p.1 ∉ mapKeys (associateAndTrack env inp s).lost_tracks ∧
        p.2.trajectory.length = 1) ∨
      (s.next_track_id ≤ p.1 ∧ p.1 < (associateAndTrack env inp s).next_track_id ∧
        p.2.trajectory.length = 1)) ∧
    (∀ p ∈ (associateAndTrack env inp s).lost_tracks, p ∈ s.lost_tracks) ∧
    (∃ created,
      (associateAndTrack env inp s).new_id_log = s.new_id_log ++ created ∧
      ∀ k ∈ created, s.next_track_id ≤ k ∧ k < (associateAndTrack env inp s).next_track_id ∧
        k ∈ mapKeys (associateAndTrack env inp s).active_tracks) ∧
    (0 ≤ s.next_track_id → s.new_id_log = idsUpTo s.next_track_id →
      (associateAndTrack env inp s).new_id_log =
        idsUpTo (associateAndTrack env inp s).next_track_id) := by
  have hr := reidLoop_inv inp s.active_tracks s.lost_tracks inp.detected_boxes
    (matchActive inp.detected_boxes s.active_tracks
      (List.replicate inp.detected_boxes.length false))
  obtain ⟨hr1, hr2⟩ := hr
  have hn := newLoop_inv env inp
    (reidLoop inp s.lost_tracks inp.detected_boxes 0
      { active_tracks := s.active_tracks
        detection_matched := matchActive inp.detected_boxes s.active_tracks
          (List.replicate inp.detected_boxes.length false)
        reactivated_lost_track_ids := [] }).detection_matched
    inp.detected_classIds inp.detected_boxes
    { active_tracks := (reidLoop inp s.lost_tracks inp.detected_boxes 0
        { active_tracks := s.active_tracks
          detection_matched := matchActive inp.detected_boxes s.active_tracks
            (List.replicate inp.detected_boxes.length false)
          reactivated_lost_track_ids := [] }).active_tracks
      next_track_id := s.next_track_id
      new_id_log := s.new_id_log }
  obtain ⟨hn1, hn2, hn3, _, hn5⟩ := hn
  refine ⟨hn1, ?_, ?_, hn3, hn5⟩
  · intro p hp
    rcases hn2 p hp with h | h
    · rcases hr1 p h with h' | ⟨h', hl⟩
      · exact Or.inl h'
      · refine Or.inr (Or.inl ⟨hr2 _ h', ?_, hl⟩)
        intro hk
        obtain ⟨v, hv⟩ := mem_mapKeys.mp hk
        exact ((mem_foldl_mapErase _ _ _).mp hv).2 h'
    · exact Or.inr (Or.inr h)
  · intro p hp
    exact ((mem_foldl_mapErase _ _ _).mp hp).1

/-! ## Stable predicates along a run -/

theorem processFrame_stable (env : Env) (P : State → Prop) (hP : Stable env P)
    (inp : FrameInput) (s : State) (h : P s) : P (processFrame env inp s) := by
  obtain ⟨hstop, hul, hassoc, hfc, _, _, _⟩ := hP
  simp only [processFrame]
  split_ifs
  · exact hstop s h
  · exact h
  · exact hstop s h
  · exact hfc _ _ (hassoc inp _ (hul inp s h))
  · exact hfc _ _ (hul inp s h)

theorem step_stable (env : Env) (P : State → Prop) (hP : Stable env P)
    (s : State) (cmd : Command) (h : P s) : P (step env s cmd) := by
  cases cmd with
  | frame inp => exact processFrame_stable env P hP inp s h
  | stop => exact hP.1 s h
  | setDrawRestrictedZone b => exact hP.2.2.2.2.1 s b h
  | setDrawTrajectory b => exact hP.2.2.2.2.2.1 s b h
  | setCheckSpeedAlert b => exact hP.2.2.2.2.2.2 s b h

theorem foldl_step_stable (env : Env) (P : State → Prop) (hP : Stable env P)
    (cmds : List Command) (s : State) (h : P s) : P (cmds.foldl (step env) s) := by
  induction cmds generalizing s with
  | nil => exact h
  | cons c rest ih => exact ih _ (step_stable env P hP s c h)

theorem run_stable (env : Env) (P : State → Prop) (hP : Stable env P)
    (h0 : ∀ s0, P (startProcessing s0)) (s0 : State) (cmds : List Command) :
    P (run env s0 cmds) :=
  foldl_step_stable env P hP cmds _ (h0 s0)

/-! ## The identity invariant -/

theorem disjoint_updateAndLifecycle (env : Env) (inp : FrameInput) (s : State)
    (h : ActiveLostDisjoint s) : ActiveLostDisjoint (updateAndLifecycle env inp s) := by
  intro k hk hl
  obtain ⟨ha, hnf⟩ := updateAndLifecycle_active_key env inp s k hk
  rcases updateAndLifecycle_lost_key env inp s k hl with h1 | ⟨h1, _⟩
  · exact h k ha h1
  · exact hnf h1

theorem idsBelow_updateAndLifecycle (env : Env) (inp : FrameInput) (s : State)
    (h : IdsBelow s) : IdsBelow (updateAndLifecycle env inp s) := by
  intro k hk
  have hnext : (updateAndLifecycle env inp s).next_track_id = s.next_track_id := rfl
  rw [hnext]
  rcases List.mem_append.mp hk with hk | hk
  · exact h k (List.mem_append_left _ (updateAndLifecycle_active_key env inp s k hk).1)
  · rcases updateAndLifecycle_lost_key env inp s k hk with h1 | ⟨_, h1⟩
    · exact h k (List.mem_append_right _ h1)
    · exact h k (List.mem_append_left _ h1)

theorem idInv_updateAndLifecycle (env : Env) (inp : FrameInput) (s : State) (h : IdInv s) :
    IdInv (updateAndLifecycle env inp s) :=
  ⟨idsBelow_updateAndLifecycle env inp s h.1, disjoint_updateAndLifecycle env inp s h.2.1, h.2.2⟩

theorem idInv_associateAndTrack (env : Env) (inp : FrameInput) (s : State) (h : IdInv s) :
    IdInv (associateAndTrack env inp s) := by
  obtain ⟨hb, hd, h0, hlog⟩ := h
  obtain ⟨a1, a2, a3, _, a5⟩ := associateAndTrack_spec env inp s
  have hlostkey : ∀ k ∈ mapKeys (associateAndTrack env inp s).lost_tracks,
      k ∈ mapKeys s.lost_tracks := by
    intro k hk
    obtain ⟨v, hv⟩ := mem_mapKeys.mp hk
    exact mem_mapKeys.mpr ⟨v, a3 _ hv⟩
  refine ⟨?_, ?_, le_trans h0 a1, a5 h0 hlog⟩
  · intro k hk
    rcases List.mem_append.mp hk with hk | hk
    · obtain ⟨v, hv⟩ := mem_mapKeys.mp hk
      rcases a2 _ hv with h1 | ⟨h1, _, _⟩ | ⟨h1, h2, _⟩
      · have := hb k (List.mem_append_left _ (mem_mapKeys_of_mem h1))
        exact ⟨this.1, lt_of_lt_of_le this.2 a1⟩
      · have := hb k (List.mem_append_right _ h1)
        exact ⟨this.1, lt_of_lt_of_le this.2 a1⟩
      · exact ⟨le_trans h0 h1, h2⟩
    · have := hb k (List.mem_append_right _ (hlostkey k hk))
      exact ⟨this.1, lt_of_lt_of_le this.2 a1⟩
  · intro k hk hl
    obtain ⟨v, hv⟩ := mem_mapKeys.mp hk
    rcases a2 _ hv with h1 | ⟨_, h1, _⟩ | ⟨h1, _, _⟩
    · exact hd k (mem_mapKeys_of_mem h1) (hlostkey k hl)
    · exact h1 hl
    · have := (hb k (List.mem_append_right _ (hlostkey k hl))).2
      exact absurd h1 (not_le.mpr this)

theorem idInv_stopProcessing (s : State) (h : IdInv s) : IdInv (stopProcessing s) := by
  refine ⟨?_, ?_, h.2.2⟩
  · intro k hk
    simp [stopProcessing, mapKeys] at hk
  · intro k hk
    simp [stopProcessing, mapKeys] at hk

theorem idInv_stable (env : Env) : Stable env IdInv :=
  ⟨idInv_stopProcessing, idInv_updateAndLifecycle env, idInv_associateAndTrack env,
    fun _ _ h => h, fun _ _ h => h, fun _ _ h => h, fun _ _ h => h⟩

theorem idInv_startProcessing (s0 : State) : IdInv (startProcessing s0) := by
  refine ⟨?_, ?_, le_refl _, rfl⟩
  · intro k hk
    simp [startProcessing, mapKeys] at hk
  · intro k hk
    simp [startProcessing, mapKeys] at hk

theorem idInv_run (env : Env) (s0 : State) (cmds : List Command) : IdInv (run env s0 cmds) :=
  run_stable env IdInv (idInv_stable env) idInv_startProcessing s0 cmds

theorem next_track_id_mono_step (env : Env) (s : State) (cmd : Command) :
    s.next_track_id ≤ (step env s cmd).next_track_id := by
  cases cmd with
  | frame inp =>
    simp only [step, processFrame]
    split_ifs
    · exact le_refl _
    · exact le_refl _
    · exact le_refl _
    · exact (associateAndTrack_spec env inp (updateAndLifecycle env inp s)).1
    · exact le_refl _
  | stop => exact le_refl _
  | setDrawRestrictedZone b => exact le_refl _
  | setDrawTrajectory b => exact le_refl _
  | setCheckSpeedAlert b => exact le_refl _

/-! ## The trajectory bound -/

theorem trajBounded_updateTrackers (env : Env) (inp : FrameInput) (m : TrackMap)
    (h : TrajBounded m) : TrajBounded (updateTrackers env inp m).1 := by
  intro p hp
  obtain ⟨t, ht, hpt⟩ := updateTrackers_mem env inp m p hp
  rw [hpt]
  exact updateTrack_trajectory_le env inp p.1 t (h _ ht)

theorem trajInv_updateAndLifecycle (env : Env) (inp : FrameInput) (s : State) (h : TrajInv s) :
    TrajInv (updateAndLifecycle env inp s) := by
  have hu := trajBounded_updateTrackers env inp s.active_tracks h.1
  constructor
  · intro p hp
    exact hu p (updateAndLifecycle_active_mem env inp s p hp).1
  · intro p hp
    obtain ⟨q, hq, hcase⟩ := updateAndLifecycle_lost_mem env inp s p hp
    rw [hq]
    rcases hcase with h1 | ⟨_, t, ht, hqt⟩
    · exact h.2 q h1
    · have := hu _ ht
      rw [hqt]
      exact this

theorem trajInv_associateAndTrack (env : Env) (inp : FrameInput) (s : State) (h : TrajInv s) :
    TrajInv (associateAndTrack env inp s) := by
  obtain ⟨_, a2, a3, _, _⟩ := associateAndTrack_spec env inp s
  constructor
  · intro p hp
    rcases a2 p hp with h1 | ⟨_, _, h1⟩ | ⟨_, _, h1⟩
    · exact h.1 p h1
    · rw [h1]; decide
    · rw [h1]; decide
  · intro p hp
    exact h.2 p (a3 p hp)

theorem trajInv_stable (env : Env) : Stable env TrajInv := by
  refine ⟨?_, trajInv_updateAndLifecycle env, trajInv_associateAndTrack env,
    fun _ _ h => h, fun _ _ h => h, fun _ _ h => h, fun _ _ h => h⟩
  intro s _
  constructor <;> intro p hp <;> simp [stopProcessing] at hp

theorem trajInv_startProcessing (s0 : State) : TrajInv (startProcessing s0) := by
  constructor <;> intro p hp <;> simp [startProcessing] at hp

theorem trajInv_run (env : Env) (s0 : State) (cmds : List Command) :
    TrajInv (run env s0 cmds) :=
  run_stable env TrajInv (trajInv_stable env) trajInv_startProcessing s0 cmds

/-! ## Claims on identities, membership and history -/

/-- C4: within one processing run (any command sequence after
`startProcessing`), every id stored in `active_tracks` or `lost_tracks` is
below `next_track_id`; no command lowers `next_track_id`; the ids assigned to
new tracks so far are exactly `0, 1, ..., next_track_id - 1` in that order
(strictly increasing, so no id is assigned twice, whatever happened to its
track since); and in the next call of `associateAndTrack` every newly created
track receives an id that is at least the `next_track_id` at the start of the
call, is stored in `active_tracks`, and differs from every id assigned earlier
and from every id currently active or lost, while every other active id was
already active or lost before the call. -/
theorem track_ids_never_reused (env : Env) (s0 : State) (cmds : List Command) :
    (∀ k ∈ mapKeys (run env s0 cmds).active_tracks ++ mapKeys (run env s0 cmds).lost_tracks,
        k < (run env s0 cmds).next_track_id) ∧
    (∀ cmd, (run env s0 cmds).next_track_id ≤ (step env (run env s0 cmds) cmd).next_track_id) ∧
    (run env s0 cmds).new_id_log = idsUpTo (run env s0 cmds).next_track_id ∧
    (run env s0 cmds).new_id_log.Pairwise (· < ·) ∧
    (∀ inp, ∃ created,
      (associateAndTrack env inp (updateAndLifecycle env inp (run env s0 cmds))).new_id_log =
          (run env s0 cmds).new_id_log ++ created ∧
      (∀ k ∈ created,
        (run env s0 cmds).next_track_id ≤ k ∧
        k ∈ mapKeys
          (associateAndTrack env inp (updateAndLifecycle env inp (run env s0 cmds))).active_tracks ∧
        k ∉ (run env s0 cmds).new_id_log ∧
        k ∉ mapKeys (updateAndLifecycle env inp (run env s0 cmds)).active_tracks ++
              mapKeys (updateAndLifecycle env inp (run env s0 cmds)).lost_tracks) ∧
      (∀ k ∈ mapKeys
          (associateAndTrack env inp (updateAndLifecycle env inp (run env s0 cmds))).active_tracks,
        k ∈ created ∨
        k ∈ mapKeys (updateAndLifecycle env inp (run env s0 cmds)).active_tracks ++
              mapKeys (updateAndLifecycle env inp (run env s0 cmds)).lost_tracks)) := by
  have hinv := idInv_run env s0 cmds
  obtain ⟨hb, _, h0, hlog⟩ := hinv
  refine ⟨fun k hk => (hb k hk).2, next_track_id_mono_step env _, hlog, ?_, ?_⟩
  · rw [hlog]
    exact idsUpTo_pairwise _
  · intro inp
    have hinv2 := idInv_updateAndLifecycle env inp _ (idInv_run env s0 cmds)
    have hinv3 := idInv_associateAndTrack env inp _ hinv2
    obtain ⟨_, a2, _, ⟨created, c1, c2⟩, _⟩ :=
      associateAndTrack_spec env inp (updateAndLifecycle env inp (run env s0 cmds))
    refine ⟨created, c1, ?_, ?_⟩
    · intro k hk
      obtain ⟨k1, _, k3⟩ := c2 k hk
      refine ⟨k1, k3, ?_, ?_⟩
      · intro hmem
        rw [hlog] at hmem
        have := ((mem_idsUpTo _ _).mp hmem).2
        exact absurd k1 (not_le.mpr this)
      · intro hmem
        have := (hinv2.1 k hmem).2
        exact absurd k1 (not_le.mpr this)
    · intro k hk
      obtain ⟨v, hv⟩ := mem_mapKeys.mp hk
      rcases a2 _ hv with h1 | ⟨h1, _, _⟩ | ⟨h1, h2, _⟩
      · exact Or.inr (List.mem_append_left _ (mem_mapKeys_of_mem h1))
      · exact Or.inr (List.mem_append_right _ h1)
      · left
        have hin : k ∈ idsUpTo
            (associateAndTrack env inp
              (updateAndLifecycle env inp (run env s0 cmds))).next_track_id :=
          (mem_idsUpTo _ _).mpr ⟨le_trans h0 h1, h2⟩
        rw [← hinv3.2.2.2, c1] at hin
        rcases List.mem_append.mp hin with hin | hin
        · have hlog2 : (updateAndLifecycle env inp (run env s0 cmds)).new_id_log =
              idsUpTo (run env s0 cmds).next_track_id := hlog
          rw [hlog2] at hin
          have := ((mem_idsUpTo _ _).mp hin).2
          exact absurd h1 (not_le.mpr this)
        · exact hin

/-- Witness of C4 on the scenario run (track 0 created, then demoted): the
trace of created ids is `[0]`, the only stored id is 0 and `next_track_id` is 1. -/
theorem track_ids_never_reused_witness :
    (run sampleEnv idleState demotedRun).new_id_log = [0] ∧
    (run sampleEnv idleState demotedRun).next_track_id = 1 ∧
    mapKeys (run sampleEnv idleState demotedRun).lost_tracks = [0] ∧
    (∀ k ∈ mapKeys (run sampleEnv idleState demotedRun).active_tracks ++
        mapKeys (run sampleEnv idleState demotedRun).lost_tracks,
      k < (run sampleEnv idleState demotedRun).next_track_id) :=
  ⟨(track_ids_never_reused sampleEnv idleState demotedRun).2.2.1.trans (by decide),
    by decide, by decide, (track_ids_never_reused sampleEnv idleState demotedRun).1⟩

/-- C5: at every observation point of a run the ids of `active_tracks` and of
`lost_tracks` are disjoint: in the state between two commands, after the
tracker-update phase plus lifecycle pass of the next frame, after
`associateAndTrack` returns, and after the whole frame step, for every
tracker outcome and every detection list carried by the frame input. -/
theorem active_lost_disjoint (env : Env) (s0 : State) (cmds : List Command) :
    ActiveLostDisjoint (run env s0 cmds) ∧
    ∀ inp,
      ActiveLostDisjoint (updateAndLifecycle env inp (run env s0 cmds)) ∧
      ActiveLostDisjoint
        (associateAndTrack env inp (updateAndLifecycle env inp (run env s0 cmds))) ∧
      ActiveLostDisjoint (processFrame env inp (run env s0 cmds)) := by
  have hinv := idInv_run env s0 cmds
  refine ⟨hinv.2.1, fun inp => ?_⟩
  have hinv2 := idInv_updateAndLifecycle env inp _ hinv
  exact ⟨hinv2.2.1, (idInv_associateAndTrack env inp _ hinv2).2.1,
    (processFrame_stable env IdInv (idInv_stable env) inp _ hinv).2.1⟩

/-- Witness of C5 on the scenario run: track 0 sits in `lost_tracks` only,
before and after the association of a frame that re-identifies it. -/
theorem active_lost_disjoint_witness :
    mapKeys (run sampleEnv idleState demotedRun).lost_tracks = [0] ∧
    mapKeys (run sampleEnv idleState demotedRun).active_tracks = [] ∧
    ActiveLostDisjoint (run sampleEnv idleState demotedRun) ∧
    ActiveLostDisjoint (processFrame sampleEnv halfOverlap (run sampleEnv idleState demotedRun)) :=
  ⟨by decide, by decide, (active_lost_disjoint sampleEnv idleState demotedRun).1,
    ((active_lost_disjoint sampleEnv idleState demotedRun).2 halfOverlap).2.2⟩

/-- C7: at every point of a run every track in `active_tracks` or
`lost_tracks` has at most `TRAJECTORY_LENGTH` (20) trajectory points: between
commands, right after the tracker-update loop (successful updates), after the
lifecycle pass (demotion), after `associateAndTrack` (reactivation and
creation) and after the whole frame step. -/
theorem trajectory_bounded (env : Env) (s0 : State) (cmds : List Command) :
    TrajInv (run env s0 cmds) ∧
    ∀ inp,
      TrajBounded (updateTrackers env inp (run env s0 cmds).active_tracks).1 ∧
      TrajInv (updateAndLifecycle env inp (run env s0 cmds)) ∧
      TrajInv (associateAndTrack env inp (updateAndLifecycle env inp (run env s0 cmds))) ∧
      TrajInv (processFrame env inp (run env s0 cmds)) := by
  have hinv := trajInv_run env s0 cmds
  refine ⟨hinv, fun inp => ?_⟩
  have h2 := trajInv_updateAndLifecycle env inp _ hinv
  exact ⟨trajBounded_updateTrackers env inp _ hinv.1, h2,
    trajInv_associateAndTrack env inp _ h2,
    processFrame_stable env TrajInv (trajInv_stable env) inp _ hinv⟩

/-- Witness of C7 on the scenario run: the demoted track holds one trajectory
point and the bound holds in the run's final state and after the next frame. -/
theorem trajectory_bounded_witness :
    (run sampleEnv idleState demotedRun).lost_tracks.map (fun p => p.2.trajectory.length) = [1] ∧
    TrajInv (run sampleEnv idleState demotedRun) ∧
    TrajInv (processFrame sampleEnv halfOverlap (run sampleEnv idleState demotedRun)) :=
  ⟨by decide, (trajectory_bounded sampleEnv idleState demotedRun).1,
    ((trajectory_bounded sampleEnv idleState demotedRun).2 halfOverlap).2.2.2⟩

/-! ## Expiry threshold and trajectory eviction -/

/-- C6 as stated fails: a lost track whose `frames_since_seen` is exactly
`MAX_LOST_FRAMES` (60) at the start of a lifecycle pass is not in `lost_tracks`
at the end of the pass (the counter is incremented to 61 before the test
`frames_since_seen > MAX_LOST_FRAMES`). -/
theorem lifecycle_expiry_at_max_deleted :
    (lostAged 60).frames_since_seen = MAX_LOST_FRAMES ∧
      7 ∈ mapKeys [(7, lostAged 60)] ∧
      7 ∉ mapKeys (lifecyclePass [] [(7, lostAged 60)] []).2 := by
  decide

/-- C6 (amended): the lifecycle pass increments the counter before comparing
it with `MAX_LOST_FRAMES`.  For a lost track that is not being demoted in the
same pass (its id is not active): if its `frames_since_seen` is at least
`MAX_LOST_FRAMES` at the start of the pass (in particular exactly 60 or 61) it
is deleted from `lost_tracks` by the end of the pass; if it is below
`MAX_LOST_FRAMES` (in particular exactly 59) and it is the only entry under
its id, it is still in `lost_tracks` at the end, with the counter one higher. -/
theorem lifecycle_expiry (active lost : TrackMap) (failed : List Int) (id : Int)
    (t : TrackedObject) (hmem : (id, t) ∈ lost) (hact : id ∉ mapKeys active) :
    (MAX_LOST_FRAMES ≤ t.frames_since_seen →
      id ∉ mapKeys (lifecyclePass active lost failed).2) ∧
    (t.frames_since_seen < MAX_LOST_FRAMES → (∀ t', (id, t') ∈ lost → t' = t) →
      (id, { t with frames_since_seen := t.frames_since_seen + 1 }) ∈
        (lifecyclePass active lost failed).2) := by
  have hkeep : (id, t) ∈ (failed.foldl moveToLost (active, lost)).2 :=
    foldl_moveToLost_snd_keep failed (active, lost) (id, t) hmem hact
  constructor
  · intro hge hk
    obtain ⟨v, hv⟩ := mem_mapKeys.mp hk
    simp only [lifecyclePass] at hv
    have hdel : id ∈ (ageLost (failed.foldl moveToLost (active, lost)).2).2 :=
      (mem_ageLost_snd _ _).mpr ⟨t, hkeep, by omega⟩
    exact ((mem_foldl_mapErase _ _ _).mp hv).2 hdel
  · intro hlt huniq
    simp only [lifecyclePass]
    apply (mem_foldl_mapErase _ _ _).mpr
    constructor
    · rw [ageLost_fst]
      exact List.mem_map.mpr ⟨(id, t), hkeep, rfl⟩
    · intro hdel
      obtain ⟨t', ht', hgt⟩ := (mem_ageLost_snd _ _).mp hdel
      rcases foldl_moveToLost_snd failed (active, lost) (id, t') ht' with h1 | ⟨_, t0, ht0, _⟩
      · have := huniq t' h1
        subst this
        omega
      · exact hact (mem_mapKeys_of_mem ht0)

/-- Witness of the amended C6: counters 61 and 60 are deleted, counter 59
survives with counter 60. -/
theorem lifecycle_expiry_witness :
    7 ∉ mapKeys (lifecyclePass [] [(7, lostAged 61)] []).2 ∧
    7 ∉ mapKeys (lifecyclePass [] [(7, lostAged 60)] []).2 ∧
    (7, { lostAged 59 with frames_since_seen := (lostAged 59).frames_since_seen + 1 }) ∈
      (lifecyclePass [] [(7, lostAged 59)] []).2 :=
  ⟨(lifecycle_expiry [] [(7, lostAged 61)] [] 7 (lostAged 61) (List.mem_singleton_self _)
      (by decide)).1 (by decide),
    (lifecycle_expiry [] [(7, lostAged 60)] [] 7 (lostAged 60) (List.mem_singleton_self _)
      (by decide)).1 (by decide),
    (lifecycle_expiry [] [(7, lostAged 59)] [] 7 (lostAged 59) (List.mem_singleton_self _)
      (by decide)).2 (by decide)
      (fun t' h => (Prod.mk.inj (List.mem_singleton.mp h)).2)⟩

/-- C8: FIFO eviction.  When an active track with a tracker handle and
trajectory `t` is successfully updated to the box `r`, the update reports
success, the box becomes `r`, and the new trajectory is `t ++ [getCenter r]`
if `|t| < TRAJECTORY_LENGTH`, and `t` without its first (oldest) point
followed by `getCenter r` if `|t| = TRAJECTORY_LENGTH`; the retained points
keep their order. -/
theorem trajectory_fifo (env : Env) (inp : FrameInput) (id : Int) (tobj : TrackedObject)
    (r : Rect) (htracker : tobj.tracker = true) (hupd : inp.trackerUpdate id = some r) :
    (updateTrack env inp id tobj).2 = true ∧
    (updateTrack env inp id tobj).1.boundingBox = r ∧
    (tobj.trajectory.length < TRAJECTORY_LENGTH →
      (updateTrack env inp id tobj).1.trajectory = tobj.trajectory ++ [getCenter r]) ∧
    (tobj.trajectory.length = TRAJECTORY_LENGTH →
      (updateTrack env inp id tobj).1.trajectory = tobj.trajectory.tail ++ [getCenter r]) := by
  simp only [updateTrack, htracker, if_true, hupd, pushTrajectory, List.length_append,
    List.length_singleton, true_and]
  constructor
  · intro hlt
    rw [if_neg (by omega)]
  · intro heq
    rw [if_pos (by omega)]
    cases htraj : tobj.trajectory with
    | nil => rw [htraj] at heq; simp [TRAJECTORY_LENGTH] at heq
    | cons a rest => rfl

/-- Witness of C8: a track holding 20 points loses its oldest point `(0,0)`,
and a track holding 3 points keeps all of them. -/
theorem trajectory_fifo_witness :
    (updateTrack sampleEnv movingInput 0 (trackWithHistory 20)).1.trajectory =
        (trackWithHistory 20).trajectory.tail ++ [getCenter ⟨100, 100, 50, 50⟩] ∧
    (updateTrack sampleEnv movingInput 0 (trackWithHistory 3)).1.trajectory =
        (trackWithHistory 3).trajectory ++ [getCenter ⟨100, 100, 50, 50⟩] :=
  ⟨(trajectory_fifo sampleEnv movingInput 0 (trackWithHistory 20) ⟨100, 100, 50, 50⟩ rfl
      rfl).2.2.2 (by decide),
    (trajectory_fifo sampleEnv movingInput 0 (trackWithHistory 3) ⟨100, 100, 50, 50⟩ rfl
      rfl).2.2.1 (by decide)⟩

/-! ## Well-formedness of the track maps -/

theorem mapSorted_mapAssign (m : TrackMap) (k : Int) (v : TrackedObject) (h : MapSorted m) :
    MapSorted (mapAssign m k v) := by
  induction m with
  | nil => simp [mapAssign, MapSorted, mapKeys]
  | cons q rest ih =>
    obtain ⟨k', v'⟩ := q
    simp only [MapSorted, mapKeys, List.map_cons, List.pairwise_cons] at h
    obtain ⟨hlt, hrest⟩ := h
    simp only [mapAssign]
    split_ifs with h1 h2
    · simp only [MapSorted, mapKeys, List.map_cons, List.pairwise_cons, List.mem_cons]
      refine ⟨?_, hlt, hrest⟩
      rintro j (hj | hj)
      · rw [hj]; exact h1
      · exact lt_trans h1 (hlt j hj)
    · simp only [MapSorted, mapKeys, List.map_cons, List.pairwise_cons]
      exact ⟨fun j hj => h2 ▸ hlt j hj, hrest⟩
    · have hsorted := ih hrest
      simp only [MapSorted, mapKeys, List.map_cons, List.pairwise_cons]
      refine ⟨?_, hsorted⟩
      intro j hj
      rcases (mem_mapKeys_mapAssign rest k v j).mp hj with hj | hj
      · rw [hj]; omega
      · exact hlt j hj

theorem mapSorted_mapErase (m : TrackMap) (k : Int) (h : MapSorted m) :
    MapSorted (mapErase m k) := by
  have hsub : List.Sublist (mapKeys (mapErase m k)) (mapKeys m) :=
    List.Sublist.map _ (List.filter_sublist _)
  exact List.Pairwise.sublist hsub h

theorem mapSorted_foldl_mapErase (ks : List Int) (m : TrackMap) (h : MapSorted m) :
    MapSorted (ks.foldl mapErase m) := by
  induction ks generalizing m with
  | nil => exact h
  | cons k rest ih => exact ih _ (mapSorted_mapErase m k h)

theorem mapSorted_foldl_moveToLost (fs : List Int) (maps : TrackMap × TrackMap)
    (h : MapSorted maps.2) : MapSorted (fs.foldl moveToLost maps).2 := by
  induction fs generalizing maps with
  | nil => exact h
  | cons k rest ih =>
    apply ih
    simp only [moveToLost]
    split_ifs
    · exact mapSorted_mapAssign _ _ _ h
    · exact h

theorem mapAt_of_mem (m : TrackMap) (k : Int) (v : TrackedObject) (hs : MapSorted m)
    (h : (k, v) ∈ m) : mapAt m k = v := by
  induction m with
  | nil => cases h
  | cons q rest ih =>
    obtain ⟨k', v'⟩ := q
    simp only [MapSorted, mapKeys, List.map_cons, List.pairwise_cons] at hs
    obtain ⟨hlt, hrest⟩ := hs
    by_cases hk : k' = k
    · subst hk
      rcases List.mem_cons.mp h with h | h
      · simp [mapAt, List.find?, (Prod.mk.inj h).2]
      · exact absurd (hlt _ (mem_mapKeys_of_mem h)) (lt_irrefl _)
    · rcases List.mem_cons.mp h with h | h
      · exact absurd (Prod.mk.inj h).1.symm hk
      · have hm : mapAt ((k', v') :: rest) k = mapAt rest k := by
          simp [mapAt, List.find?, hk]
        rw [hm]
        exact ih hrest h

theorem mapAssign_append (m : TrackMap) (k : Int) (v : TrackedObject)
    (h : ∀ j ∈ mapKeys m, j < k) : mapAssign m k v = m ++ [(k, v)] := by
  induction m with
  | nil => rfl
  | cons q rest ih =>
    obtain ⟨k', v'⟩ := q
    have hk' : k' < k := h k' (by simp [mapKeys])
    have hrest : ∀ j ∈ mapKeys rest, j < k := fun j hj =>
      h j (by simp only [mapKeys, List.map_cons, List.mem_cons]; exact Or.inr hj)
    simp only [mapAssign, List.cons_append]
    rw [if_neg (by omega), if_neg (by omega), ih hrest]

theorem sortedInv_updateAndLifecycle (env : Env) (inp : FrameInput) (s : State)
    (h : SortedInv s) : SortedInv (updateAndLifecycle env inp s) := by
  constructor
  · simp only [updateAndLifecycle, lifecyclePass, foldl_moveToLost_fst]
    apply mapSorted_foldl_mapErase
    simp only [MapSorted, updateTrackers_keys]
    exact h.1
  · simp only [updateAndLifecycle, lifecyclePass]
    apply mapSorted_foldl_mapErase
    rw [ageLost_fst]
    have hm := mapSorted_foldl_moveToLost (updateTrackers env inp s.active_tracks).2
      ((updateTrackers env inp s.active_tracks).1, s.lost_tracks) h.2
    simp only [MapSorted, mapKeys, List.map_map] at hm ⊢
    exact hm

theorem sortedInv_associateAndTrack (env : Env) (inp : FrameInput) (s : State)
    (h : SortedInv s) : SortedInv (associateAndTrack env inp s) := by
  constructor
  · simp only [associateAndTrack]
    apply newLoop_induct env inp _ _ (fun st => MapSorted st.active_tracks)
    · intro i dbox st hst
      simp only [newStep]
      split_ifs
      · exact hst
      · split
        · exact mapSorted_mapAssign _ _ _ hst
        · exact hst
        · exact hst
    · apply reidLoop_induct inp _ (fun st => MapSorted st.active_tracks)
      · intro i dbox st hst
        simp only [reidStep]
        split_ifs
        · exact hst
        · split
          · exact mapSorted_mapAssign _ _ _ hst
          · exact hst
          · exact hst
        · exact hst
      · exact h.1
  · simp only [associateAndTrack]
    exact mapSorted_foldl_mapErase _ _ h.2

theorem sortedInv_stable (env : Env) : Stable env SortedInv := by
  refine ⟨?_, sortedInv_updateAndLifecycle env, sortedInv_associateAndTrack env,
    fun _ _ h => h, fun _ _ h => h, fun _ _ h => h, fun _ _ h => h⟩
  intro s _
  constructor <;> simp [stopProcessing, MapSorted, mapKeys]

theorem sortedInv_run (env : Env) (s0 : State) (cmds : List Command) :
    SortedInv (run env s0 cmds) := by
  apply run_stable env SortedInv (sortedInv_stable env)
  intro s
  constructor <;> simp [startProcessing, MapSorted, mapKeys]

/-! ## New-track creation -/

theorem reidStep_no_lost (inp : FrameInput) (i : Nat) (dbox : Rect) (st : ReidState) :
    reidStep inp [] i dbox st = st := by
  simp [reidStep, bestLost]

theorem reidLoop_no_lost (inp : FrameInput) (boxes : List Rect) (i : Nat) (st : ReidState) :
    reidLoop inp [] boxes i st = st := by
  induction boxes generalizing i st with
  | nil => rfl
  | cons b rest ih => simp only [reidLoop, reidStep_no_lost, ih]

theorem newLoop_all_new (env : Env) (inp : FrameInput) (matched : List Bool) (cids : List Nat)
    (base : Int) (boxes : List Rect) (i : Nat) (st : NewState)
    (hm : ∀ j, matched.getD j false = false)
    (hok : ∀ j, i ≤ j → j < i + boxes.length → inp.newInit j = TrackerInit.ok)
    (hnext : st.next_track_id = base + i)
    (hkeys : ∀ k ∈ mapKeys st.active_tracks, k < st.next_track_id) :
    newLoop env inp matched cids boxes i st =
      { active_tracks := st.active_tracks ++ (boxes.enumFrom i).map (fun p =>
          (base + (p.1 : Int),
            newTrack env (base + (p.1 : Int)) p.2 (cids.getD p.1 0) (inp.initTick p.1)))
        next_track_id := base + i + boxes.length
        new_id_log := st.new_id_log ++ (boxes.enumFrom i).map (fun p => base + (p.1 : Int)) } := by
  induction boxes generalizing i st with
  | nil =>
    obtain ⟨a, n, l⟩ := st
    simp only at hnext
    simp [newLoop, hnext]
  | cons d rest ih =>
    have hinit : inp.newInit i = TrackerInit.ok :=
      hok i (le_refl _) (by simp only [List.length_cons]; omega)
    have hstep : newStep env inp matched cids i d st =
        { active_tracks := st.active_tracks ++
            [(st.next_track_id,
              newTrack env st.next_track_id d (cids.getD i 0) (inp.initTick i))]
          next_track_id := st.next_track_id + 1
          new_id_log := st.new_id_log ++ [st.next_track_id] } := by
      simp only [newStep, hm i, hinit, mapAssign_append _ _ _ hkeys]
      rfl
    simp only [newLoop, hstep]
    rw [ih (i + 1)]
    · simp only [List.enumFrom_cons, List.map_cons, List.append_assoc, List.singleton_append,
        List.length_cons, hnext, NewState.mk.injEq, true_and, and_true]
      push_cast
      omega
    · intro j h1 h2
      exact hok j (by omega) (by simp only [List.length_cons]; omega)
    · simp only [hnext]
      push_cast
      omega
    · intro k hk
      simp only [mapKeys, List.map_append, List.map_cons, List.map_nil, List.mem_append,
        List.mem_singleton] at hk
      rcases hk with hk | hk
      · have := hkeys k hk
        simp only
        omega
      · simp only
        omega

/-- C9: with no existing tracks and every tracker creation succeeding,
`associateAndTrack` on `n` detections leaves exactly `n` active tracks, one per
detection in detection order: the track of detection number `i` is stored
under (and carries) the id `next_track_id + i`, has the detection's box, the
class name `class_names[classId]`, a one-point trajectory holding the box
centre, velocity 0 and `frames_since_seen` 0; `lost_tracks` stays empty and
`next_track_id` grows by `n`. -/
theorem new_tracks_from_empty (env : Env) (inp : FrameInput) (s : State)
    (hact : s.active_tracks = []) (hlost : s.lost_tracks = [])
    (hok : ∀ i < inp.detected_boxes.length, inp.newInit i = TrackerInit.ok) :
    (associateAndTrack env inp s).active_tracks =
      inp.detected_boxes.enum.map (fun p =>
        (s.next_track_id + (p.1 : Int),
          { tracker := true
            boundingBox := p.2
            id := s.next_track_id + (p.1 : Int)
            className := env.class_names.getD (inp.detected_classIds.getD p.1 0) ""
            updated_this_frame := true
            trajectory := [getCenter p.2]
            velocity := 0
            last_update_tick := inp.initTick p.1
            frames_since_seen := 0 })) ∧
    (associateAndTrack env inp s).active_tracks.length = inp.detected_boxes.length ∧
    (associateAndTrack env inp s).lost_tracks = [] ∧
    (associateAndTrack env inp s).next_track_id =
      s.next_track_id + inp.detected_boxes.length := by
  have hloop := newLoop_all_new env inp (List.replicate inp.detected_boxes.length false)
    inp.detected_classIds s.next_track_id inp.detected_boxes 0
    { active_tracks := [], next_track_id := s.next_track_id, new_id_log := s.new_id_log }
    (by
      intro j
      simp only [List.getD_eq_getElem?_getD, List.getElem?_replicate]
      split_ifs <;> rfl)
    (fun j _ hj => hok j (by omega)) (by simp) (by intro k hk; simp [mapKeys] at hk)
  have hstate : associateAndTrack env inp s =
      { s with
        active_tracks := (newLoop env inp (List.replicate inp.detected_boxes.length false)
          inp.detected_classIds inp.detected_boxes 0
          { active_tracks := [], next_track_id := s.next_track_id,
            new_id_log := s.new_id_log }).active_tracks
        lost_tracks := []
        next_track_id := (newLoop env inp (List.replicate inp.detected_boxes.length false)
          inp.detected_classIds inp.detected_boxes 0
          { active_tracks := [], next_track_id := s.next_track_id,
            new_id_log := s.new_id_log }).next_track_id
        new_id_log := (newLoop env inp (List.replicate inp.detected_boxes.length false)
          inp.detected_classIds inp.detected_boxes 0
          { active_tracks := [], next_track_id := s.next_track_id,
            new_id_log := s.new_id_log }).new_id_log } := by
    simp only [associateAndTrack, hact, hlost, matchActive, reidLoop_no_lost, List.foldl_nil]
  rw [hstate, hloop]
  refine ⟨?_, ?_, rfl, ?_⟩
  · simp only [List.nil_append, List.enum]
    rfl
  · simp [List.enum]
  · simp

/-- Witness of C9: one detection `(0, 0, 50, 50)` of class "car" on a freshly
started engine gives exactly one active track, with that box and class, a
one-point trajectory, velocity 0 and id 0. -/
theorem new_tracks_from_empty_witness :
    (associateAndTrack sampleEnv carInput (startProcessing idleState)).active_tracks =
      [(0, { tracker := true, boundingBox := ⟨0, 0, 50, 50⟩, id := 0, className := "car",
             updated_this_frame := true, trajectory := [⟨25, 25⟩], velocity := 0,
             last_update_tick := 5, frames_since_seen := 0 })] ∧
    (associateAndTrack sampleEnv carInput (startProcessing idleState)).lost_tracks = [] ∧
    (associateAndTrack sampleEnv carInput (startProcessing idleState)).next_track_id = 1 :=
  have h := new_tracks_from_empty sampleEnv carInput (startProcessing idleState) rfl rfl
    (by decide)
  ⟨h.1.trans (by decide), h.2.2.1, h.2.2.2.trans (by decide)⟩

/-! ## Re-identification -/

theorem bestLost_spec (dbox : Rect) (m : TrackMap) (best : ℚ × Int) :
    best.1 ≤ (bestLost dbox m best).1 ∧
    (∀ q ∈ m, calculateIoU q.2.boundingBox dbox ≤ (bestLost dbox m best).1) ∧
    (bestLost dbox m best = best ∨
      ∃ q ∈ m, bestLost dbox m best = (calculateIoU q.2.boundingBox dbox, q.1) ∧
        best.1 < (bestLost dbox m best).1) := by
  induction m generalizing best with
  | nil => exact ⟨le_refl _, ⟨fun q hq => absurd hq (List.not_mem_nil q), Or.inl rfl⟩⟩
  | cons q0 rest ih =>
    obtain ⟨k, v⟩ := q0
    simp only [bestLost]
    split_ifs with h
    · obtain ⟨i1, i2, i3⟩ := ih (calculateIoU v.boundingBox dbox, k)
      simp only at i1
      refine ⟨le_of_lt (lt_of_lt_of_le h i1), ?_, Or.inr ?_⟩
      · intro q hq
        rcases List.mem_cons.mp hq with hq | hq
        · rw [hq]; exact i1
        · exact i2 q hq
      · rcases i3 with i3 | ⟨q, hq, hq1, hq2⟩
        · refine ⟨(k, v), List.mem_cons_self _ _, i3, ?_⟩
          rw [i3]; exact h
        · exact ⟨q, List.mem_cons_of_mem _ hq, hq1, lt_trans h hq2⟩
    · obtain ⟨i1, i2, i3⟩ := ih best
      refine ⟨i1, ?_, ?_⟩
      · intro q hq
        rcases List.mem_cons.mp hq with hq | hq
        · rw [hq]; exact le_trans (not_lt.mp h) i1
        · exact i2 q hq
      · rcases i3 with i3 | ⟨q, hq, hq1, hq2⟩
        · exact Or.inl i3
        · exact Or.inr ⟨q, List.mem_cons_of_mem _ hq, hq1, hq2⟩

theorem matchActive_length (boxes : List Rect) (m : TrackMap) (matched : List Bool) :
    (matchActive boxes m matched).length = matched.length := by
  induction m generalizing matched with
  | nil => rfl
  | cons q rest ih =>
    obtain ⟨k, v⟩ := q
    simp only [matchActive]
    split_ifs
    · exact ih matched
    · split
      · rw [ih, List.length_set]
      · exact ih matched

/-- Effect of `associateAndTrack` on a single detection `d` that pass 1 left
unmatched, when some lost track exceeds the re-identification cutoff and the
tracker is created: the first lost track with the largest IoU is reactivated. -/
theorem associate_single_hit (env : Env) (inp : FrameInput) (s : State) (d : Rect)
    (hd : inp.detected_boxes = [d])
    (hp1 : (matchActive inp.detected_boxes s.active_tracks
      (List.replicate inp.detected_boxes.length false)).getD 0 false = false)
    (hsorted : MapSorted s.lost_tracks) (hnn : ∀ k ∈ mapKeys s.lost_tracks, 0 ≤ k)
    (hinit : inp.reidInit 0 = TrackerInit.ok)
    (hmax : ∃ p ∈ s.lost_tracks, REID_IOU_THRESHOLD < calculateIoU p.2.boundingBox d) :
    ∃ p ∈ s.lost_tracks,
      REID_IOU_THRESHOLD < calculateIoU p.2.boundingBox d ∧
      (∀ q ∈ s.lost_tracks, calculateIoU q.2.boundingBox d ≤ calculateIoU p.2.boundingBox d) ∧
      (associateAndTrack env inp s).active_tracks =
        mapAssign s.active_tracks p.1 (reactivate p.2 d (inp.initTick 0)) ∧
      (associateAndTrack env inp s).lost_tracks = mapErase s.lost_tracks p.1 ∧
      (associateAndTrack env inp s).next_track_id = s.next_track_id ∧
      (associateAndTrack env inp s).new_id_log = s.new_id_log := by
  obtain ⟨b1, b2, b3⟩ := bestLost_spec d s.lost_tracks (REID_IOU_THRESHOLD, -1)
  obtain ⟨p0, hp0, hgt0⟩ := hmax
  have hbig : REID_IOU_THRESHOLD < (bestLost d s.lost_tracks (REID_IOU_THRESHOLD, -1)).1 :=
    lt_of_lt_of_le hgt0 (b2 p0 hp0)
  rcases b3 with b3 | ⟨p, hp, hbest, _⟩
  · rw [b3] at hbig
    exact absurd hbig (lt_irrefl _)
  · have hid : (bestLost d s.lost_tracks (REID_IOU_THRESHOLD, -1)).2 = p.1 := by rw [hbest]
    have hne : p.1 ≠ -1 := by
      have := hnn p.1 (mem_mapKeys_of_mem hp)
      omega
    have hat : mapAt s.lost_tracks p.1 = p.2 := mapAt_of_mem _ _ _ hsorted hp
    have hlen : 0 < (matchActive [d] s.active_tracks [false]).length := by
      rw [matchActive_length]; decide
    have hset : ((matchActive [d] s.active_tracks [false]).set 0 true).getD 0 false = true := by
      simp [List.getD_eq_getElem?_getD, List.getElem?_set, hlen]
    rw [hd] at hp1
    simp only [List.length_singleton, List.replicate] at hp1
    refine ⟨p, hp, ?_, ?_, ?_⟩
    · rw [hbest] at hbig; exact hbig
    · intro q hq
      have := b2 q hq
      rw [hbest] at this
      exact this
    · simp only [associateAndTrack, hd, List.length_singleton, List.replicate, reidLoop,
        reidStep, hp1, hid, hne, hinit, hat, newLoop, newStep, hset, List.nil_append,
        List.foldl_cons, List.foldl_nil, ne_eq, not_false_eq_true, if_true, if_false,
        Bool.false_eq_true, and_self]

/-- Effect of `associateAndTrack` on a single detection `d` that pass 1 left
unmatched, when no lost track exceeds the re-identification cutoff and the
tracker is created: nothing is reactivated and `d` becomes a new track. -/
theorem associate_single_miss (env : Env) (inp : FrameInput) (s : State) (d : Rect)
    (hd : inp.detected_boxes = [d])
    (hp1 : (matchActive inp.detected_boxes s.active_tracks
      (List.replicate inp.detected_boxes.length false)).getD 0 false = false)
    (hinit : inp.newInit 0 = TrackerInit.ok)
    (hle : ∀ p ∈ s.lost_tracks, calculateIoU p.2.boundingBox d ≤ REID_IOU_THRESHOLD) :
    (associateAndTrack env inp s).active_tracks =
      mapAssign s.active_tracks s.next_track_id
        (newTrack env s.next_track_id d (inp.detected_classIds.getD 0 0) (inp.initTick 0)) ∧
    (associateAndTrack env inp s).lost_tracks = s.lost_tracks ∧
    (associateAndTrack env inp s).next_track_id = s.next_track_id + 1 ∧
    (associateAndTrack env inp s).new_id_log = s.new_id_log ++ [s.next_track_id] := by
  obtain ⟨_, _, b3⟩ := bestLost_spec d s.lost_tracks (REID_IOU_THRESHOLD, -1)
  have hbest : bestLost d s.lost_tracks (REID_IOU_THRESHOLD, -1) = (REID_IOU_THRESHOLD, -1) := by
    rcases b3 with b3 | ⟨p, hp, hb, hlt⟩
    · exact b3
    · rw [hb] at hlt
      exact absurd (hle p hp) (not_le.mpr hlt)
  rw [hd] at hp1
  simp only [List.length_singleton, List.replicate] at hp1
  simp only [associateAndTrack, hd, List.length_singleton, List.replicate, reidLoop,
    reidStep, hp1, hbest, hinit, newLoop, newStep, List.foldl_nil, ne_eq,
    not_true_eq_false, if_false, Bool.false_eq_true, and_self]

/-- C10: re-identification keeps the identity.  In the frame that follows any
run, let the detector report a single box `d` that pass 1 leaves unmatched.
If some lost track has IoU with `d` above `REID_IOU_THRESHOLD` (1/5) and the
tracker is created, then the lost track attaining the maximum IoU is in
`active_tracks` after `associateAndTrack`, under its original key, with its
original `id` and `className` and with box `d`; it is no longer in
`lost_tracks`; and `next_track_id` and the trace of created ids are unchanged.
If every lost track has IoU at most 1/5 (also when there is none) and the
tracker is created, `lost_tracks` is unchanged and `d` becomes a new track
whose id is the old `next_track_id`, which then advances by one. -/
theorem reidentification_keeps_identity (env : Env) (s0 : State) (cmds : List Command)
    (inp : FrameInput) (d : Rect) (hd : inp.detected_boxes = [d])
    (hp1 : (matchActive inp.detected_boxes (preAssociation env s0 cmds inp).active_tracks
      (List.replicate inp.detected_boxes.length false)).getD 0 false = false) :
    (inp.reidInit 0 = TrackerInit.ok →
      (∃ p ∈ (preAssociation env s0 cmds inp).lost_tracks,
        REID_IOU_THRESHOLD < calculateIoU p.2.boundingBox d) →
      ∃ p ∈ (preAssociation env s0 cmds inp).lost_tracks,
        REID_IOU_THRESHOLD < calculateIoU p.2.boundingBox d ∧
        (∀ q ∈ (preAssociation env s0 cmds inp).lost_tracks,
          calculateIoU q.2.boundingBox d ≤ calculateIoU p.2.boundingBox d) ∧
        (∃ r, (p.1, r) ∈ (associateAndTrack env inp (preAssociation env s0 cmds inp)).active_tracks ∧
          r.id = p.2.id ∧ r.className = p.2.className ∧ r.boundingBox = d) ∧
        (associateAndTrack env inp (preAssociation env s0 cmds inp)).active_tracks =
          mapAssign (preAssociation env s0 cmds inp).active_tracks p.1
            (reactivate p.2 d (inp.initTick 0)) ∧
        p.1 ∉ mapKeys (associateAndTrack env inp (preAssociation env s0 cmds inp)).lost_tracks ∧
        (associateAndTrack env inp (preAssociation env s0 cmds inp)).next_track_id =
          (preAssociation env s0 cmds inp).next_track_id ∧
        (associateAndTrack env inp (preAssociation env s0 cmds inp)).new_id_log =
          (preAssociation env s0 cmds inp).new_id_log) ∧
    (inp.newInit 0 = TrackerInit.ok →
      (∀ p ∈ (preAssociation env s0 cmds inp).lost_tracks,
        calculateIoU p.2.boundingBox d ≤ REID_IOU_THRESHOLD) →
      (associateAndTrack env inp (preAssociation env s0 cmds inp)).lost_tracks =
        (preAssociation env s0 cmds inp).lost_tracks ∧
      (∃ r, ((preAssociation env s0 cmds inp).next_track_id, r) ∈
          (associateAndTrack env inp (preAssociation env s0 cmds inp)).active_tracks ∧
        r.id = (preAssociation env s0 cmds inp).next_track_id ∧ r.boundingBox = d) ∧
      (associateAndTrack env inp (preAssociation env s0 cmds inp)).active_tracks =
        mapAssign (preAssociation env s0 cmds inp).active_tracks
          (preAssociation env s0 cmds inp).next_track_id
          (newTrack env (preAssociation env s0 cmds inp).next_track_id d
            (inp.detected_classIds.getD 0 0) (inp.initTick 0)) ∧
      (associateAndTrack env inp (preAssociation env s0 cmds inp)).next_track_id =
        (preAssociation env s0 cmds inp).next_track_id + 1 ∧
      (associateAndTrack env inp (preAssociation env s0 cmds inp)).new_id_log =
        (preAssociation env s0 cmds inp).new_id_log ++
          [(preAssociation env s0 cmds inp).next_track_id]) := by
  have hsorted : SortedInv (preAssociation env s0 cmds inp) :=
    sortedInv_updateAndLifecycle env inp _ (sortedInv_run env s0 cmds)
  have hid : IdInv (preAssociation env s0 cmds inp) :=
    idInv_updateAndLifecycle env inp _ (idInv_run env s0 cmds)
  constructor
  · intro hinit hmax
    obtain ⟨p, hp, h1, h2, h3, h4, h5, h6⟩ :=
      associate_single_hit env inp (preAssociation env s0 cmds inp) d hd hp1 hsorted.2
        (fun k hk => (hid.1 k (List.mem_append_right _ hk)).1) hinit hmax
    refine ⟨p, hp, h1, h2, ⟨reactivate p.2 d (inp.initTick 0), ?_, rfl, rfl, rfl⟩, h3, ?_, h5, h6⟩
    · rw [h3]
      exact mem_mapAssign_self _ _ _
    · rw [h4]
      intro hk
      obtain ⟨v, hv⟩ := mem_mapKeys.mp hk
      exact (mem_mapErase.mp hv).2 rfl
  · intro hinit hle
    obtain ⟨h1, h2, h3, h4⟩ :=
      associate_single_miss env inp (preAssociation env s0 cmds inp) d hd hp1 hinit hle
    refine ⟨h2, ⟨newTrack env (preAssociation env s0 cmds inp).next_track_id d
      (inp.detected_classIds.getD 0 0) (inp.initTick 0), ?_, rfl, rfl⟩, h1, h3, h4⟩
    rw [h1]
    exact mem_mapAssign_self _ _ _

/-- Witness of C10: track 0 is created, demoted one frame later, and then a
detection with IoU 1/2 against its last box reactivates it under id 0 without
allocating an id; a far-away detection instead becomes the new track 1. -/
theorem reidentification_keeps_identity_witness :
    mapKeys (preAssociation sampleEnv idleState demotedRun halfOverlap).lost_tracks = [0] ∧
    calculateIoU ⟨0, 0, 100, 100⟩ ⟨0, 0, 100, 50⟩ = 1 / 2 ∧
    (∃ p ∈ (preAssociation sampleEnv idleState demotedRun halfOverlap).lost_tracks,
      (associateAndTrack sampleEnv halfOverlap
          (preAssociation sampleEnv idleState demotedRun halfOverlap)).active_tracks =
        mapAssign [] p.1 (reactivate p.2 ⟨0, 0, 100, 50⟩ 0) ∧
      p.1 ∉ mapKeys (associateAndTrack sampleEnv halfOverlap
          (preAssociation sampleEnv idleState demotedRun halfOverlap)).lost_tracks) ∧
    (associateAndTrack sampleEnv halfOverlap
        (preAssociation sampleEnv idleState demotedRun halfOverlap)).next_track_id = 1 ∧
    (associateAndTrack sampleEnv farAway
        (preAssociation sampleEnv idleState demotedRun farAway)).next_track_id = 1 + 1 := by
  have hiou : calculateIoU ⟨0, 0, 100, 100⟩ ⟨0, 0, 100, 50⟩ = 1 / 2 := by
    norm_num [calculateIoU, Rect.inter, Rect.empty, Rect.area, Rect.zero]
  have hfar : calculateIoU ⟨0, 0, 100, 100⟩ ⟨500, 500, 10, 10⟩ = 0 := by
    norm_num [calculateIoU, Rect.inter, Rect.empty, Rect.area, Rect.zero]
  have hhit := (reidentification_keeps_identity sampleEnv idleState demotedRun halfOverlap
    ⟨0, 0, 100, 50⟩ rfl (by decide)).1 rfl
    ⟨(0, mapAt (preAssociation sampleEnv idleState demotedRun halfOverlap).lost_tracks 0),
      mapAt_mem (by decide), by
        have hb : (mapAt (preAssociation sampleEnv idleState demotedRun
            halfOverlap).lost_tracks 0).boundingBox = ⟨0, 0, 100, 100⟩ := by decide
        simp only [hb, hiou]
        norm_num [REID_IOU_THRESHOLD]⟩
  have hmiss := (reidentification_keeps_identity sampleEnv idleState demotedRun farAway
    ⟨500, 500, 10, 10⟩ rfl (by decide)).2 rfl (by
      intro p hp
      have hl : (preAssociation sampleEnv idleState demotedRun farAway).lost_tracks =
          [(0, mapAt (preAssociation sampleEnv idleState demotedRun farAway).lost_tracks 0)] := by
        decide
      rw [hl] at hp
      rw [List.mem_singleton.mp hp]
      have hb : (mapAt (preAssociation sampleEnv idleState demotedRun
          farAway).lost_tracks 0).boundingBox = ⟨0, 0, 100, 100⟩ := by decide
      simp only [hb, hfar]
      norm_num [REID_IOU_THRESHOLD])
  obtain ⟨p, hp, _, _, _, h4, h5, h6, _⟩ := hhit
  exact ⟨by decide, hiou, ⟨p, hp, h4, h5⟩, h6.trans (by decide), hmiss.2.2.2.1.trans (by decide)⟩

/-! ## Activity invariant -/

theorem updateTrack_success (env : Env) (inp : FrameInput) (id : Int) (tobj : TrackedObject)
    (h : (updateTrack env inp id tobj).2 = true) :
    (updateTrack env inp id tobj).1.frames_since_seen = 0 ∧
      (updateTrack env inp id tobj).1.updated_this_frame = true := by
  cases hm : (if tobj.tracker then inp.trackerUpdate id else none) with
  | none => simp [updateTrack, hm] at h
  | some r => simp [updateTrack, hm]

theorem updateTrackers_mem_cases (env : Env) (inp : FrameInput) (m : TrackMap)
    (p : Int × TrackedObject) (h : p ∈ (updateTrackers env inp m).1) :
    ∃ t, (p.1, t) ∈ m ∧ p.2 = (updateTrack env inp p.1 t).1 ∧
      ((updateTrack env inp p.1 t).2 = false → p.1 ∈ (updateTrackers env inp m).2) := by
  induction m with
  | nil => simp [updateTrackers] at h
  | cons q rest ih =>
    obtain ⟨k, v⟩ := q
    simp only [updateTrackers, List.mem_cons] at h
    rcases h with h | h
    · subst h
      refine ⟨v, List.mem_cons_self _ _, rfl, ?_⟩
      intro hf
      simp only [updateTrackers, hf]
      exact List.mem_cons_self _ _
    · obtain ⟨t, ht, hp, hfail⟩ := ih h
      refine ⟨t, List.mem_cons_of_mem _ ht, hp, ?_⟩
      intro hf
      simp only [updateTrackers]
      split_ifs
      · exact hfail hf
      · exact List.mem_cons_of_mem _ (hfail hf)

theorem updateAndLifecycle_active_updated (env : Env) (inp : FrameInput) (s : State)
    (p : Int × TrackedObject) (h : p ∈ (updateAndLifecycle env inp s).active_tracks) :
    ∃ t, (p.1, t) ∈ s.active_tracks ∧ p.2 = (updateTrack env inp p.1 t).1 ∧
      (updateTrack env inp p.1 t).2 = true := by
  obtain ⟨h1, h2⟩ := updateAndLifecycle_active_mem env inp s p h
  obtain ⟨t, ht, hp, hfail⟩ := updateTrackers_mem_cases env inp _ p h1
  refine ⟨t, ht, hp, ?_⟩
  cases hs : (updateTrack env inp p.1 t).2 with
  | true => rfl
  | false => exact absurd (hfail hs) h2

theorem associateAndTrack_active_cases (env : Env) (inp : FrameInput) (s : State)
    (Q : TrackedObject → Prop) (hre : ∀ L d tick, Q (reactivate L d tick))
    (hnew : ∀ id d cid tick, Q (newTrack env id d cid tick)) :
    ∀ p ∈ (associateAndTrack env inp s).active_tracks, p ∈ s.active_tracks ∨ Q p.2 := by
  simp only [associateAndTrack]
  apply newLoop_induct env inp _ _ (fun st => ∀ p ∈ st.active_tracks, p ∈ s.active_tracks ∨ Q p.2)
  · intro i dbox st hst
    simp only [newStep]
    split_ifs
    · exact hst
    · split
      · intro p hp
        rcases mem_of_mem_mapAssign _ _ _ _ hp with hp | hp
        · rw [hp]; exact Or.inr (hnew _ _ _ _)
        · exact hst p hp
      · exact hst
      · exact hst
  · apply reidLoop_induct inp _ (fun st => ∀ p ∈ st.active_tracks, p ∈ s.active_tracks ∨ Q p.2)
    · intro i dbox st hst
      simp only [reidStep]
      split_ifs
      · exact hst
      · split
        · intro p hp
          rcases mem_of_mem_mapAssign _ _ _ _ hp with hp | hp
          · rw [hp]; exact Or.inr (hre _ _ _)
          · exact hst p hp
        · exact hst
        · exact hst
      · exact hst
    · intro p hp
      exact Or.inl hp

theorem activityInv_updateAndLifecycle (env : Env) (inp : FrameInput) (s : State)
    (h : ∀ p ∈ s.lost_tracks, 1 ≤ p.2.frames_since_seen) :
    ActivityInv (updateAndLifecycle env inp s) := by
  constructor
  · intro p hp
    obtain ⟨t, _, hpt, hok⟩ := updateAndLifecycle_active_updated env inp s p hp
    rw [hpt]
    exact updateTrack_success env inp p.1 t hok
  · intro p hp
    obtain ⟨q, hq, hcase⟩ := updateAndLifecycle_lost_mem env inp s p hp
    rw [hq]
    rcases hcase with h1 | ⟨_, t, _, hqt⟩
    · have := h q h1
      simp only
      omega
    · rw [hqt]
      simp only
      omega

theorem activityInv_associateAndTrack (env : Env) (inp : FrameInput) (s : State)
    (h : ActivityInv s) : ActivityInv (associateAndTrack env inp s) := by
  constructor
  · intro p hp
    rcases associateAndTrack_active_cases env inp s
      (fun t => t.frames_since_seen = 0 ∧ t.updated_this_frame = true)
      (fun _ _ _ => ⟨rfl, rfl⟩) (fun _ _ _ _ => ⟨rfl, rfl⟩) p hp with h1 | h1
    · exact h.1 p h1
    · exact h1
  · intro p hp
    exact h.2 p ((associateAndTrack_spec env inp s).2.2.1 p hp)

theorem activityInv_stable (env : Env) : Stable env ActivityInv := by
  refine ⟨?_, fun inp s h => activityInv_updateAndLifecycle env inp s h.2,
    activityInv_associateAndTrack env, fun _ _ h => h, fun _ _ h => h, fun _ _ h => h,
    fun _ _ h => h⟩
  intro s _
  constructor <;> intro p hp <;> simp [stopProcessing] at hp

theorem activityInv_run (env : Env) (s0 : State) (cmds : List Command) :
    ActivityInv (run env s0 cmds) := by
  apply run_stable env ActivityInv (activityInv_stable env)
  intro s
  constructor <;> intro p hp <;> simp [startProcessing] at hp


/-- C14: activity invariant.  At every observation point of a run after the
lifecycle pass (between commands, when `associateAndTrack` starts, when it
returns and the alert pass runs, and at the end of `processFrame`) every track
in `active_tracks` has `frames_since_seen = 0` and `updated_this_frame = true`,
and every track in `lost_tracks` has `frames_since_seen >= 1`. -/
theorem activity_invariant (env : Env) (s0 : State) (cmds : List Command) :
    ActivityInv (run env s0 cmds) ∧
    ∀ inp,
      ActivityInv (updateAndLifecycle env inp (run env s0 cmds)) ∧
      ActivityInv (associateAndTrack env inp (updateAndLifecycle env inp (run env s0 cmds))) ∧
      ActivityInv (processFrame env inp (run env s0 cmds)) := by
  have hinv := activityInv_run env s0 cmds
  refine ⟨hinv, fun inp => ?_⟩
  have h2 := activityInv_updateAndLifecycle env inp _ hinv.2
  exact ⟨h2, activityInv_associateAndTrack env inp _ h2,
    processFrame_stable env ActivityInv (activityInv_stable env) inp _ hinv⟩

/-- Witness of C14 on two runs: the track created and updated in the speeding
scenario is active with counter 0 and flag true, and the track demoted in the
re-identification scenario is lost with counter 2. -/
theorem activity_invariant_witness :
    (run sampleEnv idleState speedingRun).active_tracks.map
        (fun p => (p.2.frames_since_seen, p.2.updated_this_frame)) = [(0, true)] ∧
    (run sampleEnv idleState demotedRun).lost_tracks.map
        (fun p => p.2.frames_since_seen) = [2] ∧
    ActivityInv (run sampleEnv idleState speedingRun) ∧
    ActivityInv (run sampleEnv idleState demotedRun) :=
  ⟨by decide, by decide, (activity_invariant sampleEnv idleState speedingRun).1,
    (activity_invariant sampleEnv idleState demotedRun).1⟩

/-! ## Alerts -/

theorem inter_area_pos_iff (a b : Rect) :
    0 < (a.inter b).area ↔ 0 < overlapWidth a b ∧ 0 < overlapHeight a b := by
  rw [inter_eq_overlap]
  split_ifs with h
  · simp only [Rect.zero, Rect.area]
    constructor
    · intro h0
      exact absurd h0 (by decide)
    · rintro ⟨h1, h2⟩
      rcases h with h | h <;> omega
  · simp only [Rect.area]
    have h1 : 0 < overlapWidth a b := by
      by_contra hc
      exact h (Or.inl (by omega))
    have h2 : 0 < overlapHeight a b := by
      by_contra hc
      exact h (Or.inr (by omega))
    exact ⟨fun _ => ⟨h1, h2⟩, fun _ => Int.mul_pos h1 h2⟩

theorem trackAlerts_of_updated (s : State) (z : Rect) (t : TrackedObject)
    (h : t.updated_this_frame = true) :
    ∃ f, trackAlerts s z t = some f ∧
      f.zone = (s._drawRestrictedZone && decide ((t.boundingBox.inter z).area > 0)) ∧
      f.speed = (s._checkSpeedAlert && decide (t.velocity > SPEED_THRESHOLD_PIXELS_PER_SEC)) ∧
      f.alert_text = (if f.zone then "[ZONE]" else "") ++ (if f.speed then "[SPEED]" else "") ∧
      f.box_color = (if f.zone then BoxColor.red
        else if f.speed then BoxColor.orange else BoxColor.green) := by
  simp only [trackAlerts, h, if_true]
  refine ⟨_, rfl, rfl, rfl, ?_, ?_⟩
  · simp only
    split_ifs <;> rfl
  · simp only
    split_ifs <;> simp_all

theorem alertPass_any (cols rows : Int) (s : State) :
    (alertPass cols rows s).1 = true ↔
      ∃ q ∈ s.active_tracks,
        raisesZoneAlert s (restrictedZone cols rows) q.2 = true ∨
        raisesSpeedAlert s (restrictedZone cols rows) q.2 = true := by
  simp only [alertPass, List.any_eq_true, List.mem_filterMap, Option.map_eq_some',
    Bool.or_eq_true]
  constructor
  · rintro ⟨r, ⟨q, hq, f, hf, hr⟩, hflag⟩
    refine ⟨q, hq, ?_⟩
    simp only [raisesZoneAlert, raisesSpeedAlert, hf]
    rw [← hr] at hflag
    exact hflag
  · rintro ⟨q, hq, hflag⟩
    cases hf : trackAlerts s (restrictedZone cols rows) q.2 with
    | none => simp [raisesZoneAlert, raisesSpeedAlert, hf] at hflag
    | some f =>
      simp only [raisesZoneAlert, raisesSpeedAlert, hf] at hflag
      exact ⟨(q.1, f), ⟨q, hq, f, hf, rfl⟩, hflag⟩

/-- C13: speed alert.  For every track in `active_tracks` at an observation
point of a run: the track raises the speed alert if and only if
`_checkSpeedAlert` is enabled and its velocity is strictly greater than
`SPEED_THRESHOLD_PIXELS_PER_SEC` (150); a velocity of exactly 150 raises no
speed alert and a velocity of 200 with the toggle enabled does; a track that
raises both the zone and the speed alert is reported with both kinds (its label
text is "[ZONE][SPEED]", drawn red); and the frame-level flag
`alert_active_this_frame` is true exactly when some active track raises one of
the two alerts. -/
theorem speed_alert (env : Env) (s0 : State) (cmds : List Command) (z : Rect)
    (p : Int × TrackedObject) (hp : p ∈ (run env s0 cmds).active_tracks) :
    (raisesSpeedAlert (run env s0 cmds) z p.2 = true ↔
      (run env s0 cmds)._checkSpeedAlert = true ∧
        SPEED_THRESHOLD_PIXELS_PER_SEC < p.2.velocity) ∧
    (p.2.velocity = 150 → raisesSpeedAlert (run env s0 cmds) z p.2 = false) ∧
    ((run env s0 cmds)._checkSpeedAlert = true → p.2.velocity = 200 →
      raisesSpeedAlert (run env s0 cmds) z p.2 = true) ∧
    (raisesZoneAlert (run env s0 cmds) z p.2 = true →
      raisesSpeedAlert (run env s0 cmds) z p.2 = true →
      ∃ f, trackAlerts (run env s0 cmds) z p.2 = some f ∧ f.zone = true ∧ f.speed = true ∧
        f.alert_text = "[ZONE][SPEED]" ∧ f.box_color = BoxColor.red) ∧
    (∀ cols rows, (alertPass cols rows (run env s0 cmds)).1 = true ↔
      ∃ q ∈ (run env s0 cmds).active_tracks,
        raisesZoneAlert (run env s0 cmds) (restrictedZone cols rows) q.2 = true ∨
        raisesSpeedAlert (run env s0 cmds) (restrictedZone cols rows) q.2 = true) := by
  have hupd := ((activityInv_run env s0 cmds).1 p hp).2
  obtain ⟨f, hf, hz, hs, htext, hcol⟩ := trackAlerts_of_updated (run env s0 cmds) z p.2 hupd
  have hiff : raisesSpeedAlert (run env s0 cmds) z p.2 = true ↔
      (run env s0 cmds)._checkSpeedAlert = true ∧
        SPEED_THRESHOLD_PIXELS_PER_SEC < p.2.velocity := by
    simp only [raisesSpeedAlert, hf, hs, Bool.and_eq_true, decide_eq_true_eq, gt_iff_lt]
  refine ⟨hiff, ?_, ?_, ?_, fun cols rows => alertPass_any cols rows _⟩
  · intro h150
    apply (Bool.not_eq_true _).mp
    intro h
    have := (hiff.mp h).2
    rw [h150] at this
    norm_num [SPEED_THRESHOLD_PIXELS_PER_SEC] at this
  · intro hon h200
    apply hiff.mpr
    refine ⟨hon, ?_⟩
    rw [h200]
    norm_num [SPEED_THRESHOLD_PIXELS_PER_SEC]
  · intro hzone hspeed
    simp only [raisesZoneAlert, hf] at hzone
    simp only [raisesSpeedAlert, hf] at hspeed
    refine ⟨f, hf, hzone, hspeed, ?_, ?_⟩
    · rw [htext, hzone, hspeed]
      decide
    · rw [hcol, hzone]
      rfl

/-- Witness of C13 on the speeding scenario: the track has velocity 200 and,
on a 640 x 480 frame, raises the speed alert and the zone alert, so that it
is labelled "[ZONE][SPEED]" and the frame-level flag is set. -/
theorem speed_alert_witness :
    (mapAt (run sampleEnv idleState speedingRun).active_tracks 0).velocity = 200 ∧
    raisesSpeedAlert (run sampleEnv idleState speedingRun) (restrictedZone 640 480)
      (mapAt (run sampleEnv idleState speedingRun).active_tracks 0) = true ∧
    (∃ f, trackAlerts (run sampleEnv idleState speedingRun) (restrictedZone 640 480)
        (mapAt (run sampleEnv idleState speedingRun).active_tracks 0) = some f ∧
      f.alert_text = "[ZONE][SPEED]") ∧
    (alertPass 640 480 (run sampleEnv idleState speedingRun)).1 = true := by
  have hvel : (mapAt (run sampleEnv idleState speedingRun).active_tracks 0).velocity = 200 := by
    have h1 : (mapAt (run sampleEnv idleState speedingRun).active_tracks 0).velocity =
        newVelocity sampleEnv 2000 ⟨-25, -25, 50, 50⟩ ⟨200, 0⟩ [⟨0, 0⟩, ⟨200, 0⟩] 1000 := rfl
    have h25 : Int.tdiv 50 2 = 25 := by decide
    rw [h1]
    norm_num [newVelocity, sampleEnv, getCenter, h25]
  have hmem : (0, mapAt (run sampleEnv idleState speedingRun).active_tracks 0) ∈
      (run sampleEnv idleState speedingRun).active_tracks := mapAt_mem (by decide)
  have h := speed_alert sampleEnv idleState speedingRun (restrictedZone 640 480) _ hmem
  have hspeed := h.2.2.1 (by decide) hvel
  have hzone : raisesZoneAlert (run sampleEnv idleState speedingRun) (restrictedZone 640 480)
      (mapAt (run sampleEnv idleState speedingRun).active_tracks 0) = true := by decide
  obtain ⟨f, hf, _, _, htext, _⟩ := h.2.2.2.1 hzone hspeed
  exact ⟨hvel, hspeed, ⟨f, hf, htext⟩, (h.2.2.2.2 640 480).mpr ⟨_, hmem, Or.inr hspeed⟩⟩


/-! ## Velocity estimate -/

theorem pushTrajectory_length_ge (t : List Point) (c : Point) (h : t ≠ []) :
    2 ≤ (pushTrajectory t c).length := by
  have hpos : 1 ≤ t.length := by
    cases t with
    | nil => exact absurd rfl h
    | cons a rest => simp
  simp only [pushTrajectory]
  split_ifs with h1
  · simp only [List.length_tail, List.length_append, List.length_singleton] at h1 ⊢
    simp only [TRAJECTORY_LENGTH] at h1
    omega
  · simp only [List.length_append, List.length_singleton]
    omega

/-- C12: velocity estimate.  When an active track with a tracker handle, a
non-empty trajectory and `last_update_tick > 0` is successfully updated to the
box `r`: if the elapsed time (tick difference over tick frequency) exceeds
1/1000 s, its velocity becomes the norm of the difference between the centre
of `r` and the centre of its previous box, divided by the elapsed seconds; so
that, the norm being the Euclidean one (non-negative with square
`dx*dx + dy*dy`), the velocity is non-negative and velocity times elapsed
seconds is the Euclidean distance of the two centres; if the elapsed time is at
most 1/1000 s the velocity becomes 0. -/
theorem velocity_estimate (env : Env) (inp : FrameInput) (id : Int) (tobj : TrackedObject)
    (r : Rect) (htracker : tobj.tracker = true) (hupd : inp.trackerUpdate id = some r)
    (htraj : tobj.trajectory ≠ []) (hlast : 0 < tobj.last_update_tick) :
    (1 / 1000 < elapsedSeconds env inp tobj →
      (updateTrack env inp id tobj).1.velocity =
        env.norm (centreShift r tobj.boundingBox) / elapsedSeconds env inp tobj) ∧
    (1 / 1000 < elapsedSeconds env inp tobj →
      0 ≤ env.norm (centreShift r tobj.boundingBox) →
      env.norm (centreShift r tobj.boundingBox) * env.norm (centreShift r tobj.boundingBox) =
        (((centreShift r tobj.boundingBox).x * (centreShift r tobj.boundingBox).x +
          (centreShift r tobj.boundingBox).y * (centreShift r tobj.boundingBox).y : Int) : ℚ) →
      0 ≤ (updateTrack env inp id tobj).1.velocity ∧
      ((updateTrack env inp id tobj).1.velocity * elapsedSeconds env inp tobj) *
          ((updateTrack env inp id tobj).1.velocity * elapsedSeconds env inp tobj) =
        (((centreShift r tobj.boundingBox).x * (centreShift r tobj.boundingBox).x +
          (centreShift r tobj.boundingBox).y * (centreShift r tobj.boundingBox).y : Int) : ℚ)) ∧
    (elapsedSeconds env inp tobj ≤ 1 / 1000 → (updateTrack env inp id tobj).1.velocity = 0) := by
  have hlen := pushTrajectory_length_ge tobj.trajectory (getCenter r) htraj
  have hvel : (updateTrack env inp id tobj).1.velocity =
      if elapsedSeconds env inp tobj > 1 / 1000 then
        env.norm (centreShift r tobj.boundingBox) / elapsedSeconds env inp tobj
      else 0 := by
    simp only [updateTrack, htracker, if_true, hupd, newVelocity, elapsedSeconds, centreShift]
    rw [if_pos ⟨hlen, hlast⟩]
  refine ⟨?_, ?_, ?_⟩
  · intro h
    rw [hvel, if_pos h]
  · intro h hnn hsq
    rw [hvel, if_pos h]
    have hpos : 0 < elapsedSeconds env inp tobj := lt_trans (by norm_num) h
    refine ⟨div_nonneg hnn (le_of_lt hpos), ?_⟩
    rw [div_mul_cancel₀ _ (ne_of_gt hpos)]
    exact hsq
  · intro h
    rw [hvel, if_neg (not_lt.mpr h)]

/-- Witness of C12: centres `(0, 0)` then `(200, 0)` with exactly one second
elapsed give velocity 200. -/
theorem velocity_estimate_witness :
    getCenter trackAtOrigin.boundingBox = ⟨0, 0⟩ ∧
    getCenter ⟨175, -25, 50, 50⟩ = ⟨200, 0⟩ ∧
    elapsedSeconds sampleEnv fastMove trackAtOrigin = 1 ∧
    (updateTrack sampleEnv fastMove 0 trackAtOrigin).1.velocity = 200 := by
  have hel : elapsedSeconds sampleEnv fastMove trackAtOrigin = 1 := by
    norm_num [elapsedSeconds, sampleEnv, fastMove, quietInput, trackAtOrigin,
      TrackedObject.fresh]
  have hshift : centreShift ⟨175, -25, 50, 50⟩ trackAtOrigin.boundingBox = ⟨200, 0⟩ := by decide
  have h := (velocity_estimate sampleEnv fastMove 0 trackAtOrigin ⟨175, -25, 50, 50⟩ rfl rfl
    (by decide) (by decide)).1 (by rw [hel]; norm_num)
  refine ⟨by decide, by decide, hel, ?_⟩
  rw [h, hel, hshift]
  norm_num [sampleEnv]


/-! ## Tracker-creation failure -/

theorem reidStep_fail (inp : FrameInput) (lost : TrackMap) (i : Nat) (dbox : Rect)
    (st : ReidState) (h : inp.reidInit i ≠ TrackerInit.ok) :
    reidStep inp lost i dbox st = st := by
  simp only [reidStep]
  split_ifs
  · rfl
  · split
    · rename_i hok
      exact absurd hok h
    · rfl
    · rfl
  · rfl

theorem reidLoop_all_fail (inp : FrameInput) (lost : TrackMap) (boxes : List Rect) (i : Nat)
    (st : ReidState)
    (h : ∀ j, i ≤ j → j < i + boxes.length → inp.reidInit j ≠ TrackerInit.ok) :
    reidLoop inp lost boxes i st = st := by
  induction boxes generalizing i st with
  | nil => rfl
  | cons b rest ih =>
    simp only [reidLoop]
    rw [reidStep_fail inp lost i b st (h i (le_refl _) (by simp only [List.length_cons]; omega))]
    exact ih (i + 1) st (fun j h1 h2 => h j (by omega) (by simp only [List.length_cons]; omega))

theorem newStep_fail (env : Env) (inp : FrameInput) (matched : List Bool) (cids : List Nat)
    (i : Nat) (dbox : Rect) (st : NewState) (h : inp.newInit i ≠ TrackerInit.ok) :
    newStep env inp matched cids i dbox st = st := by
  obtain ⟨a, n, l⟩ := st
  have hundo : n + 1 - 1 = n := by omega
  simp only [newStep]
  split_ifs
  · rfl
  · split
    · rename_i hok
      exact absurd hok h
    · simp only [hundo]
    · simp only [hundo]

theorem newLoop_all_fail (env : Env) (inp : FrameInput) (matched : List Bool) (cids : List Nat)
    (boxes : List Rect) (i : Nat) (st : NewState)
    (h : ∀ j, i ≤ j → j < i + boxes.length → inp.newInit j ≠ TrackerInit.ok) :
    newLoop env inp matched cids boxes i st = st := by
  induction boxes generalizing i st with
  | nil => rfl
  | cons b rest ih =>
    simp only [newLoop]
    rw [newStep_fail env inp matched cids i b st
      (h i (le_refl _) (by simp only [List.length_cons]; omega))]
    exact ih (i + 1) st (fun j h1 h2 => h j (by omega) (by simp only [List.length_cons]; omega))

/-- C15: tracker-creation failure does not corrupt identities.  If creation or
initialisation fails for every detection index of the call, in the
re-identification pass and in the new-track pass, then `associateAndTrack`
returns the state it was given: `active_tracks`, `lost_tracks`, `next_track_id`
(and the trace of created ids) are unchanged, for every detection list.  And a
single failed new-track attempt returns the loop state it was given, so that a
following successful creation for an unmatched detection stores its track
under the id `next_track_id` had before the failed attempt. -/
theorem creation_failure_keeps_ids (env : Env) (inp : FrameInput) :
    (∀ s : State,
      (∀ i < inp.detected_boxes.length, inp.reidInit i ≠ TrackerInit.ok) →
      (∀ i < inp.detected_boxes.length, inp.newInit i ≠ TrackerInit.ok) →
      (associateAndTrack env inp s).active_tracks = s.active_tracks ∧
      (associateAndTrack env inp s).lost_tracks = s.lost_tracks ∧
      (associateAndTrack env inp s).next_track_id = s.next_track_id ∧
      (associateAndTrack env inp s).new_id_log = s.new_id_log ∧
      associateAndTrack env inp s = s) ∧
    (∀ (matched : List Bool) (cids : List Nat) (i : Nat) (d : Rect) (st : NewState),
      inp.newInit i ≠ TrackerInit.ok →
      newStep env inp matched cids i d st = st ∧
      ∀ (j : Nat) (d' : Rect), matched.getD j false = false → inp.newInit j = TrackerInit.ok →
        (newStep env inp matched cids j d' (newStep env inp matched cids i d st)).active_tracks =
          mapAssign st.active_tracks st.next_track_id
            (newTrack env st.next_track_id d' (cids.getD j 0) (inp.initTick j)) ∧
        (newStep env inp matched cids j d' (newStep env inp matched cids i d st)).next_track_id =
          st.next_track_id + 1) := by
  constructor
  · intro s hre hnew
    have hstate : associateAndTrack env inp s = s := by
      simp only [associateAndTrack]
      rw [reidLoop_all_fail inp s.lost_tracks inp.detected_boxes 0 _
        (fun j _ hj => hre j (by omega))]
      rw [newLoop_all_fail env inp _ _ inp.detected_boxes 0 _
        (fun j _ hj => hnew j (by omega))]
      rfl
    rw [hstate]
    exact ⟨rfl, rfl, rfl, rfl, rfl⟩
  · intro matched cids i d st hfail
    refine ⟨newStep_fail env inp matched cids i d st hfail, ?_⟩
    intro j d' hun hok
    rw [newStep_fail env inp matched cids i d st hfail]
    simp only [newStep, hun, hok, Bool.false_eq_true, if_false, and_self]

/-- Witness of C15: when no tracker can be created the two detections leave a
state holding a lost track untouched; when only the first creation fails the
second detection becomes track 0. -/
theorem creation_failure_keeps_ids_witness :
    associateAndTrack sampleEnv noTrackerInput (run sampleEnv idleState demotedRun) =
      run sampleEnv idleState demotedRun ∧
    mapKeys (run sampleEnv idleState demotedRun).lost_tracks = [0] ∧
    mapKeys (associateAndTrack sampleEnv firstFailsInput
      (startProcessing idleState)).active_tracks = [0] ∧
    (mapAt (associateAndTrack sampleEnv firstFailsInput
      (startProcessing idleState)).active_tracks 0).boundingBox = ⟨200, 200, 10, 10⟩ ∧
    (associateAndTrack sampleEnv firstFailsInput (startProcessing idleState)).next_track_id = 1 :=
  ⟨((creation_failure_keeps_ids sampleEnv noTrackerInput).1 (run sampleEnv idleState demotedRun)
      (by decide) (by decide)).2.2.2.2,
    by decide, by decide, by decide, by decide⟩


/-! ## Fate of one track in the tracker-update phase and the lifecycle pass -/

theorem mapSorted_unique (m : TrackMap) (k : Int) (v w : TrackedObject) (hs : MapSorted m)
    (hv : (k, v) ∈ m) (hw : (k, w) ∈ m) : v = w := by
  rw [← mapAt_of_mem m k v hs hv, ← mapAt_of_mem m k w hs hw]

theorem updateTrackers_mem_of_mem (env : Env) (inp : FrameInput) (m : TrackMap) (id : Int)
    (t : TrackedObject) (h : (id, t) ∈ m) :
    (id, (updateTrack env inp id t).1) ∈ (updateTrackers env inp m).1 ∧
    ((updateTrack env inp id t).2 = false → id ∈ (updateTrackers env inp m).2) := by
  induction m with
  | nil => cases h
  | cons q rest ih =>
    obtain ⟨k, v⟩ := q
    simp only [updateTrackers]
    rcases List.mem_cons.mp h with h | h
    · obtain ⟨hk, hv⟩ := Prod.mk.inj h
      subst hk
      subst hv
      refine ⟨List.mem_cons_self _ _, ?_⟩
      intro hf
      simp only [hf]
      exact List.mem_cons_self _ _
    · obtain ⟨i1, i2⟩ := ih h
      refine ⟨List.mem_cons_of_mem _ i1, ?_⟩
      intro hf
      split_ifs
      · exact i2 hf
      · exact List.mem_cons_of_mem _ (i2 hf)

theorem updateTrackers_failed_mem (env : Env) (inp : FrameInput) (m : TrackMap) (k : Int)
    (h : k ∈ (updateTrackers env inp m).2) :
    ∃ t, (k, t) ∈ m ∧ (updateTrack env inp k t).2 = false := by
  induction m with
  | nil => simp [updateTrackers] at h
  | cons q rest ih =>
    obtain ⟨k', v⟩ := q
    simp only [updateTrackers] at h
    split_ifs at h with hs
    · obtain ⟨t, ht, hf⟩ := ih h
      exact ⟨t, List.mem_cons_of_mem _ ht, hf⟩
    · rcases List.mem_cons.mp h with h | h
      · subst h
        refine ⟨v, List.mem_cons_self _ _, ?_⟩
        cases hb : (updateTrack env inp k v).2 with
        | true => exact absurd hb hs
        | false => rfl
      · obtain ⟨t, ht, hf⟩ := ih h
        exact ⟨t, List.mem_cons_of_mem _ ht, hf⟩

theorem foldl_moveToLost_demotes (fs : List Int) (maps : TrackMap × TrackMap) (id : Int)
    (v : TrackedObject) (hs : MapSorted maps.1) (hid : id ∈ fs) (hv : (id, v) ∈ maps.1) :
    (id, { v with frames_since_seen := 1 }) ∈ (fs.foldl moveToLost maps).2 := by
  induction fs generalizing maps with
  | nil => cases hid
  | cons k rest ih =>
    simp only [List.foldl_cons]
    by_cases hk : k = id
    · subst hk
      apply foldl_moveToLost_snd_keep
      · have hc : mapCount maps.1 k ≠ 0 := mapCount_ne_zero.mpr (mem_mapKeys_of_mem hv)
        simp only [moveToLost, hc, ne_eq, not_false_eq_true, if_true,
          mapAt_of_mem maps.1 k v hs hv]
        exact mem_mapAssign_self _ _ _
      · rw [moveToLost_fst]
        intro hm
        obtain ⟨w, hw⟩ := mem_mapKeys.mp hm
        exact (mem_mapErase.mp hw).2 rfl
    · apply ih
      · rw [moveToLost_fst]
        exact mapSorted_mapErase _ _ hs
      · rcases List.mem_cons.mp hid with h | h
        · exact absurd h.symm hk
        · exact h
      · rw [moveToLost_fst]
        exact mem_mapErase.mpr ⟨hv, fun h => hk h.symm⟩

theorem updateTrackers_sorted (env : Env) (inp : FrameInput) (m : TrackMap) (hs : MapSorted m) :
    MapSorted (updateTrackers env inp m).1 := by
  simp only [MapSorted, updateTrackers_keys]
  exact hs

/-- Where the track stored under `id` ends up after the tracker-update phase
and the lifecycle pass, in a state with well-formed, disjoint maps. -/
theorem updateAndLifecycle_track_fate (env : Env) (inp : FrameInput) (s : State) (id : Int)
    (t : TrackedObject) (hs : SortedInv s) (hd : ActiveLostDisjoint s)
    (hmem : (id, t) ∈ s.active_tracks) (v : TrackedObject) :
    ((id, v) ∈ (updateAndLifecycle env inp s).active_tracks ↔
      (updateTrack env inp id t).2 = true ∧ v = (updateTrack env inp id t).1) ∧
    ((id, v) ∈ (updateAndLifecycle env inp s).lost_tracks ↔
      (updateTrack env inp id t).2 = false ∧
        v = { (updateTrack env inp id t).1 with frames_since_seen := 2 }) := by
  have hu := updateTrackers_mem_of_mem env inp s.active_tracks id t hmem
  have hsorted' := sortedInv_updateAndLifecycle env inp s hs
  have hfailed_iff : id ∈ (updateTrackers env inp s.active_tracks).2 ↔
      (updateTrack env inp id t).2 = false := by
    constructor
    · intro h
      obtain ⟨t', ht', hf⟩ := updateTrackers_failed_mem env inp _ id h
      rw [mapSorted_unique _ _ _ _ hs.1 hmem ht']
      exact hf
    · exact hu.2
  have hdemoted : (updateTrack env inp id t).2 = false →
      (id, { (updateTrack env inp id t).1 with frames_since_seen := 2 }) ∈
        (updateAndLifecycle env inp s).lost_tracks := by
    intro hf
    have hmoved := foldl_moveToLost_demotes (updateTrackers env inp s.active_tracks).2
      ((updateTrackers env inp s.active_tracks).1, s.lost_tracks) id
      (updateTrack env inp id t).1 (updateTrackers_sorted env inp _ hs.1) (hu.2 hf) hu.1
    have hmsorted := mapSorted_foldl_moveToLost (updateTrackers env inp s.active_tracks).2
      ((updateTrackers env inp s.active_tracks).1, s.lost_tracks) hs.2
    simp only [updateAndLifecycle, lifecyclePass]
    apply (mem_foldl_mapErase _ _ _).mpr
    constructor
    · rw [ageLost_fst]
      refine List.mem_map.mpr ⟨_, hmoved, ?_⟩
      simp only [Prod.mk.injEq, true_and]
      rfl
    · intro hdel
      obtain ⟨t', ht', hgt⟩ := (mem_ageLost_snd _ _).mp hdel
      have := mapSorted_unique _ _ _ _ hmsorted ht' hmoved
      rw [this] at hgt
      simp only [MAX_LOST_FRAMES] at hgt
      omega
  constructor
  · constructor
    · intro h
      obtain ⟨t', ht', hv, hok⟩ := updateAndLifecycle_active_updated env inp s (id, v) h
      have : t' = t := mapSorted_unique _ _ _ _ hs.1 ht' hmem
      subst this
      exact ⟨hok, hv⟩
    · rintro ⟨hok, hv⟩
      rw [hv]
      simp only [updateAndLifecycle, lifecyclePass, foldl_moveToLost_fst]
      apply (mem_foldl_mapErase _ _ _).mpr
      refine ⟨hu.1, ?_⟩
      intro hf
      rw [hfailed_iff.mp hf] at hok
      exact absurd hok (by decide)
  · constructor
    · intro h
      have hfail : (updateTrack env inp id t).2 = false := by
        rcases updateAndLifecycle_lost_key env inp s id (mem_mapKeys_of_mem h) with h1 | ⟨h1, _⟩
        · exact absurd h1 (hd id (mem_mapKeys_of_mem hmem))
        · exact hfailed_iff.mp h1
      exact ⟨hfail, mapSorted_unique _ _ _ _ hsorted'.2 h (hdemoted hfail)⟩
    · rintro ⟨hfail, hv⟩
      rw [hv]
      exact hdemoted hfail

theorem updateTrack_congr (env : Env) (inp inp' : FrameInput) (id : Int) (t : TrackedObject)
    (h1 : inp'.trackerUpdate id = inp.trackerUpdate id)
    (h2 : inp'.current_tick = inp.current_tick) :
    updateTrack env inp' id t = updateTrack env inp id t := by
  simp only [updateTrack, h1, h2]


theorem updateTrack_fail (env : Env) (inp : FrameInput) (id : Int) (t : TrackedObject)
    (h : t.tracker = false ∨ inp.trackerUpdate id = none) :
    updateTrack env inp id t = ({ t with updated_this_frame := false }, false) := by
  have hnone : (if t.tracker then inp.trackerUpdate id else none) = none := by
    rcases h with h | h
    · simp [h]
    · simp [h]
  simp only [updateTrack, hnone]

theorem updateTrack_ok (env : Env) (inp : FrameInput) (id : Int) (t : TrackedObject) (r : Rect)
    (h1 : t.tracker = true) (h2 : inp.trackerUpdate id = some r) :
    (updateTrack env inp id t).2 = true ∧ (updateTrack env inp id t).1.boundingBox = r ∧
      (updateTrack env inp id t).1.id = t.id ∧
      (updateTrack env inp id t).1.className = t.className := by
  simp only [updateTrack, h1, if_true, h2, and_self]

/-- C16: per-track tracker failure is contained.  For every track `t` stored
under `id` in `active_tracks` at the start of a frame of a run: if its tracker
update fails (null handle, or `update` returns false or throws) then after the
lifecycle pass the track is in `lost_tracks` and `id` is not in
`active_tracks`, and the lost entry has the `id`, `className` and `boundingBox`
of `t`; if the update succeeds with refined box `r` the track stays in
`active_tracks` with `boundingBox = r` (same `id` and `className`) and is not
in `lost_tracks`; and both maps hold the same entry under `id` for any other
frame input that gives this track the same update result at the same tick,
whatever the results of the other tracks. -/
theorem tracker_failure_contained (env : Env) (s0 : State) (cmds : List Command)
    (inp : FrameInput) (id : Int) (t : TrackedObject)
    (hmem : (id, t) ∈ (run env s0 cmds).active_tracks) :
    ((t.tracker = false ∨ inp.trackerUpdate id = none) →
      (id, { t with updated_this_frame := false, frames_since_seen := 2 }) ∈
        (updateAndLifecycle env inp (run env s0 cmds)).lost_tracks ∧
      id ∉ mapKeys (updateAndLifecycle env inp (run env s0 cmds)).active_tracks ∧
      ∀ v, (id, v) ∈ (updateAndLifecycle env inp (run env s0 cmds)).lost_tracks →
        v.id = t.id ∧ v.className = t.className ∧ v.boundingBox = t.boundingBox) ∧
    (∀ r, t.tracker = true → inp.trackerUpdate id = some r →
      (∃ v, (id, v) ∈ (updateAndLifecycle env inp (run env s0 cmds)).active_tracks ∧
        v.boundingBox = r ∧ v.id = t.id ∧ v.className = t.className) ∧
      id ∉ mapKeys (updateAndLifecycle env inp (run env s0 cmds)).lost_tracks) ∧
    (∀ inp' : FrameInput, inp'.trackerUpdate id = inp.trackerUpdate id →
      inp'.current_tick = inp.current_tick →
      ∀ v,
        ((id, v) ∈ (updateAndLifecycle env inp' (run env s0 cmds)).active_tracks ↔
          (id, v) ∈ (updateAndLifecycle env inp (run env s0 cmds)).active_tracks) ∧
        ((id, v) ∈ (updateAndLifecycle env inp' (run env s0 cmds)).lost_tracks ↔
          (id, v) ∈ (updateAndLifecycle env inp (run env s0 cmds)).lost_tracks)) := by
  have hs := sortedInv_run env s0 cmds
  have hd := (idInv_run env s0 cmds).2.1
  refine ⟨?_, ?_, ?_⟩
  · intro hfail
    have hu := updateTrack_fail env inp id t hfail
    have hfate := fun v => updateAndLifecycle_track_fate env inp _ id t hs hd hmem v
    refine ⟨?_, ?_, ?_⟩
    · apply (hfate _).2.mpr
      rw [hu]
      exact ⟨rfl, rfl⟩
    · intro hk
      obtain ⟨v, hv⟩ := mem_mapKeys.mp hk
      have := ((hfate v).1.mp hv).1
      rw [hu] at this
      exact Bool.false_ne_true this
    · intro v hv
      have := ((hfate v).2.mp hv).2
      rw [hu] at this
      rw [this]
      exact ⟨rfl, rfl, rfl⟩
  · intro r h1 h2
    obtain ⟨hok, hbox, hid, hcls⟩ := updateTrack_ok env inp id t r h1 h2
    have hfate := fun v => updateAndLifecycle_track_fate env inp _ id t hs hd hmem v
    refine ⟨⟨_, (hfate _).1.mpr ⟨hok, rfl⟩, hbox, hid, hcls⟩, ?_⟩
    intro hk
    obtain ⟨v, hv⟩ := mem_mapKeys.mp hk
    have := ((hfate v).2.mp hv).1
    rw [hok] at this
    exact absurd this (by decide)
  · intro inp' h1 h2 v
    have hfate := updateAndLifecycle_track_fate env inp _ id t hs hd hmem v
    have hfate' := updateAndLifecycle_track_fate env inp' _ id t hs hd hmem v
    rw [updateTrack_congr env inp inp' id t h1 h2] at hfate'
    exact ⟨hfate'.1.trans hfate.1.symm, hfate'.2.trans hfate.2.symm⟩

/-- Witness of C16 on the track created by `firstSighting`: a failing update
moves it to `lost_tracks` with its box, a successful update keeps it active
with the refined box `(100, 100, 50, 50)`. -/
theorem tracker_failure_contained_witness :
    (mapKeys (updateAndLifecycle sampleEnv quietInput
        (run sampleEnv idleState [Command.frame firstSighting])).lost_tracks = [0] ∧
      0 ∉ mapKeys (updateAndLifecycle sampleEnv quietInput
        (run sampleEnv idleState [Command.frame firstSighting])).active_tracks ∧
      ∀ v, (0, v) ∈ (updateAndLifecycle sampleEnv quietInput
          (run sampleEnv idleState [Command.frame firstSighting])).lost_tracks →
        v.boundingBox = ⟨0, 0, 100, 100⟩) ∧
    ∃ v, (0, v) ∈ (updateAndLifecycle sampleEnv movingInput
        (run sampleEnv idleState [Command.frame firstSighting])).active_tracks ∧
      v.boundingBox = ⟨100, 100, 50, 50⟩ := by
  have hmem : (0, mapAt (run sampleEnv idleState [Command.frame firstSighting]).active_tracks 0) ∈
      (run sampleEnv idleState [Command.frame firstSighting]).active_tracks :=
    mapAt_mem (by decide)
  have hq := (tracker_failure_contained sampleEnv idleState [Command.frame firstSighting]
    quietInput 0 _ hmem).1 (Or.inr rfl)
  have hm := (tracker_failure_contained sampleEnv idleState [Command.frame firstSighting]
    movingInput 0 _ hmem).2.1 ⟨100, 100, 50, 50⟩ (by decide) rfl
  obtain ⟨v, hv, hbox, _⟩ := hm.1
  exact ⟨⟨by decide, hq.2.1, fun w hw => ((hq.2.2 w hw).2.2).trans (by decide)⟩, v, hv, hbox⟩


/-! ## Reactivation -/

theorem getD_set_self (l : List Bool) (i : Nat) (h : i < l.length) :
    (l.set i true).getD i false = true := by
  simp [List.getD_eq_getElem?_getD, List.getElem?_set, h]

theorem getD_set_of_getD (l : List Bool) (i j : Nat) (h : l.getD j false = true) :
    (l.set i true).getD j false = true := by
  simp only [List.getD_eq_getElem?_getD, List.getElem?_set] at h ⊢
  split_ifs with h1 h2
  · rfl
  · subst h1
    rw [List.getElem?_eq_none (by omega)] at h
    simp at h
  · exact h

theorem getD_set_ne (l : List Bool) (i j : Nat) (h : i ≠ j) :
    (l.set i true).getD j false = l.getD j false := by
  simp [List.getD_eq_getElem?_getD, List.getElem?_set, h]

theorem reidStep_hit (inp : FrameInput) (lost : TrackMap) (i : Nat) (d : Rect) (st : ReidState)
    (hsorted : MapSorted lost) (hnn : ∀ k ∈ mapKeys lost, 0 ≤ k)
    (hun : st.detection_matched.getD i false = false)
    (hinit : inp.reidInit i = TrackerInit.ok)
    (hmax : ∃ p ∈ lost, REID_IOU_THRESHOLD < calculateIoU p.2.boundingBox d) :
    ∃ p ∈ lost,
      REID_IOU_THRESHOLD < calculateIoU p.2.boundingBox d ∧
      (∀ q ∈ lost, calculateIoU q.2.boundingBox d ≤ calculateIoU p.2.boundingBox d) ∧
      reidStep inp lost i d st =
        { active_tracks := mapAssign st.active_tracks p.1 (reactivate p.2 d (inp.initTick i))
          detection_matched := st.detection_matched.set i true
          reactivated_lost_track_ids := st.reactivated_lost_track_ids ++ [p.1] } := by
  obtain ⟨_, b2, b3⟩ := bestLost_spec d lost (REID_IOU_THRESHOLD, -1)
  obtain ⟨p0, hp0, hgt0⟩ := hmax
  have hbig : REID_IOU_THRESHOLD < (bestLost d lost (REID_IOU_THRESHOLD, -1)).1 :=
    lt_of_lt_of_le hgt0 (b2 p0 hp0)
  rcases b3 with b3 | ⟨p, hp, hbest, _⟩
  · rw [b3] at hbig
    exact absurd hbig (lt_irrefl _)
  · have hid : (bestLost d lost (REID_IOU_THRESHOLD, -1)).2 = p.1 := by rw [hbest]
    have hne : p.1 ≠ -1 := by
      have := hnn p.1 (mem_mapKeys_of_mem hp)
      omega
    have hat : mapAt lost p.1 = p.2 := mapAt_of_mem _ _ _ hsorted hp
    refine ⟨p, hp, ?_, ?_, ?_⟩
    · rw [hbest] at hbig; exact hbig
    · intro q hq
      have := b2 q hq
      rw [hbest] at this
      exact this
    · simp only [reidStep, hun, hid, hne, hinit, hat, ne_eq, not_false_eq_true, if_true,
        Bool.false_eq_true, if_false]

theorem reidStep_matched_mono (inp : FrameInput) (lost : TrackMap) (i j : Nat) (d : Rect)
    (st : ReidState) (h : st.detection_matched.getD j false = true) :
    (reidStep inp lost i d st).detection_matched.getD j false = true := by
  simp only [reidStep]
  split_ifs
  · exact h
  · split
    · exact getD_set_of_getD _ _ _ h
    · exact h
    · exact h
  · exact h

theorem reidLoop_matched_mono (inp : FrameInput) (lost : TrackMap) (boxes : List Rect)
    (i j : Nat) (st : ReidState) (h : st.detection_matched.getD j false = true) :
    (reidLoop inp lost boxes i st).detection_matched.getD j false = true :=
  reidLoop_induct inp lost (fun st => st.detection_matched.getD j false = true)
    (fun i d st hst => reidStep_matched_mono inp lost i j d st hst) boxes i st h

theorem newStep_skip (env : Env) (inp : FrameInput) (matched : List Bool) (cids : List Nat)
    (i : Nat) (d : Rect) (st : NewState) (h : matched.getD i false = true) :
    newStep env inp matched cids i d st = st := by
  simp only [newStep, h, if_true]


theorem reidLoop_induct_boxes (inp : FrameInput) (lost : TrackMap) (all : List Rect)
    (P : ReidState → Prop)
    (hstep : ∀ i d st, all[i]? = some d → P st → P (reidStep inp lost i d st))
    (rest : List Rect) (i : Nat) (st : ReidState)
    (hrest : ∀ j d, rest[j]? = some d → all[i + j]? = some d) (h : P st) :
    P (reidLoop inp lost rest i st) := by
  induction rest generalizing i st with
  | nil => exact h
  | cons b rest' ih =>
    simp only [reidLoop]
    apply ih (i + 1)
    · intro j d hj
      have := hrest (j + 1) d (by simpa using hj)
      rw [show i + 1 + j = i + (j + 1) by omega]
      exact this
    · exact hstep i b st (by simpa using hrest 0 b (by simp)) h

theorem associateAndTrack_active_eq (env : Env) (inp : FrameInput) (s : State) :
    (associateAndTrack env inp s).active_tracks =
      (newLoop env inp (reidResult inp s).detection_matched inp.detected_classIds
        inp.detected_boxes 0
        { active_tracks := (reidResult inp s).active_tracks, next_track_id := s.next_track_id,
          new_id_log := s.new_id_log }).active_tracks := rfl

theorem associateAndTrack_lost_eq (env : Env) (inp : FrameInput) (s : State) :
    (associateAndTrack env inp s).lost_tracks =
      (reidResult inp s).reactivated_lost_track_ids.foldl mapErase s.lost_tracks := rfl

theorem reidResult_entries (inp : FrameInput) (s : State) :
    (reidResult inp s).detection_matched.length = inp.detected_boxes.length ∧
    ∀ p ∈ (reidResult inp s).active_tracks,
      p ∈ s.active_tracks ∨
      ∃ i d, inp.detected_boxes[i]? = some d ∧
        (reidResult inp s).detection_matched.getD i false = true ∧
        p.1 ∈ mapKeys s.lost_tracks ∧
        p.2 = reactivate (mapAt s.lost_tracks p.1) d (inp.initTick i) := by
  simp only [reidResult]
  apply reidLoop_induct_boxes inp s.lost_tracks inp.detected_boxes
    (fun st => st.detection_matched.length = inp.detected_boxes.length ∧
      ∀ p ∈ st.active_tracks,
        p ∈ s.active_tracks ∨
        ∃ i d, inp.detected_boxes[i]? = some d ∧ st.detection_matched.getD i false = true ∧
          p.1 ∈ mapKeys s.lost_tracks ∧
          p.2 = reactivate (mapAt s.lost_tracks p.1) d (inp.initTick i))
  · intro i d st hid hst
    obtain ⟨hlen, hent⟩ := hst
    have hi : i < st.detection_matched.length := by
      rw [hlen]
      by_contra hc
      rw [List.getElem?_eq_none (by omega)] at hid
      cases hid
    simp only [reidStep]
    split_ifs with hm hb
    · exact ⟨hlen, hent⟩
    · have hkey : (bestLost d s.lost_tracks (REID_IOU_THRESHOLD, -1)).2 ∈
          mapKeys s.lost_tracks := by
        rcases bestLost_id d s.lost_tracks (REID_IOU_THRESHOLD, -1) with h | h
        · exact absurd h hb
        · exact h
      split
      · refine ⟨by simp only [List.length_set]; exact hlen, ?_⟩
        intro p hp
        rcases mem_of_mem_mapAssign _ _ _ _ hp with hp | hp
        · right
          rw [hp]
          exact ⟨i, d, hid, getD_set_self _ _ hi, hkey, rfl⟩
        · rcases hent p hp with h | ⟨j, d', h1, h2, h3, h4⟩
          · exact Or.inl h
          · exact Or.inr ⟨j, d', h1, getD_set_of_getD _ _ _ h2, h3, h4⟩
      · exact ⟨hlen, hent⟩
      · exact ⟨hlen, hent⟩
    · exact ⟨hlen, hent⟩
  · intro j d hj
    simpa using hj
  · refine ⟨?_, fun p hp => Or.inl hp⟩
    simp only [consumedAfterPass1, matchActive_length, List.length_replicate]


/-- The reactivation step resets the motion state.  In the association of the
frame that follows any run: (a) when the loop body of pass 2 handles an
unmatched detection `i` with box `d`, the tracker is created and some lost
track exceeds `REID_IOU_THRESHOLD`, the lost track with maximal IoU is written
to `active_tracks` under its key with `boundingBox = d`, trajectory
`[getCenter d]`, velocity 0, `frames_since_seen = 0`, `updated_this_frame =
true` and the `id` and `className` of the lost track; detection `i` is marked
consumed, stays consumed for the rest of pass 2, and the loop body of pass 3
does nothing for a consumed detection; (b) when the call returns, every active
track stored under an id that was lost on entry is such a reactivated track
for some consumed detection `i` of the list. -/
theorem reactivation_resets_motion (env : Env) (s0 : State) (cmds : List Command)
    (inp : FrameInput) :
    (∀ (i : Nat) (d : Rect) (st : ReidState),
      i < st.detection_matched.length → st.detection_matched.getD i false = false →
      inp.reidInit i = TrackerInit.ok →
      (∃ p ∈ (preAssociation env s0 cmds inp).lost_tracks,
        REID_IOU_THRESHOLD < calculateIoU p.2.boundingBox d) →
      ∃ p ∈ (preAssociation env s0 cmds inp).lost_tracks,
        REID_IOU_THRESHOLD < calculateIoU p.2.boundingBox d ∧
        (∀ q ∈ (preAssociation env s0 cmds inp).lost_tracks,
          calculateIoU q.2.boundingBox d ≤ calculateIoU p.2.boundingBox d) ∧
        (∃ r, (p.1, r) ∈
            (reidStep inp (preAssociation env s0 cmds inp).lost_tracks i d st).active_tracks ∧
          r.boundingBox = d ∧ r.trajectory = [getCenter d] ∧ r.velocity = 0 ∧
          r.frames_since_seen = 0 ∧ r.updated_this_frame = true ∧
          r.id = p.2.id ∧ r.className = p.2.className) ∧
        (reidStep inp (preAssociation env s0 cmds inp).lost_tracks i d
          st).detection_matched.getD i false = true ∧
        (∀ rest j, (reidLoop inp (preAssociation env s0 cmds inp).lost_tracks rest j
          (reidStep inp (preAssociation env s0 cmds inp).lost_tracks i d
            st)).detection_matched.getD i false = true) ∧
        (∀ (matched : List Bool) (cids : List Nat) (nst : NewState),
          matched.getD i false = true → newStep env inp matched cids i d nst = nst)) ∧
    (∀ p ∈ (associateAndTrack env inp (preAssociation env s0 cmds inp)).active_tracks,
      p.1 ∈ mapKeys (preAssociation env s0 cmds inp).lost_tracks →
      ∃ i d, inp.detected_boxes[i]? = some d ∧
        (reidResult inp (preAssociation env s0 cmds inp)).detection_matched.getD i false = true ∧
        p.2 = reactivate (mapAt (preAssociation env s0 cmds inp).lost_tracks p.1) d
          (inp.initTick i) ∧
        p.2.boundingBox = d ∧ p.2.trajectory = [getCenter d] ∧ p.2.velocity = 0 ∧
        p.2.frames_since_seen = 0 ∧ p.2.updated_this_frame = true ∧
        p.2.id = (mapAt (preAssociation env s0 cmds inp).lost_tracks p.1).id ∧
        p.2.className = (mapAt (preAssociation env s0 cmds inp).lost_tracks p.1).className ∧
        ∀ nst, newStep env inp (reidResult inp (preAssociation env s0 cmds inp)).detection_matched
          inp.detected_classIds i d nst = nst) := by
  have hsorted : SortedInv (preAssociation env s0 cmds inp) :=
    sortedInv_updateAndLifecycle env inp _ (sortedInv_run env s0 cmds)
  have hid : IdInv (preAssociation env s0 cmds inp) :=
    idInv_updateAndLifecycle env inp _ (idInv_run env s0 cmds)
  constructor
  · intro i d st hi hun hinit hmax
    obtain ⟨p, hp, h1, h2, h3⟩ := reidStep_hit inp _ i d st hsorted.2
      (fun k hk => (hid.1 k (List.mem_append_right _ hk)).1) hun hinit hmax
    have hflag : (reidStep inp (preAssociation env s0 cmds inp).lost_tracks i d
        st).detection_matched.getD i false = true := by
      rw [h3]
      exact getD_set_self _ _ hi
    refine ⟨p, hp, h1, h2, ⟨reactivate p.2 d (inp.initTick i), ?_, rfl, rfl, rfl, rfl, rfl, rfl,
      rfl⟩, hflag, ?_, ?_⟩
    · rw [h3]
      exact mem_mapAssign_self _ _ _
    · intro rest j
      exact reidLoop_matched_mono inp _ rest j i _ hflag
    · intro matched cids nst hm
      exact newStep_skip env inp matched cids i d nst hm
  · intro p hp hkey
    rw [associateAndTrack_active_eq] at hp
    obtain ⟨_, hn2, _⟩ := newLoop_inv env inp
      (reidResult inp (preAssociation env s0 cmds inp)).detection_matched
      inp.detected_classIds inp.detected_boxes
      { active_tracks := (reidResult inp (preAssociation env s0 cmds inp)).active_tracks
        next_track_id := (preAssociation env s0 cmds inp).next_track_id
        new_id_log := (preAssociation env s0 cmds inp).new_id_log }
    have hlt := (hid.1 p.1 (List.mem_append_right _ hkey)).2
    rcases hn2 p hp with h | ⟨h, _⟩
    · rcases (reidResult_entries inp (preAssociation env s0 cmds inp)).2 p h with
        h' | ⟨i, d, h1, h2, _, h4⟩
      · exact absurd hkey (hid.2.1 p.1 (mem_mapKeys_of_mem h'))
      · refine ⟨i, d, h1, h2, h4, ?_⟩
        rw [h4]
        exact ⟨rfl, rfl, rfl, rfl, rfl, rfl, rfl, fun nst => newStep_skip env inp _ _ i d nst h2⟩
    · exact absurd h (not_le.mpr hlt)

/-- The reactivation step on the re-identification scenario: the lost track 0 is
reactivated by the detection `(0, 0, 100, 50)` with that box, the one-point
trajectory `[(50, 25)]`, velocity 0 and its class name "car". -/
theorem reactivation_resets_motion_witness :
    ∃ p ∈ (preAssociation sampleEnv idleState demotedRun halfOverlap).lost_tracks,
      p.1 = 0 ∧ p.2.className = "car" ∧
      ∃ r, (p.1, r) ∈ (reidStep halfOverlap
          (preAssociation sampleEnv idleState demotedRun halfOverlap).lost_tracks 0
          ⟨0, 0, 100, 50⟩ ⟨[], [false], []⟩).active_tracks ∧
        r.boundingBox = ⟨0, 0, 100, 50⟩ ∧ r.trajectory = [⟨50, 25⟩] ∧ r.velocity = 0 ∧
        r.className = p.2.className := by
  have hiou : calculateIoU ⟨0, 0, 100, 100⟩ ⟨0, 0, 100, 50⟩ = 1 / 2 := by
    norm_num [calculateIoU, Rect.inter, Rect.empty, Rect.area, Rect.zero]
  have hl : (preAssociation sampleEnv idleState demotedRun halfOverlap).lost_tracks =
      [(0, mapAt (preAssociation sampleEnv idleState demotedRun halfOverlap).lost_tracks 0)] := by
    decide
  have h := (reactivation_resets_motion sampleEnv idleState demotedRun halfOverlap).1 0
    ⟨0, 0, 100, 50⟩ ⟨[], [false], []⟩ (by decide) (by decide) rfl
    ⟨(0, mapAt (preAssociation sampleEnv idleState demotedRun halfOverlap).lost_tracks 0),
      mapAt_mem (by decide), by
        have hb : (mapAt (preAssociation sampleEnv idleState demotedRun
            halfOverlap).lost_tracks 0).boundingBox = ⟨0, 0, 100, 100⟩ := by decide
        simp only [hb, hiou]
        norm_num [REID_IOU_THRESHOLD]⟩
  obtain ⟨p, hp, _, _, ⟨r, hr, hbox, htraj, hvel, _, _, _, hcls⟩, _⟩ := h
  have hp0 : p = (0, mapAt (preAssociation sampleEnv idleState demotedRun
      halfOverlap).lost_tracks 0) := by
    rw [hl] at hp
    exact List.mem_singleton.mp hp
  refine ⟨p, hp, by rw [hp0], by rw [hp0]; decide, r, hr, hbox, htraj.trans (by decide), hvel,
    hcls⟩


/-! ## Lost-frame counting -/

theorem updateAndLifecycle_ages (env : Env) (inp : FrameInput) (s : State) (id : Int)
    (t : TrackedObject) (hs : SortedInv s) (hd : ActiveLostDisjoint s)
    (hmem : (id, t) ∈ s.lost_tracks) (hlt : t.frames_since_seen < MAX_LOST_FRAMES) :
    (id, { t with frames_since_seen := t.frames_since_seen + 1 }) ∈
      (updateAndLifecycle env inp s).lost_tracks := by
  have hact : id ∉ mapKeys (updateTrackers env inp s.active_tracks).1 := by
    rw [updateTrackers_keys]
    intro hk
    exact hd id hk (mem_mapKeys_of_mem hmem)
  have hkeep := foldl_moveToLost_snd_keep (updateTrackers env inp s.active_tracks).2
    ((updateTrackers env inp s.active_tracks).1, s.lost_tracks) (id, t) hmem hact
  have hmsorted := mapSorted_foldl_moveToLost (updateTrackers env inp s.active_tracks).2
    ((updateTrackers env inp s.active_tracks).1, s.lost_tracks) hs.2
  simp only [updateAndLifecycle, lifecyclePass]
  apply (mem_foldl_mapErase _ _ _).mpr
  constructor
  · rw [ageLost_fst]
    exact List.mem_map.mpr ⟨(id, t), hkeep, rfl⟩
  · intro hdel
    obtain ⟨t', ht', hgt⟩ := (mem_ageLost_snd _ _).mp hdel
    have := mapSorted_unique _ _ _ _ hmsorted ht' hkeep
    rw [this] at hgt
    omega

/-- C18 (what the code does): in every run, a track whose tracker update fails
is in `lost_tracks` at the end of the demoting lifecycle pass with
`frames_since_seen = 2`, not 1: the demotion loop stores 1 and the ageing loop
of the same pass increments it.  Every later lifecycle pass adds exactly one
to the counter of a lost track below `MAX_LOST_FRAMES`, so that a track that
stayed lost through `k` consecutive passes has `frames_since_seen = k + 1`. -/
theorem demotion_counts_twice (env : Env) (s0 : State) (cmds : List Command)
    (inp : FrameInput) (id : Int) (t : TrackedObject) :
    ((id, t) ∈ (run env s0 cmds).active_tracks →
      (t.tracker = false ∨ inp.trackerUpdate id = none) →
      (∃ v, (id, v) ∈ (updateAndLifecycle env inp (run env s0 cmds)).lost_tracks) ∧
      ∀ v, (id, v) ∈ (updateAndLifecycle env inp (run env s0 cmds)).lost_tracks →
        v.frames_since_seen = 2) ∧
    ((id, t) ∈ (run env s0 cmds).lost_tracks → t.frames_since_seen < MAX_LOST_FRAMES →
      (∃ v, (id, v) ∈ (updateAndLifecycle env inp (run env s0 cmds)).lost_tracks) ∧
      ∀ v, (id, v) ∈ (updateAndLifecycle env inp (run env s0 cmds)).lost_tracks →
        v.frames_since_seen = t.frames_since_seen + 1) := by
  have hs := sortedInv_run env s0 cmds
  have hd := (idInv_run env s0 cmds).2.1
  have hs' := sortedInv_updateAndLifecycle env inp _ hs
  constructor
  · intro hmem hfail
    have hu := updateTrack_fail env inp id t hfail
    have hfate := fun v => updateAndLifecycle_track_fate env inp _ id t hs hd hmem v
    have hin := (hfate _).2.mpr ⟨by rw [hu], rfl⟩
    refine ⟨⟨_, hin⟩, ?_⟩
    intro v hv
    rw [mapSorted_unique _ _ _ _ hs'.2 hv hin]
  · intro hmem hlt
    have hin := updateAndLifecycle_ages env inp _ id t hs hd hmem hlt
    refine ⟨⟨_, hin⟩, ?_⟩
    intro v hv
    rw [mapSorted_unique _ _ _ _ hs'.2 hv hin]

/-- Evaluation of the code for C18 on the re-identification scenario: the
track demoted in frame 1 has `frames_since_seen = 2` at the end of that frame,
3 after one more frame without detections and 4 after two. -/
theorem demotion_counts_twice_witness :
    (run sampleEnv idleState [Command.frame firstSighting]).active_tracks.map
        (fun p => (p.1, p.2.frames_since_seen)) = [(0, 0)] ∧
    (run sampleEnv idleState demotedRun).lost_tracks.map
        (fun p => (p.1, p.2.frames_since_seen)) = [(0, 2)] ∧
    (run sampleEnv idleState (demotedRun ++ [Command.frame quietInput])).lost_tracks.map
        (fun p => (p.1, p.2.frames_since_seen)) = [(0, 3)] ∧
    (run sampleEnv idleState (demotedRun ++
        [Command.frame quietInput, Command.frame quietInput])).lost_tracks.map
        (fun p => (p.1, p.2.frames_since_seen)) = [(0, 4)] ∧
    ∀ v, (0, v) ∈ (updateAndLifecycle sampleEnv quietInput
        (run sampleEnv idleState [Command.frame firstSighting])).lost_tracks →
      v.frames_since_seen = 2 :=
  ⟨by decide, by decide, by decide, by decide,
    ((demotion_counts_twice sampleEnv idleState [Command.frame firstSighting] quietInput 0
      (mapAt (run sampleEnv idleState [Command.frame firstSighting]).active_tracks 0)).1
      (mapAt_mem (by decide)) (Or.inr rfl)).2⟩


/-! ## Repeated re-identification of one lost track -/

/-- Evaluation of the code for C19: in the re-identification scenario with the
two detections of `splitInput`, pass 1 leaves both detections unconsumed, both
exceed the re-identification cutoff against lost track 0 (IoU 2/5 each) and
both reactivate id 0, because `lost_tracks` is only erased after the loop: the
vector `reactivated_lost_track_ids` is `[0, 0]`, both detections end up
consumed, and `active_tracks` grows by one track (id 0, carrying the box of
the second detection), not by two. -/
theorem lost_track_reidentified_twice :
    consumedAfterPass1 splitInput
      (preAssociation sampleEnv idleState demotedRun splitInput) = [false, false] ∧
    calculateIoU ⟨0, 0, 100, 100⟩ ⟨0, 0, 100, 40⟩ = 2 / 5 ∧
    calculateIoU ⟨0, 0, 100, 100⟩ ⟨0, 60, 100, 40⟩ = 2 / 5 ∧
    calculateIoU ⟨0, 0, 100, 40⟩ ⟨0, 60, 100, 40⟩ = 0 ∧
    mapKeys (preAssociation sampleEnv idleState demotedRun splitInput).lost_tracks = [0] ∧
    (preAssociation sampleEnv idleState demotedRun splitInput).active_tracks = [] ∧
    (reidResult splitInput
      (preAssociation sampleEnv idleState demotedRun splitInput)).reactivated_lost_track_ids =
        [0, 0] ∧
    (reidResult splitInput
      (preAssociation sampleEnv idleState demotedRun splitInput)).detection_matched =
        [true, true] ∧
    (associateAndTrack sampleEnv splitInput
      (preAssociation sampleEnv idleState demotedRun splitInput)).active_tracks.map
        (fun p => (p.1, p.2.boundingBox)) = [(0, ⟨0, 60, 100, 40⟩)] ∧
    (associateAndTrack sampleEnv splitInput
      (preAssociation sampleEnv idleState demotedRun splitInput)).lost_tracks = [] := by
  have hiou1 : calculateIoU ⟨0, 0, 100, 100⟩ ⟨0, 0, 100, 40⟩ = 2 / 5 := by
    norm_num [calculateIoU, Rect.inter, Rect.empty, Rect.area, Rect.zero]
  have hiou2 : calculateIoU ⟨0, 0, 100, 100⟩ ⟨0, 60, 100, 40⟩ = 2 / 5 := by
    norm_num [calculateIoU, Rect.inter, Rect.empty, Rect.area, Rect.zero]
  have hiou3 : calculateIoU ⟨0, 0, 100, 40⟩ ⟨0, 60, 100, 40⟩ = 0 := by
    norm_num [calculateIoU, Rect.inter, Rect.empty, Rect.area, Rect.zero]
  have hsorted : MapSorted (preAssociation sampleEnv idleState demotedRun splitInput).lost_tracks :=
    (sortedInv_updateAndLifecycle sampleEnv splitInput _
      (sortedInv_run sampleEnv idleState demotedRun)).2
  have hnn : ∀ k ∈ mapKeys (preAssociation sampleEnv idleState demotedRun splitInput).lost_tracks,
      0 ≤ k := by decide
  have hl : (preAssociation sampleEnv idleState demotedRun splitInput).lost_tracks =
      [(0, mapAt (preAssociation sampleEnv idleState demotedRun splitInput).lost_tracks 0)] := by
    decide
  have hb : (mapAt (preAssociation sampleEnv idleState demotedRun
      splitInput).lost_tracks 0).boundingBox = ⟨0, 0, 100, 100⟩ := by decide
  have hmem : (0, mapAt (preAssociation sampleEnv idleState demotedRun splitInput).lost_tracks 0) ∈
      (preAssociation sampleEnv idleState demotedRun splitInput).lost_tracks :=
    mapAt_mem (by decide)
  have hp1 : consumedAfterPass1 splitInput
      (preAssociation sampleEnv idleState demotedRun splitInput) = [false, false] := by decide
  obtain ⟨p, hp, _, _, hstep1⟩ := reidStep_hit splitInput
    (preAssociation sampleEnv idleState demotedRun splitInput).lost_tracks 0 ⟨0, 0, 100, 40⟩
    ⟨[], [false, false], []⟩ hsorted hnn (by decide) rfl
    ⟨_, hmem, by simp only [hb, hiou1]; norm_num [REID_IOU_THRESHOLD]⟩
  have hp0 : p = (0, mapAt (preAssociation sampleEnv idleState demotedRun
      splitInput).lost_tracks 0) := by
    rw [hl] at hp
    exact List.mem_singleton.mp hp
  rw [hp0] at hstep1
  obtain ⟨q, hq, _, _, hstep2⟩ := reidStep_hit splitInput
    (preAssociation sampleEnv idleState demotedRun splitInput).lost_tracks 1 ⟨0, 60, 100, 40⟩
    ⟨mapAssign [] 0 (reactivate (mapAt (preAssociation sampleEnv idleState demotedRun
        splitInput).lost_tracks 0) ⟨0, 0, 100, 40⟩ (splitInput.initTick 0)),
      [false, false].set 0 true, [] ++ [0]⟩ hsorted hnn (by decide) rfl
    ⟨_, hmem, by simp only [hb, hiou2]; norm_num [REID_IOU_THRESHOLD]⟩
  have hq0 : q = (0, mapAt (preAssociation sampleEnv idleState demotedRun
      splitInput).lost_tracks 0) := by
    rw [hl] at hq
    exact List.mem_singleton.mp hq
  rw [hq0] at hstep2
  have hres : reidResult splitInput (preAssociation sampleEnv idleState demotedRun splitInput) =
      ⟨mapAssign (mapAssign [] 0 (reactivate (mapAt (preAssociation sampleEnv idleState
          demotedRun splitInput).lost_tracks 0) ⟨0, 0, 100, 40⟩ (splitInput.initTick 0))) 0
        (reactivate (mapAt (preAssociation sampleEnv idleState demotedRun
          splitInput).lost_tracks 0) ⟨0, 60, 100, 40⟩ (splitInput.initTick 1)),
        ([false, false].set 0 true).set 1 true, [] ++ [0] ++ [0]⟩ := by
    have hunf : reidResult splitInput
        (preAssociation sampleEnv idleState demotedRun splitInput) =
        reidStep splitInput (preAssociation sampleEnv idleState demotedRun splitInput).lost_tracks
          1 ⟨0, 60, 100, 40⟩
          (reidStep splitInput
            (preAssociation sampleEnv idleState demotedRun splitInput).lost_tracks 0
            ⟨0, 0, 100, 40⟩ ⟨[], [false, false], []⟩) := by
      simp only [reidResult, hp1]
      rfl
    rw [hunf, hstep1, hstep2]
  refine ⟨hp1, hiou1, hiou2, hiou3, by decide, by decide, ?_, ?_, ?_, ?_⟩
  · rw [hres]
    rfl
  · rw [hres]
    rfl
  · rw [associateAndTrack_active_eq, hres]
    decide
  · rw [associateAndTrack_lost_eq, hres]
    decide


/-! ## Association leaves the active tracks alone -/

theorem associateAndTrack_keeps_active (env : Env) (inp : FrameInput) (s : State)
    (hb : IdsBelow s) (hd : ActiveLostDisjoint s) :
    ∀ p ∈ s.active_tracks, p ∈ (associateAndTrack env inp s).active_tracks := by
  intro p hp
  have hkey := mem_mapKeys_of_mem hp
  simp only [associateAndTrack]
  have hnew := newLoop_induct env inp
    (reidLoop inp s.lost_tracks inp.detected_boxes 0
      { active_tracks := s.active_tracks
        detection_matched := matchActive inp.detected_boxes s.active_tracks
          (List.replicate inp.detected_boxes.length false)
        reactivated_lost_track_ids := [] }).detection_matched
    inp.detected_classIds
    (fun st => s.next_track_id ≤ st.next_track_id ∧ p ∈ st.active_tracks)
  refine (hnew ?_ inp.detected_boxes 0 _ ⟨le_refl _, ?_⟩).2
  · intro i dbox st hst
    obtain ⟨h1, h2⟩ := hst
    have hundo : st.next_track_id + 1 - 1 = st.next_track_id := by omega
    simp only [newStep]
    split_ifs
    · exact ⟨h1, h2⟩
    · split
      · refine ⟨by simp only; omega, ?_⟩
        apply mem_mapAssign_of_ne _ _ _ _ h2
        have := (hb p.1 (List.mem_append_left _ hkey)).2
        omega
      · simp only [hundo]
        exact ⟨h1, h2⟩
      · simp only [hundo]
        exact ⟨h1, h2⟩
  · apply reidLoop_induct inp s.lost_tracks (fun st => p ∈ st.active_tracks)
    · intro i dbox st hst
      simp only [reidStep]
      split_ifs with hm hbest
      · exact hst
      · split
        · apply mem_mapAssign_of_ne _ _ _ _ hst
          intro heq
          rcases bestLost_id dbox s.lost_tracks (REID_IOU_THRESHOLD, -1) with h | h
          · exact hbest h
          · rw [← heq] at h
            exact hd p.1 hkey h
        · exact hst
        · exact hst
      · exact hst
    · exact hp

theorem associateAndTrack_no_detections (env : Env) (inp : FrameInput) (s : State)
    (h : inp.detected_boxes = []) : associateAndTrack env inp s = s := by
  simp only [associateAndTrack, h, reidLoop, newLoop, List.foldl_nil]

theorem bestDetection_spec (tbox : Rect) (m : List Bool) (boxes : List Rect) (i : Nat)
    (best : ℚ × Option Nat) :
    bestDetection tbox m boxes i best = best ∨
    ∃ j d, boxes[j]? = some d ∧ (bestDetection tbox m boxes i best).2 = some (i + j) ∧
      m.getD (i + j) false = false ∧
      (bestDetection tbox m boxes i best).1 = calculateIoU tbox d ∧
      best.1 < calculateIoU tbox d := by
  induction boxes generalizing i best with
  | nil => exact Or.inl rfl
  | cons b rest ih =>
    simp only [bestDetection]
    split_ifs with hm hgt
    · rcases ih (i + 1) best with h | ⟨j, d, h1, h2, h3, h4, h5⟩
      · exact Or.inl h
      · refine Or.inr ⟨j + 1, d, by simpa using h1, ?_, ?_, h4, h5⟩
        · rw [h2, show i + 1 + j = i + (j + 1) by omega]
        · rw [show i + (j + 1) = i + 1 + j by omega]; exact h3
    · rcases ih (i + 1) (calculateIoU tbox b, some i) with h | ⟨j, d, h1, h2, h3, h4, h5⟩
      · refine Or.inr ⟨0, b, by simp, ?_, ?_, ?_, hgt⟩
        · rw [h]; rfl
        · simpa using hm
        · rw [h]
      · refine Or.inr ⟨j + 1, d, by simpa using h1, ?_, ?_, h4, lt_trans hgt h5⟩
        · rw [h2, show i + 1 + j = i + (j + 1) by omega]
        · rw [show i + (j + 1) = i + 1 + j by omega]; exact h3
    · rcases ih (i + 1) best with h | ⟨j, d, h1, h2, h3, h4, h5⟩
      · exact Or.inl h
      · refine Or.inr ⟨j + 1, d, by simpa using h1, ?_, ?_, h4, h5⟩
        · rw [h2, show i + 1 + j = i + (j + 1) by omega]
        · rw [show i + (j + 1) = i + 1 + j by omega]; exact h3

theorem matchActive_cons (boxes : List Rect) (k : Int) (t : TrackedObject) (rest : TrackMap)
    (m : List Bool) :
    matchActive boxes ((k, t) :: rest) m = matchActive boxes rest (matchActive boxes [(k, t)] m) := by
  simp only [matchActive]
  split_ifs
  · rfl
  · split <;> rfl

/-- Effect of pass 1 for one active track: either nothing changes, or exactly
one previously unmatched detection, whose IoU with the track's box exceeds
`MIN_IOU_THRESHOLD`, is marked. -/
theorem matchActive_single (boxes : List Rect) (k : Int) (t : TrackedObject) (m : List Bool) :
    matchActive boxes [(k, t)] m = m ∨
    ∃ idx d, boxes[idx]? = some d ∧ m.getD idx false = false ∧
      t.updated_this_frame = true ∧
      MIN_IOU_THRESHOLD < calculateIoU t.boundingBox d ∧
      matchActive boxes [(k, t)] m = m.set idx true := by
  simp only [matchActive]
  split_ifs with hu
  · exact Or.inl rfl
  · have hupd : t.updated_this_frame = true := by
      cases hb : t.updated_this_frame with
      | true => rfl
      | false => simp [hb] at hu
    rcases bestDetection_spec t.boundingBox m boxes 0 (MIN_IOU_THRESHOLD, none) with
      h | ⟨j, d, h1, h2, h3, _, h5⟩
    · rw [h]
      exact Or.inl rfl
    · right
      simp only [Nat.zero_add] at h2 h3
      rw [h2]
      exact ⟨j, d, h1, h3, hupd, h5, rfl⟩


theorem matchActive_attribution (boxes : List Rect) (active : TrackMap) (m : List Bool)
    (i : Nat) (h : (matchActive boxes active m).getD i false = true) :
    m.getD i false = true ∨
    ∃ p ∈ active, p.2.updated_this_frame = true ∧
      ∃ d, boxes[i]? = some d ∧ MIN_IOU_THRESHOLD < calculateIoU p.2.boundingBox d := by
  induction active generalizing m with
  | nil => exact Or.inl h
  | cons q rest ih =>
    obtain ⟨k, t⟩ := q
    rw [matchActive_cons] at h
    rcases ih _ h with h1 | ⟨p, hp, hrest⟩
    · rcases matchActive_single boxes k t m with hs | ⟨idx, d, hd, _, hupd, hiou, hs⟩
      · rw [hs] at h1
        exact Or.inl h1
      · rw [hs] at h1
        by_cases hi : idx = i
        · subst hi
          exact Or.inr ⟨(k, t), List.mem_cons_self _ _, hupd, d, hd, hiou⟩
        · rw [getD_set_ne _ _ _ hi] at h1
          exact Or.inl h1
    · exact Or.inr ⟨p, List.mem_cons_of_mem _ hp, hrest⟩

theorem count_set_true_le (l : List Bool) (i : Nat) :
    (l.set i true).count true ≤ l.count true + 1 := by
  induction l generalizing i with
  | nil => simp
  | cons a tl ih =>
    cases i with
    | zero =>
      simp only [List.set_cons_zero, List.count_cons, beq_self_eq_true, if_true]
      omega
    | succ j =>
      simp only [List.set_cons_succ, List.count_cons]
      have := ih j
      omega

theorem matchActive_count (boxes : List Rect) (active : TrackMap) (m : List Bool) :
    (matchActive boxes active m).count true ≤ m.count true + active.length := by
  induction active generalizing m with
  | nil => simp [matchActive]
  | cons q rest ih =>
    obtain ⟨k, t⟩ := q
    rw [matchActive_cons]
    have h1 := ih (matchActive boxes [(k, t)] m)
    have h2 : (matchActive boxes [(k, t)] m).count true ≤ m.count true + 1 := by
      rcases matchActive_single boxes k t m with hs | ⟨idx, _, _, _, _, _, hs⟩
      · rw [hs]; omega
      · rw [hs]; exact count_set_true_le m idx
    simp only [List.length_cons]
    omega

/-- C20: association never modifies an already-active track.  In the
association of the frame that follows any run (where active and lost ids are
disjoint), every entry of `active_tracks` on entry is an entry of
`active_tracks` on return, unchanged in every field, and an entry stored on
return under an id that was active on entry is that original entry, for every
detection list; with the empty detection list of a detector failure the call
returns the state unchanged.  Pass 1 only writes `detection_matched`: for one
active track it marks nothing or exactly one previously unmatched detection,
whose IoU with the track's box is strictly greater than `MIN_IOU_THRESHOLD`
(1/10); every detection consumed by pass 1 has such an active, updated track,
and pass 1 consumes at most as many detections as there are active tracks. -/
theorem association_keeps_active_tracks (env : Env) (s0 : State) (cmds : List Command)
    (inp : FrameInput) :
    (∀ p ∈ (preAssociation env s0 cmds inp).active_tracks,
      p ∈ (associateAndTrack env inp (preAssociation env s0 cmds inp)).active_tracks) ∧
    (∀ k v, (k, v) ∈ (associateAndTrack env inp (preAssociation env s0 cmds inp)).active_tracks →
      k ∈ mapKeys (preAssociation env s0 cmds inp).active_tracks →
      (k, v) ∈ (preAssociation env s0 cmds inp).active_tracks) ∧
    (inp.detected_boxes = [] →
      associateAndTrack env inp (preAssociation env s0 cmds inp) =
        preAssociation env s0 cmds inp) ∧
    (∀ (k : Int) (t : TrackedObject) (m : List Bool),
      matchActive inp.detected_boxes [(k, t)] m = m ∨
      ∃ idx d, inp.detected_boxes[idx]? = some d ∧ m.getD idx false = false ∧
        t.updated_this_frame = true ∧
        MIN_IOU_THRESHOLD < calculateIoU t.boundingBox d ∧
        matchActive inp.detected_boxes [(k, t)] m = m.set idx true) ∧
    (∀ i, (consumedAfterPass1 inp (preAssociation env s0 cmds inp)).getD i false = true →
      ∃ p ∈ (preAssociation env s0 cmds inp).active_tracks, p.2.updated_this_frame = true ∧
        ∃ d, inp.detected_boxes[i]? = some d ∧
          MIN_IOU_THRESHOLD < calculateIoU p.2.boundingBox d) ∧
    (consumedAfterPass1 inp (preAssociation env s0 cmds inp)).count true ≤
      (preAssociation env s0 cmds inp).active_tracks.length := by
  have hid : IdInv (preAssociation env s0 cmds inp) :=
    idInv_updateAndLifecycle env inp _ (idInv_run env s0 cmds)
  have hsorted : SortedInv (associateAndTrack env inp (preAssociation env s0 cmds inp)) :=
    sortedInv_associateAndTrack env inp _
      (sortedInv_updateAndLifecycle env inp _ (sortedInv_run env s0 cmds))
  have hkeep := associateAndTrack_keeps_active env inp _ hid.1 hid.2.1
  refine ⟨hkeep, ?_, associateAndTrack_no_detections env inp _, ?_, ?_, ?_⟩
  · intro k v hv hk
    obtain ⟨v0, hv0⟩ := mem_mapKeys.mp hk
    rw [mapSorted_unique _ _ _ _ hsorted.1 hv (hkeep _ hv0)]
    exact hv0
  · intro k t m
    exact matchActive_single inp.detected_boxes k t m
  · intro i hi
    rcases matchActive_attribution inp.detected_boxes _ _ i hi with h | h
    · simp only [List.getD_eq_getElem?_getD, List.getElem?_replicate] at h
      split_ifs at h <;> simp at h
    · exact h
  · have := matchActive_count inp.detected_boxes (preAssociation env s0 cmds inp).active_tracks
      (List.replicate inp.detected_boxes.length false)
    have hz : (List.replicate inp.detected_boxes.length false).count true = 0 := by
      simp [List.count_replicate]
    simp only [consumedAfterPass1]
    omega

/-- Witness of C20: a track that is active and updated when the association
runs on an overlapping detection is still stored, unchanged, under id 0. -/
theorem association_keeps_active_tracks_witness :
    mapKeys (preAssociation sampleEnv idleState [Command.frame firstSighting]
      trackedAndDetected).active_tracks = [0] ∧
    (0, mapAt (preAssociation sampleEnv idleState [Command.frame firstSighting]
      trackedAndDetected).active_tracks 0) ∈
      (associateAndTrack sampleEnv trackedAndDetected
        (preAssociation sampleEnv idleState [Command.frame firstSighting]
          trackedAndDetected)).active_tracks :=
  ⟨by decide,
    (association_keeps_active_tracks sampleEnv idleState [Command.frame firstSighting]
      trackedAndDetected).1 _ (mapAt_mem (by decide))⟩


/-! ## Bounds of `calculateIoU` -/

theorem inter_area_le (a b : Rect) (h : 0 < (a.inter b).area) :
    (a.inter b).area ≤ a.area ∧ (a.inter b).area ≤ b.area := by
  obtain ⟨hw, hh⟩ := (inter_area_pos_iff a b).mp h
  have harea : (a.inter b).area = overlapWidth a b * overlapHeight a b := by
    rw [inter_eq_overlap, if_neg (by omega)]
    rfl
  have hwa : overlapWidth a b ≤ a.width := by simp only [overlapWidth]; omega
  have hha : overlapHeight a b ≤ a.height := by simp only [overlapHeight]; omega
  have hwb : overlapWidth a b ≤ b.width := by simp only [overlapWidth]; omega
  have hhb : overlapHeight a b ≤ b.height := by simp only [overlapHeight]; omega
  rw [harea]
  simp only [Rect.area]
  constructor
  · exact Int.mul_le_mul hwa hha (le_of_lt hh) (by omega)
  · exact Int.mul_le_mul hwb hhb (le_of_lt hh) (by omega)

theorem pushTrajectory_getLast (t : List Point) (c : Point) :
    (pushTrajectory t c).getLast? = some c := by
  simp only [pushTrajectory]
  split_ifs with h
  · cases t with
    | nil => simp [TRAJECTORY_LENGTH] at h
    | cons a rest =>
      simp only [List.cons_append, List.tail_cons]
      exact List.getLast?_concat rest
  · exact List.getLast?_concat t

theorem pushTrajectory_last_two (t : List Point) (q c : Point) (h : t.getLast? = some q) :
    ∃ front, pushTrajectory t c = front ++ [q, c] := by
  obtain ⟨ys, hys⟩ := List.getLast?_eq_some_iff.mp h
  subst hys
  simp only [pushTrajectory]
  split_ifs with hlen
  · cases ys with
    | nil => simp [TRAJECTORY_LENGTH] at hlen
    | cons a rest =>
      refine ⟨rest, ?_⟩
      simp
  · exact ⟨ys, by simp⟩

theorem updateTrack_success_recent (env : Env) (inp : FrameInput) (id : Int)
    (tobj : TrackedObject) (h : (updateTrack env inp id tobj).2 = true) :
    (updateTrack env inp id tobj).1.tracker = true ∧
      (updateTrack env inp id tobj).1.trajectory.getLast? =
        some (getCenter (updateTrack env inp id tobj).1.boundingBox) := by
  cases hm : (if tobj.tracker then inp.trackerUpdate id else none) with
  | none => simp [updateTrack, hm] at h
  | some r =>
    have ht : tobj.tracker = true := by
      cases hb : tobj.tracker with
      | true => rfl
      | false => simp [hb] at hm
    have hupd : inp.trackerUpdate id = some r := by
      rw [ht] at hm
      simpa using hm
    simp only [updateTrack, ht, if_true, hupd, pushTrajectory_getLast, and_self]

theorem recentInv_updateAndLifecycle (env : Env) (inp : FrameInput) (s : State) :
    RecentInv (updateAndLifecycle env inp s) := by
  intro p hp
  obtain ⟨t, _, hpt, hok⟩ := updateAndLifecycle_active_updated env inp s p hp
  rw [hpt]
  exact updateTrack_success_recent env inp p.1 t hok

theorem recentInv_associateAndTrack (env : Env) (inp : FrameInput) (s : State)
    (h : RecentInv s) : RecentInv (associateAndTrack env inp s) := by
  intro p hp
  rcases associateAndTrack_active_cases env inp s
    (fun t => t.tracker = true ∧ t.trajectory.getLast? = some (getCenter t.boundingBox))
    (fun _ _ _ => ⟨rfl, rfl⟩) (fun _ _ _ _ => ⟨rfl, rfl⟩) p hp with h1 | h1
  · exact h p h1
  · exact h1

theorem recentInv_stable (env : Env) : Stable env RecentInv := by
  refine ⟨?_, fun inp s _ => recentInv_updateAndLifecycle env inp s,
    recentInv_associateAndTrack env, fun _ _ h => h, fun _ _ h => h, fun _ _ h => h,
    fun _ _ h => h⟩
  intro s _ p hp
  simp [stopProcessing] at hp

theorem recentInv_run (env : Env) (s0 : State) (cmds : List Command) :
    RecentInv (run env s0 cmds) := by
  apply run_stable env RecentInv (recentInv_stable env)
  intro s p hp
  simp [startProcessing] at hp

/-- C21: velocity uses the two most recent trajectory positions.  At every
frame boundary of a run each active track has a non-empty trajectory whose
last point equals `getCenter boundingBox` (also after the tracker-update phase
with the lifecycle pass and after the association of the next frame).  Hence,
when the tracker of an active track reports the refined box `r`, the updated
trajectory ends with the centre of the pre-update box followed by the centre
of `r`: the previous centre used for the velocity is the second-most-recent
point and the current centre is the most recent point; and with a recorded
previous timestamp and more than 1/1000 s elapsed the new velocity is the norm
of the difference of these two points divided by the elapsed seconds. -/
theorem velocity_uses_recent_positions (env : Env) (s0 : State) (cmds : List Command) :
    (∀ p ∈ (run env s0 cmds).active_tracks,
      p.2.trajectory ≠ [] ∧ p.2.trajectory.getLast? = some (getCenter p.2.boundingBox)) ∧
    (∀ inp,
      (∀ p ∈ (updateAndLifecycle env inp (run env s0 cmds)).active_tracks,
        p.2.trajectory ≠ [] ∧ p.2.trajectory.getLast? = some (getCenter p.2.boundingBox)) ∧
      (∀ p ∈ (processFrame env inp (run env s0 cmds)).active_tracks,
        p.2.trajectory ≠ [] ∧ p.2.trajectory.getLast? = some (getCenter p.2.boundingBox))) ∧
    (∀ (inp : FrameInput) (p : Int × TrackedObject) (r : Rect),
      p ∈ (run env s0 cmds).active_tracks → inp.trackerUpdate p.1 = some r →
      (updateTrack env inp p.1 p.2).2 = true ∧
      (updateTrack env inp p.1 p.2).1.boundingBox = r ∧
      (∃ front, ∃ prev cur : Point,
        (updateTrack env inp p.1 p.2).1.trajectory = front ++ [prev, cur] ∧
        prev = getCenter p.2.boundingBox ∧ cur = getCenter r ∧
        (0 < p.2.last_update_tick → 1 / 1000 < elapsedSeconds env inp p.2 →
          (updateTrack env inp p.1 p.2).1.velocity =
            env.norm ⟨cur.x - prev.x, cur.y - prev.y⟩ / elapsedSeconds env inp p.2))) := by
  have hinv := recentInv_run env s0 cmds
  have hne : ∀ (s : State), RecentInv s → ∀ p ∈ s.active_tracks,
      p.2.trajectory ≠ [] ∧ p.2.trajectory.getLast? = some (getCenter p.2.boundingBox) := by
    intro s hs p hp
    refine ⟨?_, (hs p hp).2⟩
    intro hnil
    have := (hs p hp).2
    rw [hnil] at this
    cases this
  refine ⟨hne _ hinv, fun inp => ⟨hne _ (recentInv_updateAndLifecycle env inp _),
    hne _ (processFrame_stable env RecentInv (recentInv_stable env) inp _ hinv)⟩, ?_⟩
  intro inp p r hp hupd
  obtain ⟨htr, hlast⟩ := hinv p hp
  obtain ⟨hnonempty, _⟩ := hne _ hinv p hp
  obtain ⟨front, hfront⟩ := pushTrajectory_last_two p.2.trajectory
    (getCenter p.2.boundingBox) (getCenter r) hlast
  have hlen := pushTrajectory_length_ge p.2.trajectory (getCenter r) hnonempty
  refine ⟨?_, ?_, front, getCenter p.2.boundingBox, getCenter r, ?_, rfl, rfl, ?_⟩
  · simp only [updateTrack, htr, if_true, hupd]
  · simp only [updateTrack, htr, if_true, hupd]
  · simp only [updateTrack, htr, if_true, hupd]
    exact hfront
  · intro htick hel
    simp only [elapsedSeconds] at hel
    simp only [updateTrack, htr, if_true, hupd, newVelocity, elapsedSeconds]
    rw [if_pos ⟨hlen, htick⟩, if_pos hel]

/-- Witness of C21 on the speeding scenario: the track created at centre
`(0, 0)` has trajectory `[(0, 0)]`; after the update to the box with centre
`(200, 0)` its trajectory is `[(0, 0), (200, 0)]`. -/
theorem velocity_uses_recent_positions_witness :
    (mapAt (run sampleEnv idleState [Command.frame timedSighting]).active_tracks 0).trajectory =
      [⟨0, 0⟩] ∧
    getCenter (mapAt (run sampleEnv idleState
      [Command.frame timedSighting]).active_tracks 0).boundingBox = ⟨0, 0⟩ ∧
    (updateTrack sampleEnv fastMove 0 (mapAt (run sampleEnv idleState
      [Command.frame timedSighting]).active_tracks 0)).1.trajectory = [⟨0, 0⟩, ⟨200, 0⟩] ∧
    ∃ front, ∃ prev cur : Point,
      (updateTrack sampleEnv fastMove 0 (mapAt (run sampleEnv idleState
        [Command.frame timedSighting]).active_tracks 0)).1.trajectory = front ++ [prev, cur] ∧
      prev = getCenter (mapAt (run sampleEnv idleState
        [Command.frame timedSighting]).active_tracks 0).boundingBox ∧
      cur = getCenter ⟨175, -25, 50, 50⟩ := by
  have h := (velocity_uses_recent_positions sampleEnv idleState
    [Command.frame timedSighting]).2.2 fastMove
    (0, mapAt (run sampleEnv idleState [Command.frame timedSighting]).active_tracks 0)
    ⟨175, -25, 50, 50⟩ (mapAt_mem (by decide)) rfl
  obtain ⟨_, _, front, prev, cur, h1, h2, h3, _⟩ := h
  exact ⟨by decide, by decide, by decide, front, prev, cur, h1, h2, h3⟩

/-! ## `calculateIoU` on 32-bit `int` areas -/

theorem wrapInt32_of_fits (n : Int) (h : fitsInt32 n) : wrapInt32 n = n := by
  obtain ⟨h1, h2⟩ := h
  simp only [INT_MIN, INT_MAX] at h1 h2
  simp only [wrapInt32]
  omega

theorem wrapInt32_fits (n : Int) : fitsInt32 (wrapInt32 n) := by
  simp only [fitsInt32, INT_MIN, INT_MAX, wrapInt32]
  omega

theorem inter_area_nonneg (a b : Rect) : 0 ≤ (a.inter b).area := by
  by_cases h : 0 < (a.inter b).area
  · exact le_of_lt h
  · have hz : a.inter b = Rect.zero := by
      rw [inter_eq_overlap]
      rw [inter_area_pos_iff] at h
      rw [if_pos (by omega)]
    rw [hz]
    decide

/-- The 32-bit evaluation of `calculateIoU` agrees with the evaluation in exact
integer arithmetic whenever the two `int` areas and their `int` sum are
representable (the area of the intersection then is too). -/
theorem calculateIoU32_eq_calculateIoU (A B : Rect) (hA : fitsInt32 A.area)
    (hB : fitsInt32 B.area) (hS : fitsInt32 (A.area + B.area)) :
    calculateIoU32 A B = calculateIoU A B := by
  have hi : fitsInt32 (A.inter B).area := by
    have h0 := inter_area_nonneg A B
    by_cases h : 0 < (A.inter B).area
    · have hle := (inter_area_le A B h).1
      obtain ⟨_, h2⟩ := hA
      simp only [fitsInt32, INT_MIN, INT_MAX] at h2 ⊢
      omega
    · simp only [fitsInt32, INT_MIN, INT_MAX]
      omega
  have e1 : (A.inter B).area32 = (A.inter B).area := wrapInt32_of_fits _ hi
  have e2 : A.area32 = A.area := wrapInt32_of_fits _ hA
  have e3 : B.area32 = B.area := wrapInt32_of_fits _ hB
  simp only [calculateIoU32, calculateIoU, e1, e2, e3, wrapInt32_of_fits _ hS]

/-- Symmetry holds for the 32-bit evaluation as well, for all rectangles. -/
theorem calculateIoU32_symmetric (A B : Rect) : calculateIoU32 A B = calculateIoU32 B A := by
  simp only [calculateIoU32, inter_comm A B, Int.add_comm A.area32 B.area32]

/-- The 32-bit evaluation is 0 as well when an operand is empty or the rectangles
do not overlap: the intersection is `Rect()`, whose area is 0. -/
theorem calculateIoU32_zero_of_no_overlap (A B : Rect)
    (h : A.width ≤ 0 ∨ A.height ≤ 0 ∨ B.width ≤ 0 ∨ B.height ≤ 0 ∨
      min (A.x + A.width) (B.x + B.width) ≤ max A.x B.x ∨
      min (A.y + A.height) (B.y + B.height) ≤ max A.y B.y) :
    calculateIoU32 A B = 0 := by
  have hz : A.inter B = Rect.zero := by
    apply inter_zero_of_no_overlap
    simp only [overlapWidth, overlapHeight]
    omega
  have h0 : Rect.zero.area32 = 0 := by decide
  simp [calculateIoU32, hz, h0]

/-- C3 as stated fails: the rectangle `(0, 0, 32768, 32768)` has positive width
and height and an area of `2^30`, which is representable, but the `int` sum
`box1.area() + box2.area()` is `2^31` and wraps to `INT_MIN`; `unionArea` is
then negative and the guard `unionArea <= 0` returns 0, not 1. -/
theorem calculateIoU_self_overflow :
    (0 < (⟨0, 0, 32768, 32768⟩ : Rect).width ∧ 0 < (⟨0, 0, 32768, 32768⟩ : Rect).height) ∧
    (⟨0, 0, 32768, 32768⟩ : Rect).area32 = 1073741824 ∧
    wrapInt32 ((⟨0, 0, 32768, 32768⟩ : Rect).area32 + (⟨0, 0, 32768, 32768⟩ : Rect).area32) =
      INT_MIN ∧
    calculateIoU32 ⟨0, 0, 32768, 32768⟩ ⟨0, 0, 32768, 32768⟩ = 0 ∧
    calculateIoU32 ⟨0, 0, 32768, 32768⟩ ⟨0, 0, 32768, 32768⟩ ≠ 1 := by
  have hi : (⟨0, 0, 32768, 32768⟩ : Rect).inter ⟨0, 0, 32768, 32768⟩ = ⟨0, 0, 32768, 32768⟩ :=
    inter_self _ (by decide) (by decide)
  have ha : (⟨0, 0, 32768, 32768⟩ : Rect).area32 = 1073741824 := by decide
  have hs : wrapInt32 (1073741824 + 1073741824) = -2147483648 := by decide
  have hv : calculateIoU32 ⟨0, 0, 32768, 32768⟩ ⟨0, 0, 32768, 32768⟩ = 0 := by
    simp only [calculateIoU32, hi, ha, hs]
    norm_num
  refine ⟨⟨by decide, by decide⟩, ha, ?_, hv, ?_⟩
  · rw [ha, hs]
    rfl
  · rw [hv]
    norm_num

/-- C3 (amended): for every rectangle with positive width and positive height
whose doubled area `2 * width * height` does not exceed `INT_MAX`, so that
neither `area()` nor the `int` sum `box1.area() + box2.area()` overflows,
`calculateIoU A A = 1` in 32-bit arithmetic (and the evaluation in exact
integer arithmetic gives the same value). -/
theorem calculateIoU_self_in_range (A : Rect) (hw : 0 < A.width) (hh : 0 < A.height)
    (hfit : 2 * (A.width * A.height) ≤ INT_MAX) :
    calculateIoU32 A A = 1 ∧ calculateIoU32 A A = calculateIoU A A := by
  have hpos : 0 < A.width * A.height := Int.mul_pos hw hh
  simp only [INT_MAX] at hfit
  have hA : fitsInt32 A.area := by
    simp only [fitsInt32, INT_MIN, INT_MAX, Rect.area]
    omega
  have hS : fitsInt32 (A.area + A.area) := by
    simp only [fitsInt32, INT_MIN, INT_MAX, Rect.area]
    omega
  have heq := calculateIoU32_eq_calculateIoU A A hA hA hS
  exact ⟨heq.trans (calculateIoU_self A hw hh), heq⟩

/-- Witness of C3 (amended) on the box (0, 0, 50, 50) and on the largest square
the proviso admits, (0, 0, 32767, 32767). -/
theorem calculateIoU_self_in_range_witness :
    ((0 < (⟨0, 0, 50, 50⟩ : Rect).width ∧ 0 < (⟨0, 0, 50, 50⟩ : Rect).height ∧
        2 * ((⟨0, 0, 50, 50⟩ : Rect).width * (⟨0, 0, 50, 50⟩ : Rect).height) ≤ INT_MAX) ∧
      calculateIoU32 ⟨0, 0, 50, 50⟩ ⟨0, 0, 50, 50⟩ = 1) ∧
    (2 * ((⟨0, 0, 32767, 32767⟩ : Rect).width * (⟨0, 0, 32767, 32767⟩ : Rect).height) ≤ INT_MAX ∧
      calculateIoU32 ⟨0, 0, 32767, 32767⟩ ⟨0, 0, 32767, 32767⟩ = 1) :=
  ⟨⟨by decide, (calculateIoU_self_in_range ⟨0, 0, 50, 50⟩ (by decide) (by decide)
      (by decide)).1⟩,
    by decide, (calculateIoU_self_in_range ⟨0, 0, 32767, 32767⟩ (by decide) (by decide)
      (by decide)).1⟩

/-! ## A reactivated track overwritten within the same association -/

/-- Evaluation of the code for C17: in the re-identification scenario with the
two detections of `splitInput`, detection 0 with box `(0, 0, 100, 40)` is
unconsumed after pass 1, exceeds the re-identification cutoff against lost
track 0, and its tracker initialisation succeeds; the loop body of pass 2
reactivates track 0 with that box and the trajectory `[(50, 20)]`.  Track 0
stays in `lost_tracks` until the loop has ended, so detection 1 re-identifies
it again and overwrites the entry.  When the call returns, detection 0 is
consumed and no id was allocated for it, the only active track carries the box
`(0, 60, 100, 40)` and the trajectory `[(50, 80)]`, and no active track has the
box of detection 0 or the trajectory `[getCenter d]` of detection 0. -/
theorem reactivated_track_overwritten :
    consumedAfterPass1 splitInput
      (preAssociation sampleEnv idleState demotedRun splitInput) = [false, false] ∧
    mapKeys (preAssociation sampleEnv idleState demotedRun splitInput).lost_tracks = [0] ∧
    REID_IOU_THRESHOLD < calculateIoU
      (mapAt (preAssociation sampleEnv idleState demotedRun splitInput).lost_tracks 0).boundingBox
      ⟨0, 0, 100, 40⟩ ∧
    splitInput.reidInit 0 = TrackerInit.ok ∧
    (reidStep splitInput (preAssociation sampleEnv idleState demotedRun splitInput).lost_tracks 0
      ⟨0, 0, 100, 40⟩
      ⟨(preAssociation sampleEnv idleState demotedRun splitInput).active_tracks,
        [false, false], []⟩).active_tracks.map
        (fun p => (p.1, p.2.boundingBox, p.2.trajectory)) =
      [(0, ⟨0, 0, 100, 40⟩, [getCenter ⟨0, 0, 100, 40⟩])] ∧
    (reidResult splitInput
      (preAssociation sampleEnv idleState demotedRun splitInput)).detection_matched.getD 0 false =
        true ∧
    (associateAndTrack sampleEnv splitInput
      (preAssociation sampleEnv idleState demotedRun splitInput)).next_track_id =
      (preAssociation sampleEnv idleState demotedRun splitInput).next_track_id ∧
    (associateAndTrack sampleEnv splitInput
      (preAssociation sampleEnv idleState demotedRun splitInput)).active_tracks.map
        (fun p => (p.1, p.2.boundingBox, p.2.trajectory)) =
      [(0, ⟨0, 60, 100, 40⟩, [⟨50, 80⟩])] ∧
    (∀ p ∈ (associateAndTrack sampleEnv splitInput
        (preAssociation sampleEnv idleState demotedRun splitInput)).active_tracks,
      p.2.boundingBox ≠ ⟨0, 0, 100, 40⟩ ∧ p.2.trajectory ≠ [getCenter ⟨0, 0, 100, 40⟩]) := by
  have hiou1 : calculateIoU ⟨0, 0, 100, 100⟩ ⟨0, 0, 100, 40⟩ = 2 / 5 := by
    norm_num [calculateIoU, Rect.inter, Rect.empty, Rect.area, Rect.zero]
  have hiou2 : calculateIoU ⟨0, 0, 100, 100⟩ ⟨0, 60, 100, 40⟩ = 2 / 5 := by
    norm_num [calculateIoU, Rect.inter, Rect.empty, Rect.area, Rect.zero]
  have hsorted : MapSorted (preAssociation sampleEnv idleState demotedRun splitInput).lost_tracks :=
    (sortedInv_updateAndLifecycle sampleEnv splitInput _
      (sortedInv_run sampleEnv idleState demotedRun)).2
  have hnn : ∀ k ∈ mapKeys (preAssociation sampleEnv idleState demotedRun splitInput).lost_tracks,
      0 ≤ k := by decide
  have hl : (preAssociation sampleEnv idleState demotedRun splitInput).lost_tracks =
      [(0, mapAt (preAssociation sampleEnv idleState demotedRun splitInput).lost_tracks 0)] := by
    decide
  have hact : (preAssociation sampleEnv idleState demotedRun splitInput).active_tracks = [] := by
    decide
  have hb : (mapAt (preAssociation sampleEnv idleState demotedRun
      splitInput).lost_tracks 0).boundingBox = ⟨0, 0, 100, 100⟩ := by decide
  have hmem : (0, mapAt (preAssociation sampleEnv idleState demotedRun splitInput).lost_tracks 0) ∈
      (preAssociation sampleEnv idleState demotedRun splitInput).lost_tracks :=
    mapAt_mem (by decide)
  have hp1 : consumedAfterPass1 splitInput
      (preAssociation sampleEnv idleState demotedRun splitInput) = [false, false] := by decide
  have hgt : REID_IOU_THRESHOLD < calculateIoU
      (mapAt (preAssociation sampleEnv idleState demotedRun splitInput).lost_tracks 0).boundingBox
      ⟨0, 0, 100, 40⟩ := by
    simp only [hb, hiou1]
    norm_num [REID_IOU_THRESHOLD]
  obtain ⟨p, hp, _, _, hstep1⟩ := reidStep_hit splitInput
    (preAssociation sampleEnv idleState demotedRun splitInput).lost_tracks 0 ⟨0, 0, 100, 40⟩
    ⟨[], [false, false], []⟩ hsorted hnn (by decide) rfl ⟨_, hmem, hgt⟩
  have hp0 : p = (0, mapAt (preAssociation sampleEnv idleState demotedRun
      splitInput).lost_tracks 0) := by
    rw [hl] at hp
    exact List.mem_singleton.mp hp
  rw [hp0] at hstep1
  obtain ⟨q, hq, _, _, hstep2⟩ := reidStep_hit splitInput
    (preAssociation sampleEnv idleState demotedRun splitInput).lost_tracks 1 ⟨0, 60, 100, 40⟩
    ⟨mapAssign [] 0 (reactivate (mapAt (preAssociation sampleEnv idleState demotedRun
        splitInput).lost_tracks 0) ⟨0, 0, 100, 40⟩ (splitInput.initTick 0)),
      [false, false].set 0 true, [] ++ [0]⟩ hsorted hnn (by decide) rfl
    ⟨_, hmem, by simp only [hb, hiou2]; norm_num [REID_IOU_THRESHOLD]⟩
  have hq0 : q = (0, mapAt (preAssociation sampleEnv idleState demotedRun
      splitInput).lost_tracks 0) := by
    rw [hl] at hq
    exact List.mem_singleton.mp hq
  rw [hq0] at hstep2
  have hres : reidResult splitInput (preAssociation sampleEnv idleState demotedRun splitInput) =
      ⟨mapAssign (mapAssign [] 0 (reactivate (mapAt (preAssociation sampleEnv idleState
          demotedRun splitInput).lost_tracks 0) ⟨0, 0, 100, 40⟩ (splitInput.initTick 0))) 0
        (reactivate (mapAt (preAssociation sampleEnv idleState demotedRun
          splitInput).lost_tracks 0) ⟨0, 60, 100, 40⟩ (splitInput.initTick 1)),
        ([false, false].set 0 true).set 1 true, [] ++ [0] ++ [0]⟩ := by
    have hunf : reidResult splitInput
        (preAssociation sampleEnv idleState demotedRun splitInput) =
        reidStep splitInput (preAssociation sampleEnv idleState demotedRun splitInput).lost_tracks
          1 ⟨0, 60, 100, 40⟩
          (reidStep splitInput
            (preAssociation sampleEnv idleState demotedRun splitInput).lost_tracks 0
            ⟨0, 0, 100, 40⟩ ⟨[], [false, false], []⟩) := by
      simp only [reidResult, hp1]
      rfl
    rw [hunf, hstep1, hstep2]
  have hfinal : (associateAndTrack sampleEnv splitInput
      (preAssociation sampleEnv idleState demotedRun splitInput)).active_tracks.map
        (fun p => (p.1, p.2.boundingBox, p.2.trajectory)) =
      [(0, ⟨0, 60, 100, 40⟩, [⟨50, 80⟩])] := by
    rw [associateAndTrack_active_eq, hres]
    decide
  refine ⟨hp1, by decide, hgt, rfl, ?_, ?_, ?_, hfinal, ?_⟩
  · rw [hact, hstep1]
    decide
  · rw [hres]
    rfl
  · have hn : (associateAndTrack sampleEnv splitInput
        (preAssociation sampleEnv idleState demotedRun splitInput)).next_track_id =
        (newLoop sampleEnv splitInput
          (reidResult splitInput
            (preAssociation sampleEnv idleState demotedRun splitInput)).detection_matched
          splitInput.detected_classIds splitInput.detected_boxes 0
          { active_tracks := (reidResult splitInput
              (preAssociation sampleEnv idleState demotedRun splitInput)).active_tracks
            next_track_id := (preAssociation sampleEnv idleState demotedRun splitInput).next_track_id
            new_id_log :=
              (preAssociation sampleEnv idleState demotedRun splitInput).new_id_log }).next_track_id :=
      rfl
    rw [hn, hres]
    decide
  · intro p hp
    have hmap := List.mem_map_of_mem (fun p : Int × TrackedObject =>
      (p.1, p.2.boundingBox, p.2.trajectory)) hp
    rw [hfinal] at hmap
    have hpe := List.mem_singleton.mp hmap
    simp only [Prod.mk.injEq] at hpe
    obtain ⟨_, hbx, htr⟩ := hpe
    rw [hbx, htr]
    exact ⟨by decide, by decide⟩


end VideoProcessor
